import Mathlib

/-!
# remote-process-manager: a verification development

A shallow embedding of the control plane (message envelope, framed link,
agent registry, agent listener), of the process supervisor, of the
instance catalogue with its template rendering, of the agent request
handler and of the agent reconnect loop, followed by theorems about them.

Conventions of the embedding

* A Go `map[string]V` is a `GoMap V`: an association list with the Go
  operations `m[k]`, `m[k] = v` and `delete(m, k)`.
* A Go `error` is an `Option String` (`none` is `nil`), the string being
  the text of `err.Error()`.
* A Go pointer is an index into a list that plays the heap of the objects
  of that type; allocation appends to the list.
* The outcome of a call into the operating system or into a library
  (a file written, a child spawned, a context that is done) is an
  explicit argument of the function that makes the call.
-/

set_option autoImplicit false

deriving instance DecidableEq for Except

/-! ## Go maps -/

/-- A Go `map[string]V`, as an association list. -/
abbrev GoMap (V : Type) := List (String × V)

namespace GoMap

variable {V : Type}

/-- The lookup `v, ok := m[k]`. -/
def get : GoMap V → String → Option V
  | [], _ => none
  | (k', v) :: rest, k => if k' = k then some v else get rest k

/-- The test `_, ok := m[k]`. -/
def has (m : GoMap V) (k : String) : Bool := (get m k).isSome

/-- The assignment `m[k] = v`: replaces the value of an existing key, adds the key otherwise. -/
def set : GoMap V → String → V → GoMap V
  | [], k, v => [(k, v)]
  | (k', v') :: rest, k, v => if k' = k then (k', v) :: rest else (k', v') :: set rest k v

/-- The builtin `delete(m, k)`. -/
def delete : GoMap V → String → GoMap V
  | [], _ => []
  | (k', v) :: rest, k => if k' = k then delete rest k else (k', v) :: delete rest k

/-- The keys of the map, as `for k := range m` visits them. -/
def keys (m : GoMap V) : List String := m.map Prod.fst

/-- The values of the map, as `for _, v := range m` visits them. -/
def values (m : GoMap V) : List V := m.map Prod.snd

end GoMap

/-! ## Pointers -/

/-- An update through a pointer: the object at `p` in the heap becomes `f` of itself. -/
def modifyAt {α : Type} (heap : List α) (p : Nat) (f : α → α) : List α :=
  match heap[p]? with
  | some x => heap.set p (f x)
  | none => heap

/-! ## The package time -/

namespace time

/-- The instant of a Go `time.Time`, counted in nanoseconds from the zero
value of the type (January 1 of year 1, 00:00:00 UTC). The embedding keeps the instant
of a time value and neither its location nor its monotonic reading. -/
structure Time where
  nanos : Int
deriving DecidableEq, Repr

/-- The zero value `time.Time{}`. -/
def Time.zero : Time := ⟨0⟩

/-- The years that `Time.MarshalJSON` accepts, 0 to 9999: year 0 begins 366 days before the
zero instant and year 10000 begins 3652059 days after it. -/
def Time.marshalable (t : Time) : Bool :=
  decide (-(366 * 86400 * 1000000000 : Int) ≤ t.nanos) &&
  decide (t.nanos < (3652059 * 86400 * 1000000000 : Int))

/-- The type `time.Duration`: a count of nanoseconds. -/
abbrev Duration := Int

def Millisecond : Duration := 1000000

def Second : Duration := 1000000000

/-- The method `Time.Add`. -/
def Time.Add (t : Time) (d : Duration) : Time := ⟨t.nanos + d⟩

/-- The method `Time.Before`. -/
def Time.Before (t u : Time) : Bool := decide (t.nanos < u.nanos)

end time

/-! ## internal/protocol/message.go -/

namespace protocol

open time

/-- The type `Kind`, a Go string. -/
abbrev Kind := String

def KindRegister : Kind := "register"
def KindRequest : Kind := "request"
def KindResponse : Kind := "response"
def KindHeartbeat : Kind := "heartbeat"

/-- The envelope `Message`. `Payload` is a `json.RawMessage`: the text of a JSON value, or empty. -/
structure Message where
  Kind : Kind
  ID : String
  AgentID : String
  Typ : String
  Payload : String
  Error : String
  TS : Time
deriving DecidableEq, Repr

/-- The zero value `Message{}`. -/
def Message.zero : Message := ⟨"", "", "", "", "", "", Time.zero⟩

/-- The method `Message.ValidateBasic`. -/
def Message.ValidateBasic (m : Message) : Option String :=
  if m.Kind = "" then some "missing kind"
  else if m.Kind = KindRegister then
    if m.AgentID = "" then some "register missing agent_id" else none
  else if m.Kind = KindRequest then
    if m.ID = "" then some "request missing id"
    else if m.AgentID = "" then some "request missing agent_id"
    else if m.Typ = "" then some "request missing type"
    else none
  else if m.Kind = KindResponse then
    if m.ID = "" then some "response missing id"
    else if m.AgentID = "" then some "response missing agent_id"
    else none
  else if m.Kind = KindHeartbeat then
    if m.AgentID = "" then some "heartbeat missing agent_id" else none
  else some ("unknown kind: " ++ m.Kind)

/-- The function `NewRegister`; `payloadJSON` is the outcome of `json.Marshal(payload)`. -/
def NewRegister (agentID : String) (payloadJSON : Except String String) (now : Time) :
    Except String Message :=
  match payloadJSON with
  | .error e => .error e
  | .ok b => .ok ⟨KindRegister, "", agentID, "", b, "", now⟩

/-- The function `NewRequest`; `payloadJSON` is the outcome of `json.Marshal(payload)`. -/
def NewRequest (agentID id typ : String) (payloadJSON : Except String String) (now : Time) :
    Except String Message :=
  match payloadJSON with
  | .error e => .error e
  | .ok b => .ok ⟨KindRequest, id, agentID, typ, b, "", now⟩

/-- The function `NewResponse`; `payloadJSON` is `none` for a nil payload and otherwise the
outcome of `json.Marshal(payload)`; `respErr` is the text of `respErr`, if it is not nil. -/
def NewResponse (agentID id : String) (payloadJSON : Option (Except String String))
    (respErr : Option String) (now : Time) : Except String Message :=
  match payloadJSON with
  | some (.error e) => .error e
  | some (.ok b) => .ok ⟨KindResponse, id, agentID, "", b, respErr.getD "", now⟩
  | none => .ok ⟨KindResponse, id, agentID, "", "", respErr.getD "", now⟩

/-- The fields that a kind requires are present. -/
def Message.wellFormed (m : Message) : Prop :=
  (m.Kind = KindRegister ∧ m.AgentID ≠ "") ∨
  (m.Kind = KindRequest ∧ m.ID ≠ "" ∧ m.AgentID ≠ "" ∧ m.Typ ≠ "") ∨
  (m.Kind = KindResponse ∧ m.ID ≠ "" ∧ m.AgentID ≠ "") ∨
  (m.Kind = KindHeartbeat ∧ m.AgentID ≠ "")

end protocol

/-! ## encoding/json, as far as the framed link uses it

`transport.Conn.Send` hands a `Message` to `json.Marshal`, which encodes the
`Payload` field (a `json.RawMessage`) by running the JSON scanner over it:
the text must be one valid JSON value, and it is written compacted. The
scanner below is the state machine of the Go scanner. Its functions take the limit of
nesting as an argument, for which the code has the constant `maxNestingDepth`: every call
of the code is a call with that constant. -/

namespace json

/-- The entries of the scanner's `parseState` stack. -/
inductive ParseState
  | objectKey
  | objectValue
  | arrayValue
deriving DecidableEq, Repr

/-- The scanner's `step` function, as a value: one constructor per state. -/
inductive Step
  | beginValueOrEmpty
  | beginValue
  | beginStringOrEmpty
  | beginString
  | endValue
  | endTop
  | inString
  | inStringEsc
  | inStringEscU
  | inStringEscU1
  | inStringEscU12
  | inStringEscU123
  | neg
  | one
  | zero
  | dot
  | dot0
  | e
  | eSign
  | e0
  | literal (rest : List Char)
deriving DecidableEq, Repr

/-- The scanner: its step, its stack (top first) and whether a top-level value has ended. -/
structure scanner where
  step : Step
  parseState : List ParseState
  endTop : Bool
deriving DecidableEq, Repr

def maxNestingDepth : Nat := 10000

def isSpace (c : Char) : Bool := c = ' ' || c = '\t' || c = '\r' || c = '\n'

def isDigit (c : Char) : Bool := decide ('0' ≤ c) && decide (c ≤ '9')

def isHex (c : Char) : Bool :=
  isDigit c || (decide ('a' ≤ c) && decide (c ≤ 'f')) || (decide ('A' ≤ c) && decide (c ≤ 'F'))

/-- The scanner after `reset`. -/
def scanner.reset : scanner := ⟨Step.beginValue, [], false⟩

/-- The function `stateEndTop`; the flag says that the character is one that compaction drops.
`none` is the scanner's error. -/
def stateEndTop (s : scanner) (c : Char) : Option (scanner × Bool) :=
  if isSpace c then some (s, true) else none

def scanner.popParseState (s : scanner) : scanner :=
  match s.parseState.tail with
  | [] => ⟨Step.endTop, [], true⟩
  | ps => ⟨Step.endValue, ps, s.endTop⟩

def scanner.pushParseState (limit : Nat) (s : scanner) (p : ParseState) (next : Step) :
    Option (scanner × Bool) :=
  if s.parseState.length + 1 ≤ limit then some (⟨next, p :: s.parseState, s.endTop⟩, false)
  else none

def stateEndValue (s : scanner) (c : Char) : Option (scanner × Bool) :=
  match s.parseState with
  | [] => stateEndTop ⟨Step.endTop, [], true⟩ c
  | ps :: rest =>
    if isSpace c then some (⟨Step.endValue, ps :: rest, s.endTop⟩, true)
    else match ps with
      | ParseState.objectKey =>
        if c = ':' then some (⟨Step.beginValue, ParseState.objectValue :: rest, s.endTop⟩, false)
        else none
      | ParseState.objectValue =>
        if c = ',' then some (⟨Step.beginString, ParseState.objectKey :: rest, s.endTop⟩, false)
        else if c = '\x7d' then some (s.popParseState, false)
        else none
      | ParseState.arrayValue =>
        if c = ',' then some (⟨Step.beginValue, ps :: rest, s.endTop⟩, false)
        else if c = ']' then some (s.popParseState, false)
        else none

def stateBeginString (s : scanner) (c : Char) : Option (scanner × Bool) :=
  if isSpace c then some (s, true)
  else if c = '"' then some (⟨Step.inString, s.parseState, s.endTop⟩, false)
  else none

def stateBeginValue (limit : Nat) (s : scanner) (c : Char) : Option (scanner × Bool) :=
  if isSpace c then some (s, true)
  else if c = '\x7b' then s.pushParseState limit ParseState.objectKey Step.beginStringOrEmpty
  else if c = '[' then s.pushParseState limit ParseState.arrayValue Step.beginValueOrEmpty
  else if c = '"' then some (⟨Step.inString, s.parseState, s.endTop⟩, false)
  else if c = '-' then some (⟨Step.neg, s.parseState, s.endTop⟩, false)
  else if c = '0' then some (⟨Step.zero, s.parseState, s.endTop⟩, false)
  else if c = 't' then some (⟨Step.literal ['r', 'u', 'e'], s.parseState, s.endTop⟩, false)
  else if c = 'f' then some (⟨Step.literal ['a', 'l', 's', 'e'], s.parseState, s.endTop⟩, false)
  else if c = 'n' then some (⟨Step.literal ['u', 'l', 'l'], s.parseState, s.endTop⟩, false)
  else if decide ('1' ≤ c) && decide (c ≤ '9') then some (⟨Step.one, s.parseState, s.endTop⟩, false)
  else none

def state0 (s : scanner) (c : Char) : Option (scanner × Bool) :=
  if c = '.' then some (⟨Step.dot, s.parseState, s.endTop⟩, false)
  else if c = 'e' || c = 'E' then some (⟨Step.e, s.parseState, s.endTop⟩, false)
  else stateEndValue s c

def stateESign (s : scanner) (c : Char) : Option (scanner × Bool) :=
  if isDigit c then some (⟨Step.e0, s.parseState, s.endTop⟩, false) else none

/-- One call `s.step(s, c)`. -/
def scanner.next (limit : Nat) (s : scanner) (c : Char) : Option (scanner × Bool) :=
  let goto (st : Step) : Option (scanner × Bool) := some (⟨st, s.parseState, s.endTop⟩, false)
  match s.step with
  | Step.beginValueOrEmpty =>
    if isSpace c then some (s, true)
    else if c = ']' then stateEndValue s c
    else stateBeginValue limit s c
  | Step.beginValue => stateBeginValue limit s c
  | Step.beginStringOrEmpty =>
    if isSpace c then some (s, true)
    else if c = '\x7d' then
      stateEndValue ⟨s.step, ParseState.objectValue :: s.parseState.tail, s.endTop⟩ c
    else stateBeginString s c
  | Step.beginString => stateBeginString s c
  | Step.endValue => stateEndValue s c
  | Step.endTop => stateEndTop s c
  | Step.inString =>
    if c = '"' then goto Step.endValue
    else if c = '\\' then goto Step.inStringEsc
    else if c.toNat < 32 then none
    else some (s, false)
  | Step.inStringEsc =>
    if c = 'b' || c = 'f' || c = 'n' || c = 'r' || c = 't' || c = '\\' || c = '/' || c = '"' then
      goto Step.inString
    else if c = 'u' then goto Step.inStringEscU
    else none
  | Step.inStringEscU => if isHex c then goto Step.inStringEscU1 else none
  | Step.inStringEscU1 => if isHex c then goto Step.inStringEscU12 else none
  | Step.inStringEscU12 => if isHex c then goto Step.inStringEscU123 else none
  | Step.inStringEscU123 => if isHex c then goto Step.inString else none
  | Step.neg =>
    if c = '0' then goto Step.zero
    else if decide ('1' ≤ c) && decide (c ≤ '9') then goto Step.one
    else none
  | Step.one => if isDigit c then some (s, false) else state0 s c
  | Step.zero => state0 s c
  | Step.dot => if isDigit c then goto Step.dot0 else none
  | Step.dot0 =>
    if isDigit c then some (s, false)
    else if c = 'e' || c = 'E' then goto Step.e
    else stateEndValue s c
  | Step.e => if c = '+' || c = '-' then goto Step.eSign else stateESign s c
  | Step.eSign => stateESign s c
  | Step.e0 => if isDigit c then some (s, false) else stateEndValue s c
  | Step.literal [] => none
  | Step.literal [x] => if c = x then goto Step.endValue else none
  | Step.literal (x :: rest) => if c = x then goto (Step.literal rest) else none

/-- The method `eof`: true when the input seen so far is one complete value. -/
def scanner.eof (s : scanner) : Bool :=
  if s.endTop then true
  else match s.next maxNestingDepth ' ' with
    | some (s', _) => s'.endTop
    | none => false

/-- What compaction with `escapeHTML` writes for one character that the scanner keeps or drops. -/
def compactChar (c : Char) (drop : Bool) : List Char :=
  if c = '<' then "\\u003c".data
  else if c = '>' then "\\u003e".data
  else if c = '&' then "\\u0026".data
  else if c.toNat = 0x2028 then "\\u2028".data
  else if c.toNat = 0x2029 then "\\u2029".data
  else if drop then []
  else [c]

/-- The loop of `appendCompact(dst, src, true)`: `none` when `src` is not valid JSON. -/
def compactLoop (limit : Nat) : scanner → List Char → Option (List Char)
  | s, [] => if s.eof then some [] else none
  | s, c :: cs =>
    match s.next limit c with
    | none => none
    | some (s', drop) =>
      match compactLoop limit s' cs with
      | none => none
      | some out => some (compactChar c drop ++ out)

end json

/-! ## encoding/json: strings, and the scanner as the decoder runs it -/

namespace json

/-- The table `hex` of the encoder. -/
def hex (n : Nat) : Char := if n < 10 then Char.ofNat (48 + n) else Char.ofNat (87 + n)

/-- The table `htmlSafeSet`: the ASCII characters that the encoder copies as they are. -/
def htmlSafe (c : Char) : Bool :=
  decide (0x20 ≤ c.toNat) && decide (c.toNat < 0x80) && !(c = '"' || c = '&' || c = '<' ||
    c = '>' || c = '\\')

/-- What `appendString` with `escapeHTML` writes for one character of a string. -/
def appendChar (c : Char) : List Char :=
  if c.toNat < 0x80 then
    if htmlSafe c then [c]
    else if c = '\\' || c = '"' then ['\\', c]
    else if c.toNat = 8 then ['\\', 'b']
    else if c.toNat = 12 then ['\\', 'f']
    else if c.toNat = 10 then ['\\', 'n']
    else if c.toNat = 13 then ['\\', 'r']
    else if c.toNat = 9 then ['\\', 't']
    else ['\\', 'u', '0', '0', hex (c.toNat / 16), hex (c.toNat % 16)]
  else if c.toNat = 0x2028 || c.toNat = 0x2029 then ['\\', 'u', '2', '0', '2', hex (c.toNat % 16)]
  else [c]

/-- The function `appendString` with `escapeHTML`: the JSON string for a Go string. -/
def appendString (s : String) : List Char := '"' :: (s.data.flatMap appendChar ++ ['"'])

/-- The value of a hexadecimal digit. -/
def hexVal (c : Char) : Option Nat :=
  if decide ('0' ≤ c) && decide (c ≤ '9') then some (c.toNat - 48)
  else if decide ('a' ≤ c) && decide (c ≤ 'f') then some (c.toNat - 87)
  else if decide ('A' ≤ c) && decide (c ≤ 'F') then some (c.toNat - 55)
  else none

/-- The function `getu4`, on the four characters after the `u`. -/
def getu4 (a b c d : Char) : Option Nat :=
  match hexVal a, hexVal b, hexVal c, hexVal d with
  | some x, some y, some z, some w => some (((x * 16 + y) * 16 + z) * 16 + w)
  | _, _, _, _ => none

/-- The character U+FFFD. -/
def replacementChar : Char := Char.ofNat 0xFFFD

/-- The function `utf16.DecodeRune`. -/
def decodeSurrogates (r1 r2 : Nat) : Char :=
  if 0xD800 ≤ r1 ∧ r1 < 0xDC00 ∧ 0xDC00 ≤ r2 ∧ r2 < 0xE000 then
    Char.ofNat ((r1 - 0xD800) * 0x400 + (r2 - 0xDC00) + 0x10000)
  else replacementChar

/-- The loop of `unquoteBytes` over the text between the quotes of a JSON string. `pending`
holds the surrogate that the escape just before gave, for which the loop looks ahead: with
the escape that follows it makes one character, and alone it becomes U+FFFD. -/
def unquoteBody (pending : Option Nat) : List Char → Option (List Char)
  | [] => some (if pending.isSome then [replacementChar] else [])
  | c :: cs =>
    let flush : List Char → List Char :=
      fun r => if pending.isSome then replacementChar :: r else r
    if c = '\\' then
      match cs with
      | [] => none
      | e :: cs1 =>
        if e = 'u' then
          match cs1 with
          | x :: y :: z :: w :: cs2 =>
            match getu4 x y z w with
            | none => none
            | some rr =>
              if pending.isSome ∧ decodeSurrogates (pending.getD 0) rr ≠ replacementChar then
                (unquoteBody none cs2).map (fun r => decodeSurrogates (pending.getD 0) rr :: r)
              else if 0xD800 ≤ rr ∧ rr < 0xE000 then (unquoteBody (some rr) cs2).map flush
              else (unquoteBody none cs2).map (fun r => flush (Char.ofNat rr :: r))
          | _ => none
        else if e = '"' ∨ e = '\\' ∨ e = '/' ∨ e.toNat = 39 then
          (unquoteBody none cs1).map (fun r => flush (e :: r))
        else if e = 'b' then (unquoteBody none cs1).map (fun r => flush (Char.ofNat 8 :: r))
        else if e = 'f' then (unquoteBody none cs1).map (fun r => flush (Char.ofNat 12 :: r))
        else if e = 'n' then (unquoteBody none cs1).map (fun r => flush (Char.ofNat 10 :: r))
        else if e = 'r' then (unquoteBody none cs1).map (fun r => flush (Char.ofNat 13 :: r))
        else if e = 't' then (unquoteBody none cs1).map (fun r => flush (Char.ofNat 9 :: r))
        else none
    else if c = '"' ∨ c.toNat < 32 then none
    else (unquoteBody none cs).map (fun r => flush (c :: r))

/-- The string case of `rescanLiteral`, on the text after the opening quote: the text up to
the closing quote, and the text after it. -/
def stringEnd : List Char → Option (List Char × List Char)
  | [] => none
  | c :: cs =>
    if c = '"' then some ([], cs)
    else if c = '\\' then
      match cs with
      | [] => none
      | e :: cs1 => (stringEnd cs1).map (fun r => (c :: e :: r.1, r.2))
    else (stringEnd cs).map (fun r => (c :: r.1, r.2))

/-- The loop of `checkValid`: the scanner after the text, or `none` at its first error. -/
def scanLoop (limit : Nat) : scanner → List Char → Option scanner
  | s, [] => some s
  | s, c :: cs =>
    match s.next limit c with
    | none => none
    | some (s', _) => scanLoop limit s' cs

end json

/-! ## The package time: instants as RFC 3339 text

`Time.MarshalJSON` writes an instant in the layout of RFC 3339 with nanoseconds and
`Time.UnmarshalJSON` parses it. The embedding keeps the instant of a time value, so it writes
every instant in UTC, as the messages of the program carry it. -/

namespace time

/-- The function `isLeap`. -/
def isLeap (year : Int) : Bool := year % 4 = 0 && (year % 100 != 0 || year % 400 = 0)

/-- The table `daysBefore`: the days of a year that is not a leap year before the month. -/
def daysBefore (month : Nat) : Nat :=
  match month with
  | 0 => 0
  | 1 => 0
  | 2 => 31
  | 3 => 59
  | 4 => 90
  | 5 => 120
  | 6 => 151
  | 7 => 181
  | 8 => 212
  | 9 => 243
  | 10 => 273
  | 11 => 304
  | 12 => 334
  | _ => 365

/-- The days of a year before the month, with the leap day. -/
def monthStart (leap : Bool) (month : Nat) : Nat :=
  daysBefore month + (if leap ∧ 3 ≤ month then 1 else 0)

/-- The function `daysIn`. -/
def daysIn (month : Nat) (year : Int) : Nat :=
  if month = 2 ∧ isLeap year then 29 else daysBefore (month + 1) - daysBefore month

/-- The days from January 1 of year 1 to January 1 of the year. -/
def daysSinceEpoch (year : Int) : Int :=
  365 * (year - 1) + (year - 1) / 4 - (year - 1) / 100 + (year - 1) / 400

/-- The function `Date` in UTC, on a month from 1 to 12, a day of that month and a clock
reading in range (the function normalises other arguments, which the program never passes). -/
def Date (year : Int) (month day hour min sec nsec : Nat) : Time :=
  ⟨((daysSinceEpoch year + (monthStart (isLeap year) month : Nat) + ((day : Int) - 1)) * 86400
      + ((hour * 3600 + min * 60 + sec : Nat) : Int)) * 1000000000 + (nsec : Int)⟩

/-- The date and the clock reading of an instant in UTC. -/
structure Civil where
  year : Int
  month : Nat
  day : Nat
  hour : Nat
  min : Nat
  sec : Nat
  nsec : Nat
deriving DecidableEq, Repr

/-- The year of the day that is `days` after January 1 of year 1, and the day in that year,
counted from 0: cycles of 400, 100, 4 and 1 years. -/
def yearDay (days : Int) : Int × Nat :=
  let n400 := days / 146097
  let r := days % 146097
  let n100 := if r / 36524 = 4 then 3 else r / 36524
  let r2 := r - 36524 * n100
  let n4 := r2 / 1461
  let r3 := r2 % 1461
  let n1 := if r3 / 365 = 4 then 3 else r3 / 365
  (400 * n400 + 100 * n100 + 4 * n4 + n1 + 1, (r3 - 365 * n1).toNat)

/-- The month of the day `yday` of a year, counted from 0. -/
def monthOf (leap : Bool) (yday : Nat) : Nat :=
  if yday < monthStart leap 2 then 1
  else if yday < monthStart leap 3 then 2
  else if yday < monthStart leap 4 then 3
  else if yday < monthStart leap 5 then 4
  else if yday < monthStart leap 6 then 5
  else if yday < monthStart leap 7 then 6
  else if yday < monthStart leap 8 then 7
  else if yday < monthStart leap 9 then 8
  else if yday < monthStart leap 10 then 9
  else if yday < monthStart leap 11 then 10
  else if yday < monthStart leap 12 then 11
  else 12

/-- The methods `Date`, `Clock` and `Nanosecond` of an instant in UTC. -/
def Time.civil (t : Time) : Civil :=
  let secs := t.nanos / 1000000000
  let sod := (secs % 86400).toNat
  let yd := yearDay (secs / 86400)
  let month := monthOf (isLeap yd.1) yd.2
  ⟨yd.1, month, yd.2 - monthStart (isLeap yd.1) month + 1, sod / 3600, sod % 3600 / 60, sod % 60,
    (t.nanos % 1000000000).toNat⟩

/-- The decimal digit of the units of a number. -/
def digit (n : Nat) : Char := Char.ofNat (48 + n % 10)

/-- The function `appendInt` on a number that has no more digits than the width. -/
def appendInt (x : Nat) : Nat → List Char
  | 0 => []
  | width + 1 => appendInt (x / 10) width ++ [digit x]

/-- The text without the zeros at its end. -/
def trimZeros (l : List Char) : List Char := (l.reverse.dropWhile (fun c => c = '0')).reverse

/-- The function `appendNano` for the layout `.999999999`. -/
def appendNano (nsec : Nat) : List Char :=
  if nsec = 0 then [] else '.' :: trimZeros (appendInt nsec 9)

/-- The layout `RFC3339Nano` of an instant in UTC whose year has four digits. -/
def Time.appendFormatRFC3339 (t : Time) : List Char :=
  let c := t.civil
  appendInt c.year.toNat 4 ++ '-' :: (appendInt c.month 2 ++ '-' :: (appendInt c.day 2 ++
    'T' :: (appendInt c.hour 2 ++ ':' :: (appendInt c.min 2 ++ ':' :: (appendInt c.sec 2 ++
      (appendNano c.nsec ++ ['Z']))))))

/-- The method `Time.MarshalJSON`. -/
def Time.MarshalJSON (t : Time) : Except String (List Char) :=
  if t.marshalable then .ok ('"' :: (t.appendFormatRFC3339 ++ ['"']))
  else .error "Time.MarshalJSON: year outside of range [0,9999]"

/-- The number that a text of decimal digits writes. -/
def atoi (s : List Char) : Nat := s.foldl (fun a c => a * 10 + (c.toNat - 48)) 0

/-- The local function `parseUint` of `parseRFC3339`. -/
def parseUint (s : List Char) (min max : Nat) : Option Nat :=
  if s.all json.isDigit ∧ min ≤ atoi s ∧ atoi s ≤ max then some (atoi s) else none

/-- The fractional second at the head of the text, in nanoseconds, and the text after it:
the digits after the ninth are dropped. -/
def parseFraction (s : List Char) : Nat × List Char :=
  match s with
  | sep :: d :: rest =>
    if sep = '.' ∧ json.isDigit d then
      let ds := (d :: rest).takeWhile json.isDigit
      (atoi (ds.take 9) * 10 ^ (9 - (ds.take 9).length), (d :: rest).dropWhile json.isDigit)
    else (0, s)
  | _ => (0, s)

/-- The zone at the end of the text, as the seconds east of UTC; `hourMax` and `minMax` are
the largest hour and minute of an offset. -/
def parseZone (s : List Char) (hourMax minMax : Nat) : Option Int :=
  if s = ['Z'] then some 0
  else
    match s with
    | [sign, h1, h2, colon, m1, m2] =>
      match parseUint [h1, h2] 0 hourMax, parseUint [m1, m2] 0 minMax with
      | some hr, some mm =>
        if colon = ':' ∧ sign = '+' then some (((hr * 60 + mm) * 60 : Nat) : Int)
        else if colon = ':' ∧ sign = '-' then some (-(((hr * 60 + mm) * 60 : Nat) : Int))
        else none
      | _, _ => none
    | _ => none

/-- The function `parseRFC3339`. -/
def parseRFC3339 (s : List Char) : Option Time :=
  if s.length < 19 then none
  else
    match parseUint (s.take 4) 0 9999, parseUint ((s.drop 5).take 2) 1 12 with
    | some year, some month =>
      match parseUint ((s.drop 8).take 2) 1 (daysIn month year),
        parseUint ((s.drop 11).take 2) 0 23, parseUint ((s.drop 14).take 2) 0 59,
        parseUint ((s.drop 17).take 2) 0 59 with
      | some day, some hour, some min, some sec =>
        if s.getD 4 ' ' = '-' ∧ s.getD 7 ' ' = '-' ∧ s.getD 10 ' ' = 'T' ∧ s.getD 13 ' ' = ':' ∧
            s.getD 16 ' ' = ':' then
          match parseZone (parseFraction (s.drop 19)).2 23 59 with
          | some offset =>
            some ((Date year month day hour min sec (parseFraction (s.drop 19)).1).Add
              (-(offset * 1000000000)))
          | none => none
        else none
      | _, _, _, _ => none
    | _, _ => none

end time

namespace time

/-- The function `getnum` of the package time. -/
def getnum (s : List Char) (fixed : Bool) : Option (Nat × List Char) :=
  match s with
  | a :: b :: rest =>
    if json.isDigit a ∧ json.isDigit b then some (atoi [a, b], rest)
    else if json.isDigit a ∧ fixed = false then some (atoi [a], b :: rest)
    else none
  | [a] => if json.isDigit a ∧ fixed = false then some (atoi [a], []) else none
  | [] => none

/-- The fractional second that `Parse` reads after the seconds, with a period or a comma. -/
def parseFractionLenient (s : List Char) : Nat × List Char :=
  match s with
  | sep :: d :: rest =>
    if (sep = '.' ∨ sep = ',') ∧ json.isDigit d then
      let ds := (d :: rest).takeWhile json.isDigit
      (atoi (ds.take 9) * 10 ^ (9 - (ds.take 9).length), (d :: rest).dropWhile json.isDigit)
    else (0, s)
  | _ => (0, s)

/-- The call `Parse(RFC3339, s)`, which `parseStrictRFC3339` makes when `parseRFC3339` has
failed: the hour may have one digit, a comma may stand before the fractional second, and an
offset may have the hour 24 or the minute 60. -/
def parseLayoutRFC3339 (s : List Char) : Option Time :=
  if s.length < 4 ∨ ¬ (s.take 4).all json.isDigit then none
  else
    match s.drop 4 with
    | dash1 :: s1 =>
      match getnum s1 true with
      | some (month, dash2 :: s2) =>
        match getnum s2 true with
        | some (day, tee :: s3) =>
          match getnum s3 false with
          | some (hour, colon1 :: s4) =>
            match getnum s4 true with
            | some (min, colon2 :: s5) =>
              match getnum s5 true with
              | some (sec, s6) =>
                match parseZone (parseFractionLenient s6).2 24 60 with
                | some offset =>
                  if dash1 = '-' ∧ dash2 = '-' ∧ tee = 'T' ∧ colon1 = ':' ∧ colon2 = ':' ∧
                      1 ≤ month ∧ month ≤ 12 ∧ hour < 24 ∧ min < 60 ∧ sec < 60 ∧ 1 ≤ day ∧
                      day ≤ daysIn month (atoi (s.take 4)) then
                    some ((Date (atoi (s.take 4)) month day hour min sec
                      (parseFractionLenient s6).1).Add (-(offset * 1000000000)))
                  else none
                | none => none
              | none => none
            | _ => none
          | _ => none
        | _ => none
      | _ => none
    | [] => none

/-- The function `parseStrictRFC3339`. -/
def parseStrictRFC3339 (s : List Char) : Option Time :=
  match parseRFC3339 s with
  | some t => some t
  | none => parseLayoutRFC3339 s

/-- The method `Time.UnmarshalJSON` on the text of a JSON value: `none` in the result leaves
the time as it is. The text of a parse error is abridged. -/
def Time.UnmarshalJSON (data : List Char) : Except String (Option Time) :=
  if data = ['n', 'u', 'l', 'l'] then .ok none
  else if data.length < 2 ∨ data.head? ≠ some '"' ∨ data.getLast? ≠ some '"' then
    .error "Time.UnmarshalJSON: input is not a JSON string"
  else
    match parseStrictRFC3339 (data.tail.dropLast) with
    | some t => .ok (some t)
    | none => .error ("parsing time " ++ String.mk data ++ ": cannot parse")

end time

/-! ## encoding/json: the passes of the decoder over the text -/

namespace json

/-- The function `checkValid`. -/
def checkValid (data : List Char) : Bool :=
  match scanLoop maxNestingDepth scanner.reset data with
  | some s => s.eof
  | none => false

/-- The text without the white space at its head, as `scanWhile(scanSkipSpace)` leaves it. -/
def skipSpace (s : List Char) : List Char := s.dropWhile isSpace

/-- The method `skip` on an array or an object: the text up to the bracket that closes it,
and the text after it. -/
def compositeEnd : scanner → List Char → Option (List Char × List Char)
  | _, [] => none
  | s, c :: cs =>
    match s.next maxNestingDepth c with
    | none => none
    | some (s', _) =>
      if s'.parseState = [] then some ([c], cs)
      else (compositeEnd s' cs).map (fun r => (c :: r.1, r.2))

/-- The characters over which `rescanLiteral` runs on a number. -/
def isNumberChar (c : Char) : Bool :=
  isDigit c || c = '.' || c = 'e' || c = 'E' || c = '+' || c = '-'

/-- The text of the JSON value at the head of valid JSON text, and the text after it:
`rescanLiteral` on a literal and `skip` on an array or an object. -/
def valueEnd (s : List Char) : Option (List Char × List Char) :=
  match s with
  | [] => none
  | c :: cs =>
    if c = '"' then (stringEnd cs).map (fun r => (c :: (r.1 ++ ['"']), r.2))
    else if c = '\x7b' ∨ c = '[' then compositeEnd scanner.reset s
    else if c = 't' ∨ c = 'n' then some (s.take 4, s.drop 4)
    else if c = 'f' then some (s.take 5, s.drop 5)
    else some (s.takeWhile isNumberChar, s.dropWhile isNumberChar)

/-- The function `foldRune` on the characters whose fold is an ASCII letter: the small
letters, U+212A and U+017F; every other character is left as it is, which decides the same
comparisons with the ASCII names of the fields. -/
def foldChar (c : Char) : Char :=
  if decide ('a' ≤ c) && decide (c ≤ 'z') then Char.ofNat (c.toNat - 32)
  else if c.toNat = 0x212A then 'K'
  else if c.toNat = 0x17F then 'S'
  else c

/-- The function `foldName`. -/
def foldName (s : List Char) : List Char := s.map foldChar

end json

/-! ## The scanner: the steps it makes, and the text of which it drops nothing

The definitions of this section are not of the code: the theorems on the decoder are stated
with them. -/

namespace json

/-- The loop of the scanner over text of which compaction drops no character. -/
def keptLoop (limit : Nat) : scanner → List Char → Option scanner
  | s, [] => some s
  | s, c :: cs =>
    match s.next limit c with
    | some (s', false) => keptLoop limit s' cs
    | _ => none

/-- The steps in which the scanner has read a whole value or a whole number. -/
def Step.ends : Step → Bool
  | Step.endValue => true
  | Step.one => true
  | Step.zero => true
  | Step.dot0 => true
  | Step.e0 => true
  | _ => false

/-- The steps other than the reading of a literal of which a character is white space; the
scanner is in no such step. -/
def Step.ok : Step → Bool
  | Step.literal l => l.all (fun x => !isSpace x)
  | _ => true

/-- The seven kinds of step that the scanner makes on a character: it goes to another step
of the same value; it drops white space before a value or a key or after the top-level value;
it drops white space after a value inside an array or an object; it drops white space after
the top-level value and ends it; it opens an array or an object; it passes a colon or a comma;
it closes an array or an object. -/
def Trans (limit : Nat) (s : scanner) (c : Char) (s' : scanner) (d : Bool) : Prop :=
  (∃ st, s' = ⟨st, s.parseState, s.endTop⟩ ∧ d = false ∧ st ≠ Step.endTop ∧
    st ≠ Step.beginStringOrEmpty ∧ st ≠ Step.beginValueOrEmpty ∧ s.step ≠ Step.endTop ∧
    (s.step.ok = true → st.ok = true) ∧
    (isSpace c = true → s.step.ok = true → s.step = Step.inString)) ∨
  (s' = s ∧ d = true ∧ isSpace c = true ∧ s.step ≠ Step.inString ∧ s.step.ends = false) ∨
  (s.parseState ≠ [] ∧ s' = ⟨Step.endValue, s.parseState, s.endTop⟩ ∧ d = true ∧
    isSpace c = true ∧ s.step.ends = true) ∨
  (s.parseState = [] ∧ s' = ⟨Step.endTop, [], true⟩ ∧ d = true ∧ isSpace c = true ∧
    s.step.ends = true) ∨
  (∃ st p, s' = ⟨st, p :: s.parseState, s.endTop⟩ ∧ d = false ∧
    s.parseState.length + 1 ≤ limit ∧
    (st = Step.beginStringOrEmpty ∨ st = Step.beginValueOrEmpty) ∧ isSpace c = false ∧
    s.step ≠ Step.endTop) ∨
  (∃ st x y r, s.parseState = x :: r ∧ s' = ⟨st, y :: r, s.endTop⟩ ∧ d = false ∧
    (st = Step.beginValue ∨ st = Step.beginString) ∧ isSpace c = false ∧
    s.step ≠ Step.endTop) ∨
  (s' = (if s.parseState.tail = [] then ⟨Step.endTop, [], true⟩
      else ⟨Step.endValue, s.parseState.tail, s.endTop⟩) ∧ d = false ∧ isSpace c = false ∧
    s.step ≠ Step.endTop ∧ (s.parseState ≠ [] ∨ s.step = Step.beginStringOrEmpty))

/-- What holds of the scanner in every run from `reset`. -/
def scanner.Inv (s : scanner) : Prop :=
  (s.endTop = true → s.step = Step.endTop) ∧ (s.step = Step.endTop → s.parseState = []) ∧
  (s.step = Step.beginStringOrEmpty → s.parseState ≠ []) ∧ s.step.ok = true

/-- The scanner inside an array or an object: `S` is the stack below the value that the
scanner `s` reads from `reset`. -/
def scanner.lift (S : List ParseState) (s : scanner) : scanner :=
  if s.step = Step.endTop then ⟨Step.endValue, S, false⟩
  else ⟨s.step, s.parseState ++ S, false⟩

/-- The steps in which the scanner reads a number. -/
def Step.isNumber : Step → Bool
  | Step.neg => true
  | Step.one => true
  | Step.zero => true
  | Step.dot => true
  | Step.dot0 => true
  | Step.e => true
  | Step.eSign => true
  | Step.e0 => true
  | _ => false

end json

/-! ## internal/transport/conn.go -/

namespace transport

open protocol time

/-- The fields of `Message`, by their JSON keys `kind`, `id`, `agent_id`, `type`, `payload`,
`error` and `ts`. -/
inductive Field
  | kind
  | id
  | agentID
  | typ
  | payload
  | error
  | ts
deriving DecidableEq, Repr

/-- The JSON key of a field, from its tag. -/
def Field.key : Field → String
  | Field.kind => "kind"
  | Field.id => "id"
  | Field.agentID => "agent_id"
  | Field.typ => "type"
  | Field.payload => "payload"
  | Field.error => "error"
  | Field.ts => "ts"

/-- The Go type of a field, as an error of the decoder names it. -/
def Field.goType : Field → String
  | Field.kind => "protocol.Kind"
  | Field.payload => "json.RawMessage"
  | Field.ts => "time.Time"
  | _ => "string"

def Field.all : List Field :=
  [Field.kind, Field.id, Field.agentID, Field.typ, Field.payload, Field.error, Field.ts]

/-- The field that the decoder finds for a key of an object: the field whose key folds to
the same text. -/
def Field.find (key : List Char) : Option Field :=
  Field.all.find? (fun f => decide (json.foldName f.key.data = json.foldName key))

/-- The loop of the struct encoder over the fields: `next` is the byte it writes before the
next member, a field with `none` is one that `omitempty` leaves out, and `some v` holds the
text of the value. -/
def encodeFields : Char → List (Field × Option (List Char)) → List Char
  | next, [] => if next = '\x7b' then ['\x7b', '\x7d'] else ['\x7d']
  | next, (_, none) :: rest => encodeFields next rest
  | next, (f, some v) :: rest =>
    next :: (json.appendString f.key ++ ':' :: (v ++ encodeFields ',' rest))

/-- The tag option `omitempty` on a string field: the member is written when the string is
not empty. -/
def omitempty (s : String) : Option (List Char) :=
  if s = "" then none else some (json.appendString s)

/-- The call `json.Marshal(msg)` on a `Message`: `kind` and `ts` are always written, the other
fields when they are not empty; the payload is written compacted and must be valid JSON. -/
def Marshal (m : Message) : Except String (List Char) :=
  match (if m.Payload = "" then some none else
      (json.compactLoop json.maxNestingDepth json.scanner.reset m.Payload.data).map some) with
  | none => .error "json: error calling MarshalJSON for type json.RawMessage"
  | some payload =>
    match m.TS.MarshalJSON with
    | .error e => .error ("json: error calling MarshalJSON for type time.Time: " ++ e)
    | .ok ts =>
      .ok (encodeFields '\x7b' [(Field.kind, some (json.appendString m.Kind)),
        (Field.id, omitempty m.ID), (Field.agentID, omitempty m.AgentID),
        (Field.typ, omitempty m.Typ), (Field.payload, payload),
        (Field.error, omitempty m.Error), (Field.ts, some ts)])

/-- The kind of JSON value that a text begins, as an `UnmarshalTypeError` names it. -/
def valueKind (raw : List Char) : String :=
  match raw.head? with
  | some c =>
    if c = '\x7b' then "object"
    else if c = '[' then "array"
    else if c = '"' then "string"
    else if c = 't' ∨ c = 'f' then "bool"
    else "number"
  | none => "number"

/-- The text of an `UnmarshalTypeError` for a field. -/
def typeError (f : Field) (raw : List Char) : String :=
  "json: cannot unmarshal " ++ valueKind raw ++ " into Go struct field Message." ++ f.key ++
    " of type " ++ f.goType

/-- The string field `f` of the message becomes `s`. -/
def setString (m : Message) (f : Field) (s : String) : Message :=
  match f with
  | Field.kind => { m with Kind := s }
  | Field.id => { m with ID := s }
  | Field.agentID => { m with AgentID := s }
  | Field.typ => { m with Typ := s }
  | Field.error => { m with Error := s }
  | _ => m

/-- The store of the value with the text `raw` into the field `f`. The first component of
the result is the message, and the second the error that the decoder saves and goes on
(`saved` is the one it holds already); the error of the result ends the decoding. -/
def store (m : Message) (saved : Option String) (f : Field) (raw : List Char) :
    Except String (Message × Option String) :=
  match f with
  | Field.payload => .ok ({ m with Payload := String.mk raw }, saved)
  | Field.ts =>
    match Time.UnmarshalJSON raw with
    | .error e => .error e
    | .ok none => .ok (m, saved)
    | .ok (some t) => .ok ({ m with TS := t }, saved)
  | _ =>
    match raw with
    | c :: rest =>
      if c = '"' then
        match json.unquoteBody none rest.dropLast with
        | some s => .ok (setString m f (String.mk s), saved)
        | none => .ok (m, saved.orElse (fun _ => some (typeError f raw)))
      else if c = 'n' then .ok (m, saved)
      else .ok (m, saved.orElse (fun _ => some (typeError f raw)))
    | [] => .ok (m, saved)

/-- The end of `Unmarshal`: the saved error, if there is one. -/
def finish (m : Message) (saved : Option String) : Except String Message :=
  match saved with
  | some e => .error e
  | none => .ok m

/-- The loop of the method `object` of the decoder, on text that `checkValid` has accepted,
from the first key or after a comma. The first argument bounds the number of members; the
length of the text is enough. -/
def decodeMembers : Nat → Message → Option String → List Char → Except String Message
  | 0, _, _, _ => .error "json: unexpected end of JSON input"
  | fuel + 1, m, saved, cs =>
    match json.skipSpace cs with
    | [] => .error "json: unexpected end of JSON input"
    | c :: rest =>
      if c = '\x7d' then finish m saved
      else
        match json.stringEnd rest with
        | none => .error "json: unexpected end of JSON input"
        | some (kraw, rest1) =>
          match json.valueEnd (json.skipSpace ((json.skipSpace rest1).drop 1)) with
          | none => .error "json: unexpected end of JSON input"
          | some (raw, rest2) =>
            match (match (json.unquoteBody none kraw).bind Field.find with
                | some f => store m saved f raw
                | none => .ok (m, saved)) with
            | .error e => .error e
            | .ok (m1, saved1) =>
              match json.skipSpace rest2 with
              | [] => .error "json: unexpected end of JSON input"
              | d :: rest3 =>
                if d = ',' then decodeMembers fuel m1 saved1 rest3 else finish m1 saved1

/-- The call `json.Unmarshal(data, &msg)` into a zero `Message`. The text of a syntax error is
abridged. -/
def Unmarshal (data : List Char) : Except String Message :=
  if json.checkValid data then
    match json.skipSpace data with
    | [] => .error "unexpected end of JSON input"
    | c :: rest =>
      if c = '\x7b' then decodeMembers data.length Message.zero none rest
      else if c = 'n' then .ok Message.zero
      else .error ("json: cannot unmarshal " ++ valueKind (c :: rest) ++
        " into Go value of type protocol.Message")
  else .error "invalid character in JSON input"

end transport

namespace transport

open protocol time json

/-- What the decoder needs of the text `v` of a member's value: the scanner reads it as one
value inside an object, the decoder finds the whole of it where it stands before a comma or
a closing brace, and it holds no line feed. -/
def GoodValue (v : List Char) : Prop :=
  (∃ st, scanLoop maxNestingDepth ⟨Step.beginValue, [ParseState.objectValue], false⟩ v
      = some ⟨st, [ParseState.objectValue], false⟩ ∧ st.ends = true) ∧
  (∀ d rest, d = ',' ∨ d = '\x7d' →
    valueEnd (v ++ d :: rest) = some (v, d :: rest) ∧ skipSpace (v ++ d :: rest) = v ++ d :: rest) ∧
  (∀ c ∈ v, c ≠ '\n')

/-- The message after the stores of the values of the fields that are written, in order. -/
def storeAll (m : Message) : List (Field × Option (List Char)) → Message
  | [] => m
  | (_, none) :: rest => storeAll m rest
  | (f, some v) :: rest =>
    match store m none f v with
    | .ok (m1, _) => storeAll m1 rest
    | .error _ => m

end transport

namespace transport

open protocol time

/-- The call `ReadBytes` of the buffered reader with the delimiter LF, on the bytes that are
still to come: the line up to the first LF and with it, and the bytes after it; `none` when
no LF comes before the end of the stream. -/
def readLine : List Char → Option (List Char × List Char)
  | [] => none
  | c :: cs =>
    if c = '\n' then some ([c], cs) else (readLine cs).map (fun r => (c :: r.1, r.2))

/-- The type `Conn`: the bytes that the peer writes and that are still to be read, the bytes
written and flushed to the peer, and whether the socket is closed. -/
structure Conn where
  rx : List Char
  tx : List Char
  closed : Bool
deriving DecidableEq, Repr

/-- The function `NewConn`, on a socket whose peer will write `rx`. -/
def NewConn (rx : List Char) : Conn := ⟨rx, [], false⟩

/-- The method `Conn.Close`. -/
def Conn.Close (c : Conn) : Conn := ⟨c.rx, c.tx, true⟩

/-- The method `Conn.Send`: marshal, append the LF, write and flush. -/
def Conn.Send (c : Conn) (msg : Message) : Conn × Option String :=
  match Marshal msg with
  | .error e => (c, some e)
  | .ok b =>
    if c.closed then (c, some "use of closed network connection")
    else (⟨c.rx, c.tx ++ (b ++ ['\n']), c.closed⟩, none)

/-- The method `Conn.Recv`: read up to the next LF and parse the line. -/
def Conn.Recv (c : Conn) : Conn × Except String Message :=
  match readLine c.rx with
  | none => (⟨[], c.tx, c.closed⟩, .error "EOF")
  | some (line, rest) =>
    match Unmarshal line with
    | .error e => (⟨rest, c.tx, c.closed⟩, .error ("invalid json: " ++ e))
    | .ok m => (⟨rest, c.tx, c.closed⟩, .ok m)

end transport

/-! ## internal/server/registry.go -/

namespace server

open protocol time

/-- The type `AgentInfo`. -/
structure AgentInfo where
  AgentID : String
  Servers : List String
  ConnectedAt : Time
  LastSeen : Time
deriving DecidableEq, Repr

/-- A `chan protocol.Message` made with capacity 1: the buffered messages and the messages of
the senders parked on the channel. -/
structure Chan where
  buf : List Message
  sendq : List Message
deriving DecidableEq, Repr

/-- The channel `make(chan protocol.Message, 1)`. -/
def Chan.make : Chan := ⟨[], []⟩

def Chan.cap : Nat := 1

/-- The statement `ch <- m`: the flag says whether the send completed; a send on a full
buffer parks the sender. -/
def Chan.send (ch : Chan) (m : Message) : Chan × Bool :=
  if ch.buf.length < Chan.cap then (⟨ch.buf ++ [m], ch.sendq⟩, true)
  else (⟨ch.buf, ch.sendq ++ [m]⟩, false)

/-- The receive `<-ch` when a message is ready: the first parked sender, if any, then
completes its send. -/
def Chan.recv (ch : Chan) : Option (Message × Chan) :=
  match ch.buf with
  | [] => none
  | m :: rest =>
    match ch.sendq with
    | [] => some (m, ⟨rest, []⟩)
    | w :: ws => some (m, ⟨rest ++ [w], ws⟩)

/-- The type `agentConn`: `conn` points to a link and `pending` maps a request id to a channel. -/
structure agentConn where
  info : AgentInfo
  conn : Nat
  pending : GoMap Nat
deriving DecidableEq, Repr

/-- The registry `agents` (agent id to `*agentConn`) with the heaps of the objects it
reaches: the `agentConn` objects, the channels and the links. -/
structure State where
  agents : GoMap Nat
  agentConns : List agentConn
  chans : List Chan
  links : List transport.Conn
deriving DecidableEq, Repr

/-- The function `NewRegistry`, with the links of the server. -/
def NewRegistry (links : List transport.Conn) : State := ⟨[], [], [], links⟩

/-- The pending table of the `agentConn` object at `a`. -/
def State.pendingOf (s : State) (a : Nat) : GoMap Nat :=
  match s.agentConns[a]? with
  | some ac => ac.pending
  | none => []

/-- Whether a call has returned or is blocked in a channel operation. -/
inductive Progress
  | returned
  | blocked
deriving DecidableEq, Repr

namespace Registry

/-- The method `get`: `none` is the nil pointer. -/
def get (s : State) (agentID : String) : Option Nat := s.agents.get agentID

/-- The method `ListAgents`. -/
def ListAgents (s : State) : List AgentInfo :=
  s.agents.values.filterMap (fun p => (s.agentConns[p]?).map (fun ac => ac.info))

/-- The method `GetAgent`: `none` is the result `(AgentInfo{}, false)`. -/
def GetAgent (s : State) (agentID : String) : Option AgentInfo :=
  match s.agents.get agentID with
  | none => none
  | some p => (s.agentConns[p]?).map (fun ac => ac.info)

/-- The method `RegisterAgent`: a new `agentConn` object with an empty pending table takes
the place of any entry for the id. -/
def RegisterAgent (s : State) (agentID : String) (servers : List String) (c : Nat)
    (now : Time) : State :=
  { s with
    agents := s.agents.set agentID s.agentConns.length
    agentConns := s.agentConns ++ [⟨⟨agentID, servers, now, now⟩, c, []⟩] }

/-- The method `UpdateAgentServers`. -/
def UpdateAgentServers (s : State) (agentID : String) (servers : List String) (now : Time) :
    State :=
  match s.agents.get agentID with
  | none => s
  | some p =>
    { s with agentConns := modifyAt s.agentConns p (fun ac =>
        { ac with info := { ac.info with Servers := servers, LastSeen := now } }) }

/-- The method `RemoveAgent`. -/
def RemoveAgent (s : State) (agentID : String) : State :=
  { s with agents := s.agents.delete agentID }

/-- The method `Touch`. -/
def Touch (s : State) (agentID : String) (now : Time) : State :=
  match s.agents.get agentID with
  | none => s
  | some p =>
    { s with agentConns := modifyAt s.agentConns p (fun ac =>
        { ac with info := { ac.info with LastSeen := now } }) }

/-- The method `HandleIncomingFromAgent`. The result says whether the call returned or is
blocked in `ch <- msg`. -/
def HandleIncomingFromAgent (s : State) (msg : Message) (now : Time) : State × Progress :=
  let s1 := Touch s msg.AgentID now
  match get s1 msg.AgentID with
  | none => (s1, Progress.returned)
  | some a =>
    if msg.Kind ≠ KindResponse then (s1, Progress.returned)
    else
      match (s1.pendingOf a).get msg.ID with
      | none => (s1, Progress.returned)
      | some ch =>
        match s1.chans[ch]? with
        | none => (s1, Progress.blocked)
        | some c =>
          let r := c.send msg
          ({ s1 with chans := s1.chans.set ch r.1 },
            if r.2 then Progress.returned else Progress.blocked)

end Registry

/-- What the goroutines of the listener do to the registry while a `SendCommand` is in flight. -/
inductive Event
  | register (agentID : String) (servers : List String) (c : Nat) (now : Time)
  | update (agentID : String) (servers : List String) (now : Time)
  | remove (agentID : String)
  | touch (agentID : String) (now : Time)
  | incoming (msg : Message) (now : Time)
deriving DecidableEq, Repr

def Event.run (s : State) : Event → State
  | Event.register agentID servers c now => Registry.RegisterAgent s agentID servers c now
  | Event.update agentID servers now => Registry.UpdateAgentServers s agentID servers now
  | Event.remove agentID => Registry.RemoveAgent s agentID
  | Event.touch agentID now => Registry.Touch s agentID now
  | Event.incoming msg now => (Registry.HandleIncomingFromAgent s msg now).1

def runEvents (s : State) (es : List Event) : State := es.foldl Event.run s

/-- The locals of a `SendCommand` that has stored its channel: `a`, `reqID`, `ch` and `req`. -/
structure Call where
  a : Nat
  reqID : String
  ch : Nat
  req : Message
deriving DecidableEq, Repr

/-- The environment of one `SendCommand`: what the listener does between its steps, whether
the context is done when the `select` runs, and which case the `select` takes when both are
ready. -/
structure Schedule where
  beforeSend : List Event
  whileWaiting : List Event
  beforeCleanup : List Event
  ctxDone : Bool
  preferCtx : Bool
deriving DecidableEq, Repr

namespace Registry

/-- The beginning of `SendCommand`, up to `a.pending[reqID] = ch`; `reqID` is the value of
`newID()` and `payloadJSON` the outcome of `json.Marshal(payload)`. -/
def SendCommand.enter (s : State) (agentID typ : String) (payloadJSON : Except String String)
    (reqID : String) (now : Time) : State × Except String Call :=
  match get s agentID with
  | none => (s, .error ("agent not connected: " ++ agentID))
  | some a =>
    match NewRequest agentID reqID typ payloadJSON now with
    | .error e => (s, .error e)
    | .ok req =>
      let ch := s.chans.length
      ({ s with
          chans := s.chans ++ [Chan.make]
          agentConns := modifyAt s.agentConns a (fun ac =>
            { ac with pending := ac.pending.set reqID ch }) },
        .ok ⟨a, reqID, ch, req⟩)

/-- The deferred function of `SendCommand`: `delete(a.pending, reqID)`. -/
def SendCommand.cleanup (s : State) (call : Call) : State :=
  { s with agentConns := modifyAt s.agentConns call.a (fun ac =>
      { ac with pending := ac.pending.delete call.reqID }) }

/-- The call `a.conn.Send(req)`. -/
def SendCommand.send (s : State) (call : Call) : State × Option String :=
  match s.agentConns[call.a]? with
  | none => (s, some "invalid memory address or nil pointer dereference")
  | some ac =>
    match s.links[ac.conn]? with
    | none => (s, some "invalid memory address or nil pointer dereference")
    | some link =>
      let r := link.Send call.req
      ({ s with links := s.links.set ac.conn r.1 }, r.2)

/-- The `select` of `SendCommand`: `none` when neither case is ready. -/
def SendCommand.select (s : State) (call : Call) (ctxDone preferCtx : Bool) :
    Option (State × Except String Message) :=
  match (s.chans[call.ch]?).bind Chan.recv with
  | some (resp, c) =>
    if ctxDone && preferCtx then some (s, .error "timeout waiting for agent response")
    else some ({ s with chans := s.chans.set call.ch c }, .ok resp)
  | none =>
    if ctxDone then some (s, .error "timeout waiting for agent response")
    else none

/-- The body of `SendCommand` after the channel is stored: send, wait, and the deferred
cleanup on every path that returns. The second component is `none` while the call is blocked
in its `select`. -/
def SendCommand.serve (s1 : State) (call : Call) (sch : Schedule) :
    State × Option (Except String Message) :=
  match SendCommand.send (runEvents s1 sch.beforeSend) call with
  | (s2, some e) =>
    (SendCommand.cleanup (runEvents s2 sch.beforeCleanup) call, some (.error e))
  | (s2, none) =>
    match SendCommand.select (runEvents s2 sch.whileWaiting) call sch.ctxDone sch.preferCtx with
    | none => (runEvents s2 sch.whileWaiting, none)
    | some (s3, res) => (SendCommand.cleanup (runEvents s3 sch.beforeCleanup) call, some res)

/-- The method `SendCommand`. The second component is `none` while the call is blocked in
its `select`, and otherwise what the call returned; the deferred cleanup has then run. -/
def SendCommand (s : State) (agentID typ : String) (payloadJSON : Except String String)
    (reqID : String) (now : Time) (sch : Schedule) : State × Option (Except String Message) :=
  match SendCommand.enter s agentID typ payloadJSON reqID now with
  | (s1, .error e) => (s1, some (.error e))
  | (s1, .ok call) => SendCommand.serve s1 call sch

end Registry

/-! ## internal/server/agent_listener.go -/

/-- How an iteration of a loop ended. -/
inductive LoopStatus
  | continues
  | stopped
  | blocked
deriving DecidableEq, Repr

namespace AgentListener

/-- The call `tc.Recv()` on the link at `tc`. -/
def recv (s : State) (tc : Nat) : State × Except String Message :=
  match s.links[tc]? with
  | none => (s, .error "EOF")
  | some link =>
    let r := link.Recv
    ({ s with links := s.links.set tc r.1 }, r.2)

/-- The call `tc.Close()` on the link at `tc`. -/
def close (s : State) (tc : Nat) : State :=
  { s with links := modifyAt s.links tc transport.Conn.Close }

/-- The method `handleConn` up to its main loop, on the link at `tc`; `reg` is the outcome of
`json.Unmarshal(first.Payload, &reg)`. The result holds `first.AgentID` when the agent was
registered and `none` when the connection was closed instead. -/
def handleConn.first (s : State) (tc : Nat) (reg : Except String (List String)) (now : Time) :
    State × Option String :=
  match recv s tc with
  | (s1, .error _) => (close s1 tc, none)
  | (s1, .ok first) =>
    if first.Kind ≠ KindRegister ∨ first.AgentID = "" then (close s1 tc, none)
    else
      match reg with
      | .error _ => (close s1 tc, none)
      | .ok servers => (Registry.RegisterAgent s1 first.AgentID servers tc now, some first.AgentID)

/-- One iteration of the main loop of `handleConn`, for the connection whose first message
carried `firstAgentID`; `reg` is the outcome of `json.Unmarshal(msg.Payload, &reg)`. -/
def handleConn.iterate (s : State) (tc : Nat) (firstAgentID : String)
    (reg : Except String (List String)) (now : Time) : State × LoopStatus :=
  match recv s tc with
  | (s1, .error _) => (close (Registry.RemoveAgent s1 firstAgentID) tc, LoopStatus.stopped)
  | (s1, .ok msg) =>
    if msg.Kind = KindRegister ∧ msg.AgentID ≠ "" then
      match reg with
      | .ok servers => (Registry.UpdateAgentServers s1 msg.AgentID servers now, LoopStatus.continues)
      | .error _ => (s1, LoopStatus.continues)
    else
      match Registry.HandleIncomingFromAgent s1 msg now with
      | (s2, Progress.returned) => (s2, LoopStatus.continues)
      | (s2, Progress.blocked) => (s2, LoopStatus.blocked)

end AgentListener

end server

/-! ## internal/manager -/

namespace manager

open time

/-- The type `StopType`, a Go string. -/
abbrev StopType := String

def StopSignal : StopType := "signal"
def StopStdin : StopType := "stdin"

/-- The type `syscall.Signal`. -/
abbrev Signal := Int

def SIGHUP : Signal := 1
def SIGINT : Signal := 2
def SIGQUIT : Signal := 3
def SIGKILL : Signal := 9
def SIGTERM : Signal := 15

/-- The type `StopConfig`. -/
structure StopConfig where
  Typ : StopType
  Signal : Signal
  StdinCommand : String
  GracePeriod : Duration
deriving DecidableEq, Repr

/-- The type `ServerConfig`. -/
structure ServerConfig where
  Name : String
  Command : String
  Args : List String
  Cwd : String
  Env : List String
  Stop : StopConfig
deriving DecidableEq, Repr

/-- The type `ServerState`. -/
structure ServerState where
  Name : String
  Running : Bool
  PID : Int
  StartedAt : Time
  ExitedAt : Time
  ExitCode : Int
  LastError : String
deriving DecidableEq, Repr

/-- The zero value `ServerState{}`. -/
def ServerState.zero : ServerState := ⟨"", false, 0, Time.zero, Time.zero, 0, ""⟩

/-- The type `managedProc`: `cmdProcess` is the pid of `cmd.Process`, or `none` when it is
nil; `stdin` holds what was written and flushed to the child; `logOpen` says whether the log
file of the child is still open. -/
structure managedProc where
  cfg : ServerConfig
  cmdProcess : Option Int
  state : ServerState
  stdin : List String
  logPath : String
  logOpen : Bool
deriving DecidableEq, Repr

/-- The type `Manager`: the map `procs` (name to `*managedProc`), the heap of the records it
has made, and the calls `syscall.Kill(pid, sig)` made so far, oldest first. -/
structure Manager where
  procs : GoMap Nat
  heap : List managedProc
  kills : List (Int × Signal)
deriving DecidableEq, Repr

/-- The function `NewManager`. -/
def NewManager : Manager := ⟨[], [], []⟩

/-- What the operating system answers when `Start` opens the log and spawns the child. -/
inductive SpawnOutcome
  | logOpenFailed (err : String)
  | stdinPipeFailed (err : String)
  | startFailed (err : String)
  | started (pid : Int) (now : Time)
deriving DecidableEq, Repr

/-- What `cmd.Wait()` returned to the reaper: nil, an `*exec.ExitError` (with the exit status
of its wait status, or `none` when `Sys()` is not a wait status), or another error. -/
inductive WaitResult
  | exited
  | exitError (status : Option Int) (text : String)
  | failed (text : String)
deriving DecidableEq, Repr

/-- The exit code that the reaper extracts. -/
def WaitResult.exitCode : WaitResult → Int
  | WaitResult.exited => 0
  | WaitResult.exitError (some status) _ => status
  | WaitResult.exitError none _ => 1
  | WaitResult.failed _ => 1

/-- The text of the error of `cmd.Wait()`, if it is not nil. -/
def WaitResult.err : WaitResult → Option String
  | WaitResult.exited => none
  | WaitResult.exitError _ text => some text
  | WaitResult.failed text => some text

namespace Manager

/-- The record that `procs` holds for a name. -/
def lookup (m : Manager) (name : String) : Option managedProc :=
  match m.procs.get name with
  | none => none
  | some ptr => m.heap[ptr]?

/-- The method `Start`: the manager after the call, the state returned and the error. -/
def Start (m : Manager) (cfg : ServerConfig) (logPath : String) (out : SpawnOutcome) :
    Manager × ServerState × Option String :=
  match (m.lookup cfg.Name).filter (fun p => p.state.Running) with
  | some p =>
    (m, p.state, some (cfg.Name ++ " already running (pid=" ++ toString p.state.PID ++ ")"))
  | none =>
    match out with
    | SpawnOutcome.logOpenFailed err => (m, ServerState.zero, some err)
    | SpawnOutcome.stdinPipeFailed err => (m, ServerState.zero, some err)
    | SpawnOutcome.startFailed err => (m, ServerState.zero, some err)
    | SpawnOutcome.started pid now =>
      let st : ServerState := ⟨cfg.Name, true, pid, now, Time.zero, 0, ""⟩
      ({ m with
          procs := m.procs.set cfg.Name m.heap.length
          heap := m.heap ++ [⟨cfg, some pid, st, [], logPath, true⟩] },
        st, none)

/-- The terminal write of the goroutine that `Start` leaves behind for the record at `ptr`,
once `cmd.Wait()` has returned `w`. -/
def reap (m : Manager) (ptr : Nat) (w : WaitResult) (now : Time) : Manager :=
  { m with heap := modifyAt m.heap ptr (fun p =>
      { p with
        state := { p.state with
          Running := false
          ExitedAt := now
          ExitCode := w.exitCode
          LastError := (w.err).getD p.state.LastError }
        logOpen := false }) }

/-- The method `IsRunning`. -/
def IsRunning (m : Manager) (name : String) : Bool :=
  match m.lookup name with
  | some p => p.state.Running
  | none => false

/-- The method `Status`. -/
def Status (m : Manager) (name : String) : ServerState :=
  match m.lookup name with
  | some p => p.state
  | none => { ServerState.zero with Name := name, Running := false }

end Manager

/-- What happens around one call of `Stop`: `now` is the reading of the clock from which
`Stop` computes its deadline; `reaped` says how long after `now` the reaper of the record
makes its terminal write, and with which result (`none`: not while `Stop` runs); `lags` are
the nanoseconds that pass, beyond the sleeps, before each later step of `Stop` that reads the
clock or takes the lock, in the order of these steps (0 once the list is used up). A sleep
lasts what it asks, and what it lasts longer is part of the next lag. -/
structure StopEnv where
  now : Time
  reaped : Option (Duration × WaitResult)
  lags : List Nat
deriving DecidableEq, Repr

namespace Manager

/-- The call `syscall.Kill(pid, sig)`; its error is ignored by every caller. -/
def kill (m : Manager) (pid : Int) (sig : Signal) : Manager :=
  { m with kills := m.kills ++ [(pid, sig)] }

/-- The manager at `elapsed` after `env.now`: the reaper has made its write if it was due. -/
def settle (m : Manager) (ptr : Nat) (env : StopEnv) (elapsed : Duration) : Manager :=
  match env.reaped with
  | none => m
  | some (d, w) =>
    if d ≤ elapsed ∧ (m.heap[ptr]?).map (fun p => p.state.Running) = some true then
      m.reap ptr w (env.now.Add d)
    else m

/-- The graceful attempt of `Stop`, on the stop policy and pid it has snapshot. -/
def Stop.graceful (m : Manager) (ptr : Nat) (stopCfg : StopConfig) (pid : Int) : Manager :=
  if stopCfg.Typ = StopStdin then
    let cmd := if stopCfg.StdinCommand = "" then "stop\n" else stopCfg.StdinCommand
    { m with heap := modifyAt m.heap ptr (fun p => { p with stdin := p.stdin ++ [cmd] }) }
  else if stopCfg.Typ = StopSignal then
    m.kill (-pid) (if stopCfg.Signal = 0 then SIGTERM else stopCfg.Signal)
  else m.kill (-pid) SIGTERM

/-- The grace that `Stop` uses: 10s when the policy says 0. -/
def Stop.grace (stopCfg : StopConfig) : Duration :=
  if stopCfg.GracePeriod = 0 then 10 * Second else stopCfg.GracePeriod

/-- The most iterations that the waiting loop of `Stop` can make: every iteration sleeps
200ms, so the test of the loop fails at the latest after this many sleeps. -/
def Stop.maxPolls (grace : Duration) : Nat :=
  ((grace + (200 * Millisecond - 1)) / (200 * Millisecond)).toNat

/-- The waiting loop `for time.Now().Before(deadline)` of `Stop`, where the deadline is
`grace` after `env.now`. `elapsed` is the time since `env.now` at which the loop is entered or
its last sleep ended, and `lags` are the lags still to come. Each iteration reads the clock
for its test, then takes the lock in `IsRunning`, then sleeps 200ms. The result holds the
manager, whether the loop returned from its body because the instance no longer runs, the
time of the last step, and the lags left. The first argument bounds the number of tests; with
`Stop.maxPolls grace + 1` the bound is never reached. -/
def Stop.loop (m : Manager) (name : String) (ptr : Nat) (env : StopEnv) (grace : Duration) :
    Nat → Duration → List Nat → Manager × Bool × Duration × List Nat
  | 0, elapsed, lags => (m, false, elapsed, lags)
  | fuel + 1, elapsed, lags =>
    let tested : Duration := elapsed + ((lags.headD 0 : Nat) : Int)
    if tested < grace then
      let polled : Duration := tested + ((lags.tail.headD 0 : Nat) : Int)
      let m1 := m.settle ptr env polled
      if !m1.IsRunning name then (m1, true, polled, lags.tail.tail)
      else Stop.loop m1 name ptr env grace fuel (polled + 200 * Millisecond) lags.tail.tail
    else (m, false, tested, lags.tail)

/-- The method `Stop`: the manager after the call, the state returned and the error. -/
def Stop (m : Manager) (name : String) (env : StopEnv) : Manager × ServerState × Option String :=
  match m.procs.get name with
  | none => (m, ServerState.zero, some ("unknown server: " ++ name))
  | some ptr =>
    match m.heap[ptr]? with
    | none => (m, ServerState.zero, some ("unknown server: " ++ name))
    | some p =>
      match p.cmdProcess with
      | none => (m, p.state, some (name ++ " is not running"))
      | some pid =>
        if !p.state.Running then (m, p.state, some (name ++ " is not running"))
        else
          let m1 := Stop.graceful m ptr p.cfg.Stop pid
          let grace := Stop.grace p.cfg.Stop
          match Stop.loop m1 name ptr env grace (Stop.maxPolls grace + 1) 0 env.lags with
          | (m2, true, _, _) => (m2, m2.Status name, none)
          | (m2, false, expired, lags) =>
            let m3 := m2.kill (-pid) SIGKILL
            let m4 := m3.settle ptr env
              (expired + 250 * Millisecond + ((lags.headD 0 : Nat) : Int))
            (m4, m4.Status name, none)

end Manager

/-- The method `List`. -/
def Manager.List (m : Manager) : List ServerState :=
  m.procs.values.filterMap (fun ptr => (m.heap[ptr]?).map (fun p => p.state))

/-- One event of the supervisor: a call of `Start`, or the terminal write of the reaper of a
record that is running. -/
inductive Step : Manager → Manager → Prop
  | start (m : Manager) (cfg : ServerConfig) (logPath : String) (out : SpawnOutcome) :
      Step m (m.Start cfg logPath out).1
  | reap (m : Manager) (ptr : Nat) (w : WaitResult) (now : Time)
      (h : (m.heap[ptr]?).map (fun p => p.state.Running) = some true) :
      Step m (m.reap ptr w now)

/-- The states of the supervisor that `Start` and reap events reach from `NewManager`. -/
inductive Reachable : Manager → Prop
  | init : Reachable NewManager
  | step (m m' : Manager) (hm : Reachable m) (hs : Step m m') : Reachable m'

/-- Every record that is running is the record that `procs` holds under its name. -/
def RunningIsCurrent (m : Manager) : Prop :=
  ∀ ptr p, m.heap[ptr]? = some p → p.state.Running = true → m.procs.get p.state.Name = some ptr

end manager

/-! ## internal/config: the types of templates and instances -/

namespace config

/-- The type `Stop`, the stop block of a template. -/
structure Stop where
  Typ : String
  Command : String
  Signal : String
  GracePeriod : String
deriving DecidableEq, Repr

/-- The type `Template`. -/
structure Template where
  Command : String
  Args : List String
  Cwd : String
  Env : List String
  Stop : Stop
deriving DecidableEq, Repr

/-- The type `Instance`. -/
structure Instance where
  Template : String
  Enabled : Bool
  Params : GoMap String
deriving DecidableEq, Repr

end config

/-! ## The packages unicode, strings and strconv, as far as the program uses them -/

namespace unicode

/-- The function `unicode.IsSpace`. -/
def IsSpace (c : Char) : Bool :=
  let n := c.toNat
  n = 0x09 || n = 0x0A || n = 0x0B || n = 0x0C || n = 0x0D || n = 0x20 || n = 0x85 ||
    n = 0xA0 || n = 0x1680 || (decide (0x2000 ≤ n) && decide (n ≤ 0x200A)) || n = 0x2028 ||
    n = 0x2029 || n = 0x202F || n = 0x205F || n = 0x3000

/-- The function `unicode.ToLower` on the characters that it maps to an ASCII character (the
ASCII capitals, U+0130 and U+212A); the program only compares lowered text with ASCII words,
and the embedding leaves every other character as it is. -/
def ToLower (c : Char) : Char :=
  if decide ('A' ≤ c) && decide (c ≤ 'Z') then Char.ofNat (c.toNat + 32)
  else if c.toNat = 0x130 then 'i'
  else if c.toNat = 0x212A then 'k'
  else c

/-- The function `unicode.ToUpper` on the characters that it maps to an ASCII character (the
ASCII small letters, U+0131 and U+017F); the program only compares raised text with ASCII
words, and the embedding leaves every other character as it is. -/
def ToUpper (c : Char) : Char :=
  if decide ('a' ≤ c) && decide (c ≤ 'z') then Char.ofNat (c.toNat - 32)
  else if c.toNat = 0x131 then 'I'
  else if c.toNat = 0x17F then 'S'
  else c

end unicode

namespace strings

/-- The function `strings.TrimSpace`. -/
def TrimSpace (s : String) : String :=
  String.mk ((s.data.dropWhile unicode.IsSpace).reverse.dropWhile unicode.IsSpace).reverse

/-- The function `strings.ToLower`. -/
def ToLower (s : String) : String := String.mk (s.data.map unicode.ToLower)

/-- The function `strings.ToUpper`. -/
def ToUpper (s : String) : String := String.mk (s.data.map unicode.ToUpper)

/-- The function `strings.HasPrefix`. -/
def HasPrefix (s pre : String) : Bool := pre.data.isPrefixOf s.data

end strings

namespace strconv

def hexDigit (n : Nat) : Char :=
  if n < 10 then Char.ofNat (48 + n) else Char.ofNat (87 + n)

/-- What `strconv.Quote` writes for one character. Characters beyond ASCII are taken as
printable. -/
def quoteChar (c : Char) : List Char :=
  let n := c.toNat
  if c = '"' then ['\\', '"']
  else if c = '\\' then ['\\', '\\']
  else if n = 7 then ['\\', 'a']
  else if n = 8 then ['\\', 'b']
  else if n = 12 then ['\\', 'f']
  else if n = 10 then ['\\', 'n']
  else if n = 13 then ['\\', 'r']
  else if n = 9 then ['\\', 't']
  else if n = 11 then ['\\', 'v']
  else if n < 32 || n = 127 then ['\\', 'x', hexDigit (n / 16), hexDigit (n % 16)]
  else [c]

/-- The function `strconv.Quote`, which the verb `%q` applies to a string. -/
def Quote (s : String) : String :=
  String.mk (['"'] ++ (s.data.map quoteChar).flatten ++ ['"'])

end strconv

/-! ## time.ParseDuration -/

namespace time

def isDigit (c : Char) : Bool := decide ('0' ≤ c) && decide (c ≤ '9')

/-- The function `leadingInt`: the digits at the head of the text as a number, and the rest;
`none` when the number passes 2^63. -/
def leadingInt : List Char → Nat → Option (Nat × List Char)
  | [], x => some (x, [])
  | c :: cs, x =>
    if isDigit c then
      if x > 2 ^ 63 / 10 then none
      else if x * 10 + (c.toNat - 48) > 2 ^ 63 then none
      else leadingInt cs (x * 10 + (c.toNat - 48))
    else some (x, c :: cs)

/-- The function `leadingFraction`: the digits at the head of the text as a number with its
scale, and the rest; digits that would pass 2^63 are dropped. -/
def leadingFraction : List Char → Nat → Nat → Bool → Nat × Nat × List Char
  | [], x, scale, _ => (x, scale, [])
  | c :: cs, x, scale, overflow =>
    if isDigit c then
      if overflow then leadingFraction cs x scale true
      else if x > (2 ^ 63 - 1) / 10 then leadingFraction cs x scale true
      else if x * 10 + (c.toNat - 48) > 2 ^ 63 then leadingFraction cs x scale true
      else leadingFraction cs (x * 10 + (c.toNat - 48)) (scale * 10) false
    else (x, scale, c :: cs)

/-- The table `unitMap`. -/
def unitMap (u : String) : Option Nat :=
  if u = "ns" then some 1
  else if u = "us" ∨ u = "µs" ∨ u = "μs" then some 1000
  else if u = "ms" then some 1000000
  else if u = "s" then some 1000000000
  else if u = "m" then some 60000000000
  else if u = "h" then some 3600000000000
  else none

/-- Whether a character may stand in a unit: it is neither a digit nor a point. -/
def isUnitChar (c : Char) : Bool := !(c = '.' || isDigit c)

/-- The loop of `ParseDuration` over the terms of the text, with the sum `d` so far as a
`uint64`. The fuel is the length of the text, and each turn consumes a character. The
nanoseconds of a fraction are computed exactly, where Go computes them in `float64`. -/
def parseTerms (orig : String) : Nat → List Char → Nat → Except String Nat
  | 0, _, d => .ok d
  | _ + 1, [], d => .ok d
  | fuel + 1, c :: cs, d =>
    if !(c = '.' || isDigit c) then .error ("time: invalid duration " ++ strconv.Quote orig)
    else
      match leadingInt (c :: cs) 0 with
      | none => .error ("time: invalid duration " ++ strconv.Quote orig)
      | some (v, s1) =>
        let pre := s1.length ≠ (c :: cs).length
        let frac : Nat × Nat × List Char × Bool :=
          match s1 with
          | '.' :: rest =>
            let r := leadingFraction rest 0 1 false
            (r.1, r.2.1, r.2.2, r.2.2.length ≠ rest.length)
          | _ => (0, 1, s1, false)
        if !decide pre && !frac.2.2.2 then
          .error ("time: invalid duration " ++ strconv.Quote orig)
        else
          let u := frac.2.2.1.takeWhile isUnitChar
          let s3 := frac.2.2.1.dropWhile isUnitChar
          if u = [] then .error ("time: missing unit in duration " ++ strconv.Quote orig)
          else
            match unitMap (String.mk u) with
            | none =>
              .error ("time: unknown unit " ++ strconv.Quote (String.mk u) ++ " in duration " ++
                strconv.Quote orig)
            | some unit =>
              if v > 2 ^ 63 / unit then .error ("time: invalid duration " ++ strconv.Quote orig)
              else
                let v2 := if frac.1 > 0 then v * unit + frac.1 * unit / frac.2.1 else v * unit
                if v2 > 2 ^ 63 then .error ("time: invalid duration " ++ strconv.Quote orig)
                else if (d + v2) % 2 ^ 64 > 2 ^ 63 then
                  .error ("time: invalid duration " ++ strconv.Quote orig)
                else parseTerms orig fuel s3 ((d + v2) % 2 ^ 64)

/-- The function `time.ParseDuration`. -/
def ParseDuration (s : String) : Except String Duration :=
  let neg := s.data.head? = some '-'
  let body := if s.data.head? = some '-' ∨ s.data.head? = some '+' then s.data.tail else s.data
  if body = ['0'] then .ok 0
  else if body = [] then .error ("time: invalid duration " ++ strconv.Quote s)
  else
    match parseTerms s body.length body 0 with
    | .error e => .error e
    | .ok d =>
      if neg then .ok (-(d : Int))
      else if d > 2 ^ 63 - 1 then .error ("time: invalid duration " ++ strconv.Quote s)
      else .ok (d : Int)

end time

/-! ## internal/config/stop_convert.go -/

namespace config

/-- The function `parseSignal`. -/
def parseSignal (s : String) : Except String manager.Signal :=
  let u0 := strings.ToUpper (strings.TrimSpace s)
  let u := if strings.HasPrefix u0 "SIG" then u0 else "SIG" ++ u0
  if u = "SIGTERM" then .ok manager.SIGTERM
  else if u = "SIGINT" then .ok manager.SIGINT
  else if u = "SIGKILL" then .ok manager.SIGKILL
  else if u = "SIGHUP" then .ok manager.SIGHUP
  else if u = "SIGQUIT" then .ok manager.SIGQUIT
  else .error ("unsupported signal " ++ strconv.Quote s ++
    " (try SIGTERM, SIGINT, SIGKILL, SIGHUP, SIGQUIT)")

/-- The function `ConvertStopPublic`. -/
def ConvertStopPublic (serverName : String) (s : Stop) : Except String manager.StopConfig :=
  let typ : Except String manager.StopType :=
    if strings.TrimSpace s.Typ ≠ "" then
      if strings.ToLower (strings.TrimSpace s.Typ) = "stdin" then .ok manager.StopStdin
      else if strings.ToLower (strings.TrimSpace s.Typ) = "signal" then .ok manager.StopSignal
      else .error ("server " ++ strconv.Quote serverName ++ " has invalid stop.type " ++
        strconv.Quote s.Typ ++ " (expected stdin|signal)")
    else .ok manager.StopSignal
  match typ with
  | .error e => .error e
  | .ok t =>
    let grace : Except String time.Duration :=
      if strings.TrimSpace s.GracePeriod ≠ "" then
        match time.ParseDuration (strings.TrimSpace s.GracePeriod) with
        | .error e => .error ("server " ++ strconv.Quote serverName ++
            " has invalid stop.grace_period " ++ strconv.Quote s.GracePeriod ++ ": " ++ e)
        | .ok d => .ok d
      else .ok (10 * time.Second)
    match grace with
    | .error e => .error e
    | .ok g =>
      if t = manager.StopStdin then
        .ok ⟨t, manager.SIGTERM, if strings.TrimSpace s.Command = "" then "stop\n" else s.Command, g⟩
      else if t = manager.StopSignal ∧ strings.TrimSpace s.Signal ≠ "" then
        match parseSignal (strings.TrimSpace s.Signal) with
        | .error e => .error ("server " ++ strconv.Quote serverName ++
            " has invalid stop.signal " ++ strconv.Quote s.Signal ++ ": " ++ e)
        | .ok sig => .ok ⟨t, sig, "", g⟩
      else .ok ⟨t, manager.SIGTERM, "", g⟩

end config

/-! ## internal/config/config.go: the converter of servers.yaml -/

namespace config

/-- The function `convertStop`: `cfg` starts from the defaults and each step overwrites one
field or returns. -/
def convertStop (serverName : String) (s : Stop) : Except String manager.StopConfig :=
  let cfg0 : manager.StopConfig := ⟨manager.StopSignal, manager.SIGTERM, "", 10 * time.Second⟩
  let afterType : Except String manager.StopConfig :=
    if strings.TrimSpace s.Typ ≠ "" then
      if strings.ToLower (strings.TrimSpace s.Typ) = "stdin" then
        .ok { cfg0 with Typ := manager.StopStdin }
      else if strings.ToLower (strings.TrimSpace s.Typ) = "signal" then
        .ok { cfg0 with Typ := manager.StopSignal }
      else .error ("server " ++ strconv.Quote serverName ++ " has invalid stop.type " ++
        strconv.Quote s.Typ ++ " (expected stdin|signal)")
    else .ok cfg0
  match afterType with
  | .error e => .error e
  | .ok cfg1 =>
    let afterGrace : Except String manager.StopConfig :=
      if strings.TrimSpace s.GracePeriod ≠ "" then
        match time.ParseDuration (strings.TrimSpace s.GracePeriod) with
        | .error e => .error ("server " ++ strconv.Quote serverName ++
            " has invalid stop.grace_period " ++ strconv.Quote s.GracePeriod ++ ": " ++ e)
        | .ok d => .ok { cfg1 with GracePeriod := d }
      else .ok cfg1
    match afterGrace with
    | .error e => .error e
    | .ok cfg2 =>
      if cfg2.Typ = manager.StopStdin then
        .ok { cfg2 with
          StdinCommand := if strings.TrimSpace s.Command = "" then "stop\n" else s.Command }
      else if cfg2.Typ = manager.StopSignal ∧ strings.TrimSpace s.Signal ≠ "" then
        match parseSignal (strings.TrimSpace s.Signal) with
        | .error e => .error ("server " ++ strconv.Quote serverName ++
            " has invalid stop.signal " ++ strconv.Quote s.Signal ++ ": " ++ e)
        | .ok sig => .ok { cfg2 with Signal := sig }
      else .ok cfg2

/-- The names that `parseSignal` accepts once they are trimmed and raised: the five cases of
its switch, and the same names without the prefix `SIG`, which it adds when it is absent. -/
def signalNames : List String :=
  ["TERM", "INT", "KILL", "HUP", "QUIT", "SIGTERM", "SIGINT", "SIGKILL", "SIGHUP", "SIGQUIT"]

end config

/-! ## path/filepath, on slash-separated paths -/

namespace filepath

/-- The elements of a path between its slashes. -/
def split : List Char → List (List Char)
  | [] => [[]]
  | c :: cs =>
    match split cs with
    | [] => [[c]]
    | cur :: rest => if c = '/' then [] :: cur :: rest else (c :: cur) :: rest

/-- The loop of `Clean` over the elements of the path: `out` holds the elements kept so far,
last first, and `real` counts those of them that a `..` may remove. -/
def cleanLoop (rooted : Bool) : List (List Char) → List (List Char) → Nat → List (List Char)
  | [], out, _ => out.reverse
  | e :: es, out, real =>
    if e = [] ∨ e = ['.'] then cleanLoop rooted es out real
    else if e = ['.', '.'] then
      match real with
      | n + 1 => cleanLoop rooted es out.tail n
      | 0 => if rooted then cleanLoop rooted es out 0 else cleanLoop rooted es (e :: out) 0
    else cleanLoop rooted es (e :: out) (real + 1)

/-- The function `Clean`. -/
def Clean (path : String) : String :=
  if path = "" then "."
  else
    let rooted := path.data.head? = some '/'
    let out := cleanLoop rooted (split path.data) [] 0
    let body := String.mk (List.intercalate ['/'] out)
    if rooted then "/" ++ body
    else if body = "" then "." else body

/-- The function `Join` on two elements. -/
def Join (a b : String) : String :=
  if a ≠ "" then Clean (a ++ "/" ++ b)
  else if b ≠ "" then Clean b
  else ""

/-- The text of a path up to and with its last slash. -/
def dirPart : List Char → List Char
  | [] => []
  | c :: cs =>
    match dirPart cs with
    | [] => if c = '/' then [c] else []
    | rest => c :: rest

/-- The function `Dir`. -/
def Dir (path : String) : String := Clean (String.mk (dirPart path.data))

end filepath

/-! ## text/template, as far as `render` is embedded

`render` parses a template string with `text/template` and executes it on a
`map[string]string` with the option `missingkey=error`. The embedding covers the template
strings made of plain text and of the two actions that read one key of the map, the field
`{{.key}}` and the call `{{index . "key"}}`; for any other template string the outcome of
the library is an argument of `render`. -/

namespace template

/-- A node of a parsed template of the embedded fragment. -/
inductive Node
  | text (s : String)
  | field (key : String)
  | index (key : String)
deriving DecidableEq, Repr

/-- The space characters of the lexer. -/
def isSpace (c : Char) : Bool := c = ' ' || c = '\t' || c = '\r' || c = '\n'

def isIdentStart (c : Char) : Bool :=
  c = '_' || (decide ('a' ≤ c) && decide (c ≤ 'z')) || (decide ('A' ≤ c) && decide (c ≤ 'Z'))

def isIdentChar (c : Char) : Bool := isIdentStart c || (decide ('0' ≤ c) && decide (c ≤ '9'))

/-- A character of a string constant that stands for itself. -/
def isPlainStringChar (c : Char) : Bool := !(c = '"' || c = '\\' || c = '\n')

/-- The end of an action: spaces and the right delimiter; the result is the text after it. -/
def closeAction (cs : List Char) : Option (List Char) :=
  match cs.dropWhile isSpace with
  | '\x7d' :: '\x7d' :: rest => some rest
  | _ => none

/-- An action of the fragment, read after its left delimiter: the node and the text after the
right delimiter. `none` when the action is not of the fragment. -/
def parseAction (cs : List Char) : Option (Node × List Char) :=
  match cs.dropWhile isSpace with
  | '.' :: rest =>
    let name := rest.takeWhile isIdentChar
    match name with
    | [] => none
    | c :: _ =>
      if isIdentStart c then
        (closeAction (rest.dropWhile isIdentChar)).map (fun after => (Node.field (String.mk name), after))
      else none
  | 'i' :: 'n' :: 'd' :: 'e' :: 'x' :: sp :: rest =>
    if isSpace sp then
      match rest.dropWhile isSpace with
      | '.' :: sp2 :: rest2 =>
        if isSpace sp2 then
          match rest2.dropWhile isSpace with
          | '"' :: rest3 =>
            match rest3.dropWhile isPlainStringChar with
            | '"' :: rest4 =>
              (closeAction rest4).map (fun after =>
                (Node.index (String.mk (rest3.takeWhile isPlainStringChar)), after))
            | _ => none
          | _ => none
        else none
      | _ => none
    else none
  | _ => none

/-- The text gathered before an action or before the end, as a node. -/
def flush (acc : List Char) : List Node :=
  if acc = [] then [] else [Node.text (String.mk acc.reverse)]

/-- The parser on the fragment; each turn consumes a character, and the fuel is more than the
length of the text. -/
def parseFrom : Nat → List Char → List Char → Option (List Node)
  | 0, _, _ => none
  | _ + 1, [], acc => some (flush acc)
  | fuel + 1, '\x7b' :: '\x7b' :: rest, acc =>
    match parseAction rest with
    | none => none
    | some (node, after) =>
      match parseFrom fuel after [] with
      | none => none
      | some nodes => some (flush acc ++ node :: nodes)
  | fuel + 1, c :: rest, acc => parseFrom fuel rest (c :: acc)

/-- The nodes of a template string of the fragment, and `none` for any other string. -/
def parse (tmpl : String) : Option (List Node) := parseFrom (tmpl.length + 1) tmpl.data []

/-- The execution of the nodes on a map with `missingkey=error`: a field whose key is absent
stops the execution with an error, and the function `index` yields the zero value of the
element type, the empty string, for a key that is absent. The error text omits the position. -/
def execute (ctx : GoMap String) : List Node → Except String String
  | [] => .ok ""
  | Node.text s :: rest =>
    match execute ctx rest with
    | .error e => .error e
    | .ok out => .ok (s ++ out)
  | Node.field key :: rest =>
    match ctx.get key with
    | none =>
      .error ("template: x: executing \"x\" at <." ++ key ++ ">: map has no entry for key " ++
        strconv.Quote key)
    | some v =>
      match execute ctx rest with
      | .error e => .error e
      | .ok out => .ok (v ++ out)
  | Node.index key :: rest =>
    match execute ctx rest with
    | .error e => .error e
    | .ok out => .ok ((ctx.get key).getD "" ++ out)

end template

/-! ## internal/instances -/

namespace instances

open time

/-- The files and directories that the agent works on. A file that `Store.Save` wrote holds a
catalogue (`some`), or what a failed write left of it (`none`). -/
structure FS where
  files : GoMap (Option (GoMap config.Instance))
  dirs : List String
deriving DecidableEq, Repr

/-- The call `os.MkdirAll(path, 0755)` when it succeeds. -/
def FS.mkdirAll (fs : FS) (path : String) : FS :=
  if path ∈ fs.dirs then fs else { fs with dirs := fs.dirs ++ [path] }

/-- Whether `p` is `path` or lies below it. -/
def below (path p : String) : Bool :=
  p = path || (path ++ "/").data.isPrefixOf p.data

/-- The call `os.RemoveAll(path)` when it succeeds. -/
def FS.removeAll (fs : FS) (path : String) : FS :=
  { files := fs.files.filter (fun e => !below path e.1)
    dirs := fs.dirs.filter (fun d => !below path d) }

/-- The type `Store`. -/
structure Store where
  Path : String
deriving DecidableEq, Repr

/-- The function `NewStore`. -/
def NewStore (path : String) : Store := ⟨path⟩

/-- The step of `Store.Save` that fails, with the text of its error. -/
inductive SaveFault
  | marshal (err : String)
  | mkdir (err : String)
  | write (err : String)
  | rename (err : String)
deriving DecidableEq, Repr

/-- The method `Store.Save`; `fault` says which of its steps fails, if one does. The YAML text
of a catalogue stands for the catalogue. -/
def Store.Save (st : Store) (fs : FS) (instances : GoMap config.Instance)
    (fault : Option SaveFault) : FS × Option String :=
  match fault with
  | some (SaveFault.marshal err) => (fs, some ("marshal instances: " ++ err))
  | some (SaveFault.mkdir err) => (fs, some ("mkdir parent: " ++ err))
  | some (SaveFault.write err) =>
    let fs1 := fs.mkdirAll (filepath.Dir st.Path)
    ({ fs1 with files := fs1.files.set (st.Path ++ ".tmp") none },
      some ("write temp instances file: " ++ err))
  | some (SaveFault.rename err) =>
    let fs1 := fs.mkdirAll (filepath.Dir st.Path)
    ({ fs1 with files := fs1.files.set (st.Path ++ ".tmp") (some instances) },
      some ("rename temp -> instances file: " ++ err))
  | none =>
    let fs1 := fs.mkdirAll (filepath.Dir st.Path)
    ({ fs1 with
        files := ((fs1.files.set (st.Path ++ ".tmp") (some instances)).delete
          (st.Path ++ ".tmp")).set st.Path (some instances) },
      none)

/-- The method `Store.Load`, on a file that holds a catalogue. -/
def Store.Load (st : Store) (fs : FS) : Except String (GoMap config.Instance) :=
  match fs.files.get st.Path with
  | some (some instances) => .ok instances
  | some none => .error ("parse instances yaml " ++ st.Path)
  | none => .error ("read instances file " ++ st.Path)

/-- The type `Service`; `Store` is `none` when the pointer is nil. -/
structure Service where
  Mgr : manager.Manager
  Templates : GoMap config.Template
  Instances : GoMap config.Instance
  Store : Option Store
  BaseInstanceDir : String
  LogDir : String
deriving DecidableEq, Repr

/-- The function `NewService`. -/
def NewService (mgr : manager.Manager) (templates : GoMap config.Template)
    (instances : GoMap config.Instance) (store : Option Store) (baseInstanceDir logDir : String) :
    Service :=
  ⟨mgr, templates, instances, store,
    if baseInstanceDir = "" then "data/instances" else baseInstanceDir,
    if logDir = "" then "logs" else logDir⟩

namespace Service

/-- The method `ListInstanceNames`. -/
def ListInstanceNames (s : Service) : List String := s.Instances.keys

/-- The method `InstanceDir`. -/
def InstanceDir (s : Service) (name : String) : String := filepath.Join s.BaseInstanceDir name

/-- The method `LogPath`. -/
def LogPath (s : Service) (name : String) : String := filepath.Join s.LogDir (name ++ ".log")

/-- The method `EnsureDirs`; the faults are the errors of its two `os.MkdirAll`, if they fail. -/
def EnsureDirs (s : Service) (fs : FS) (name : String) (logFault instanceFault : Option String) :
    FS × Option String :=
  match logFault with
  | some err => (fs, some err)
  | none =>
    let fs1 := fs.mkdirAll s.LogDir
    match instanceFault with
    | some err => (fs1, some err)
    | none => (fs1.mkdirAll (s.InstanceDir name), none)

end Service

/-- What the file system does during one `CreateInstance`. -/
structure CreateEnv where
  save : Option SaveFault
  mkdirLog : Option String
  mkdirInstance : Option String
deriving DecidableEq, Repr

/-- What happens around one `DeleteInstance`: the environment of the `Stop` it may call, the
fault of its `Save` and the error of its `os.RemoveAll`. -/
structure DeleteEnv where
  stop : manager.StopEnv
  save : Option SaveFault
  removeAll : Option String
deriving DecidableEq, Repr

namespace Service

/-- The method `CreateInstance`; `params` is `none` for a nil map. -/
def CreateInstance (s : Service) (fs : FS) (name templateName : String) (enabled : Bool)
    (params : Option (GoMap String)) (env : CreateEnv) : Service × FS × Option String :=
  if name = "" then (s, fs, some "instance name is required")
  else if templateName = "" then (s, fs, some "template name is required")
  else if !s.Templates.has templateName then (s, fs, some ("unknown template: " ++ templateName))
  else if s.Instances.has name then (s, fs, some ("instance already exists: " ++ name))
  else
    let s1 := { s with Instances := s.Instances.set name ⟨templateName, enabled, params.getD []⟩ }
    match s.Store with
    | some st =>
      match st.Save fs s1.Instances env.save with
      | (fs1, some err) => ({ s1 with Instances := s1.Instances.delete name }, fs1, some err)
      | (fs1, none) => (s1, (s1.EnsureDirs fs1 name env.mkdirLog env.mkdirInstance).1, none)
    | none => (s1, (s1.EnsureDirs fs name env.mkdirLog env.mkdirInstance).1, none)

/-- The method `DeleteInstance`. -/
def DeleteInstance (s : Service) (fs : FS) (name : String) (force deleteData : Bool)
    (env : DeleteEnv) : Service × FS × Option String :=
  if !s.Instances.has name then (s, fs, some ("unknown instance: " ++ name))
  else
    let st := s.Mgr.Status name
    if st.Running && !force then
      (s, fs, some ("instance " ++ strconv.Quote name ++
        " is running; use force to stop it before delete"))
    else
      let mgr := if st.Running then (s.Mgr.Stop name env.stop).1 else s.Mgr
      let s1 := { s with Mgr := mgr, Instances := s.Instances.delete name }
      let saved : FS × Option String :=
        match s.Store with
        | some store => store.Save fs s1.Instances env.save
        | none => (fs, none)
      match saved with
      | (fs1, some err) => (s1, fs1, some err)
      | (fs1, none) =>
        if deleteData && env.removeAll.isNone then (s1, fs1.removeAll (s1.InstanceDir name), none)
        else (s1, fs1, none)

end Service

/-- The function `render`; `lib` is `text/template` on the strings that the embedding of the
package does not cover. -/
def render (lib : String → GoMap String → Except String String) (tmpl : String)
    (ctx : GoMap String) : Except String String :=
  match template.parse tmpl with
  | some nodes => template.execute ctx nodes
  | none => lib tmpl ctx

/-- The loops of `ResolveConfig` that render each argument and each environment entry. -/
def renderAll (lib : String → GoMap String → Except String String) (ctx : GoMap String) :
    List String → Except String (List String)
  | [] => .ok []
  | a :: rest =>
    match render lib a ctx with
    | .error e => .error e
    | .ok r =>
      match renderAll lib ctx rest with
      | .error e => .error e
      | .ok rs => .ok (r :: rs)

/-- What happens around one `ResolveConfig`: the errors of the two `os.MkdirAll` of
`EnsureDirs`, if they fail, and `text/template` on the strings that the embedding does not
cover. -/
structure ResolveEnv where
  mkdirLog : Option String
  mkdirInstance : Option String
  lib : String → GoMap String → Except String String

namespace Service

/-- The rendering context of `ResolveConfig`: a copy of the params of the instance, then the
three injected keys. -/
def renderContext (s : Service) (instanceName : String) (inst : config.Instance) :
    GoMap String :=
  GoMap.set
    (GoMap.set
      (GoMap.set (inst.Params.foldl (fun ctx kv => GoMap.set ctx kv.1 kv.2) [])
        "instance_name" instanceName)
      "instance_dir" (s.InstanceDir instanceName))
    "log_path" (s.LogPath instanceName)

/-- The method `ResolveConfig`: the file system after the call, and the launch spec with the
log path, or the error. -/
def ResolveConfig (s : Service) (fs : FS) (instanceName : String) (env : ResolveEnv) :
    FS × Except String (manager.ServerConfig × String) :=
  match s.Instances.get instanceName with
  | none => (fs, .error ("unknown instance: " ++ instanceName))
  | some inst =>
    if !inst.Enabled then
      (fs, .error ("instance " ++ strconv.Quote instanceName ++ " is disabled"))
    else
      match s.Templates.get inst.Template with
      | none =>
        (fs, .error ("instance " ++ strconv.Quote instanceName ++
          " references unknown template " ++ strconv.Quote inst.Template))
      | some tpl =>
        match s.EnsureDirs fs instanceName env.mkdirLog env.mkdirInstance with
        | (fs1, some e) => (fs1, .error ("ensure dirs: " ++ e))
        | (fs1, none) =>
          let ctx := s.renderContext instanceName inst
          match render env.lib tpl.Command ctx with
          | .error e => (fs1, .error ("render template.command: " ++ e))
          | .ok command =>
            match renderAll env.lib ctx tpl.Args with
            | .error e => (fs1, .error ("render template.args: " ++ e))
            | .ok args =>
              match render env.lib tpl.Cwd ctx with
              | .error e => (fs1, .error ("render template.cwd: " ++ e))
              | .ok cwd =>
                match renderAll env.lib ctx tpl.Env with
                | .error e => (fs1, .error ("render template.env: " ++ e))
                | .ok envs =>
                  match config.ConvertStopPublic instanceName tpl.Stop with
                  | .error e => (fs1, .error e)
                  | .ok stopCfg =>
                    (fs1, .ok (⟨instanceName, command, args, cwd, envs, stopCfg⟩,
                      s.LogPath instanceName))

end Service

end instances

/-! ## internal/protocol/commands.go and instance_commands.go -/

namespace protocol

def CmdStart : String := "start"
def CmdStop : String := "stop"
def CmdStatus : String := "status"
def CmdList : String := "list"
def CmdInstancesList : String := "instances.list"
def CmdInstancesCreate : String := "instances.create"
def CmdInstancesDelete : String := "instances.delete"

/-- The type `ServerTarget`. -/
structure ServerTarget where
  Server : String
deriving DecidableEq, Repr

/-- The type `CreateInstanceRequest`; `Params` is `none` for a nil map. -/
structure CreateInstanceRequest where
  Name : String
  Template : String
  Enabled : Bool
  Params : Option (GoMap String)
deriving DecidableEq, Repr

/-- The type `DeleteInstanceRequest`. -/
structure DeleteInstanceRequest where
  Name : String
  Force : Bool
  DeleteData : Bool
deriving DecidableEq, Repr

end protocol

/-! ## internal/server/http_api.go: the relay of start, stop and status -/

namespace server

open protocol time

def StatusOK : Nat := 200
def StatusBadRequest : Nat := 400

/-- What a handler writes as the body of its reply: the bytes of a payload, or the JSON
encoding of one of the three maps that `command` builds: `error` alone; `agent_id`, `server`
and `error`; `agent_id`, `server` and `ok` set to true. -/
inductive HTTPBody
  | raw (bytes : String)
  | errorOnly (error : String)
  | agentError (agentID server error : String)
  | agentOk (agentID server : String)
deriving DecidableEq, Repr

/-- The reply of a handler: the status, the header `Content-Type` and the body. -/
structure HTTPReply where
  status : Nat
  contentType : String
  body : HTTPBody
deriving DecidableEq, Repr

/-- The function `writeJSON`, on a body that stands for the map it encodes. -/
def writeJSON (status : Nat) (v : HTTPBody) : HTTPReply := ⟨status, "application/json", v⟩

/-- The function `writeErr`. -/
def writeErr (status : Nat) (msg : String) : HTTPReply := writeJSON status (HTTPBody.errorOnly msg)

namespace HTTPServer

/-- The end of the method `command`, once `SendCommand` has returned the response `resp`. -/
def command.relay (agentID serverName : String) (resp : Message) : HTTPReply :=
  if resp.Error ≠ "" then
    writeJSON StatusBadRequest (HTTPBody.agentError agentID serverName resp.Error)
  else if resp.Payload.length = 0 then
    writeJSON StatusOK (HTTPBody.agentOk agentID serverName)
  else ⟨StatusOK, "application/json", HTTPBody.raw resp.Payload⟩

/-- The method `command`, on the path values `agentID` and `serverName`; `targetJSON` is
the outcome of `json.Marshal` on the `ServerTarget`, and `reqID`, `now` and `sch` are those of
the `SendCommand` it makes, whose context is done after 10s. The reply is `none` while that
call is blocked. -/
def command (s : State) (agentID serverName cmdType : String)
    (targetJSON : Except String String) (reqID : String) (now : Time) (sch : Schedule) :
    State × Option HTTPReply :=
  if agentID = "" then (s, some (writeErr StatusBadRequest "missing agentID"))
  else if serverName = "" then (s, some (writeErr StatusBadRequest "missing server name"))
  else
    match Registry.SendCommand s agentID cmdType targetJSON reqID now sch with
    | (s1, none) => (s1, none)
    | (s1, some (.error e)) => (s1, some (writeErr StatusBadRequest e))
    | (s1, some (.ok resp)) => (s1, some (command.relay agentID serverName resp))

/-- The method `handleStart`. -/
def handleStart (s : State) (agentID serverName : String) (targetJSON : Except String String)
    (reqID : String) (now : Time) (sch : Schedule) : State × Option HTTPReply :=
  command s agentID serverName CmdStart targetJSON reqID now sch

/-- The method `handleStop`. -/
def handleStop (s : State) (agentID serverName : String) (targetJSON : Except String String)
    (reqID : String) (now : Time) (sch : Schedule) : State × Option HTTPReply :=
  command s agentID serverName CmdStop targetJSON reqID now sch

/-- The method `handleStatus`. -/
def handleStatus (s : State) (agentID serverName : String) (targetJSON : Except String String)
    (reqID : String) (now : Time) (sch : Schedule) : State × Option HTTPReply :=
  command s agentID serverName CmdStatus targetJSON reqID now sch

end HTTPServer

end server

/-! ## internal/control/handler.go -/

namespace instances

/-- One element of the result of `ListInstanceSummaries`: the map with the keys `name`,
`template`, `enabled`, `params`, `running` and `pid`. -/
structure Summary where
  name : String
  template : String
  enabled : Bool
  params : GoMap String
  running : Bool
  pid : Int
deriving DecidableEq, Repr

/-- The method `ListInstanceSummaries`. -/
def Service.ListInstanceSummaries (s : Service) : List Summary :=
  s.Instances.map (fun e =>
    ⟨e.1, e.2.Template, e.2.Enabled, e.2.Params, (s.Mgr.Status e.1).Running,
      (s.Mgr.Status e.1).PID⟩)

end instances

namespace control

open protocol time

/-- The values that `Handle` passes to `NewResponse` as the payload of a response: the map
with the key `instances`, the map with the keys `ok` and `name`, the list of the states and
one state. -/
inductive ResponsePayload
  | instances (summaries : List instances.Summary)
  | ok (name : String)
  | states (sts : List manager.ServerState)
  | state (st : manager.ServerState)
deriving DecidableEq, Repr

/-- The calls of `Handle` into `encoding/json`: `json.Marshal` on the payload of a response,
and `json.Unmarshal` of the payload of a request into each of the three request types. -/
structure Codec where
  marshal : ResponsePayload → Except String String
  unmarshalTarget : String → Except String ServerTarget
  unmarshalCreate : String → Except String CreateInstanceRequest
  unmarshalDelete : String → Except String DeleteInstanceRequest

/-- The type `Handler`; `OnInstanceListChanged` says whether the callback is set. -/
structure Handler where
  AgentID : String
  Instances : instances.Service
  OnInstanceListChanged : Bool
deriving DecidableEq, Repr

/-- The function `NewHandler`. -/
def NewHandler (agentID : String) (inst : instances.Service) : Handler := ⟨agentID, inst, false⟩

/-- The method `SupportedServers`. -/
def Handler.SupportedServers (h : Handler) : List String := h.Instances.ListInstanceNames

/-- What happens around one `Handle`: the clock, the library calls and the environment of
each operation that the request may run. -/
structure HandleEnv where
  now : Time
  codec : Codec
  create : instances.CreateEnv
  delete : instances.DeleteEnv
  resolve : instances.ResolveEnv
  spawn : manager.SpawnOutcome
  stop : manager.StopEnv

/-- The outcome of one `Handle`: the handler and the file system after the call, the message
and the error returned, and whether the callback `OnInstanceListChanged` was called. -/
structure HandleResult where
  handler : Handler
  fs : instances.FS
  resp : Message
  err : Option String
  fired : Bool
deriving DecidableEq, Repr

/-- The statement `return protocol.NewResponse(h.AgentID, msg.ID, payload, respErr)`. -/
def respond (h : Handler) (msg : Message) (payload : ResponsePayload) (respErr : Option String)
    (env : HandleEnv) : Message × Option String :=
  match NewResponse h.AgentID msg.ID (some (env.codec.marshal payload)) respErr env.now with
  | .ok m => (m, none)
  | .error e => (Message.zero, some e)

/-- The statements `resp, _ := protocol.NewResponse(h.AgentID, msg.ID, nil, err)` and
`return resp, nil`. -/
def respondError (h : Handler) (msg : Message) (err : String) (env : HandleEnv) : Message :=
  match NewResponse h.AgentID msg.ID none (some err) env.now with
  | .ok m => m
  | .error _ => Message.zero

/-- The method `Handle`. -/
def Handler.Handle (h : Handler) (fs : instances.FS) (msg : Message) (env : HandleEnv) :
    HandleResult :=
  match msg.ValidateBasic with
  | some e => ⟨h, fs, Message.zero, some e, false⟩
  | none =>
    if msg.Kind ≠ KindRequest then
      ⟨h, fs, Message.zero, some "handler only accepts request messages", false⟩
    else if msg.Typ = CmdInstancesList then
      let r := respond h msg (ResponsePayload.instances h.Instances.ListInstanceSummaries) none env
      ⟨h, fs, r.1, r.2, false⟩
    else if msg.Typ = CmdInstancesCreate then
      match env.codec.unmarshalCreate msg.Payload with
      | .error e => ⟨h, fs, respondError h msg ("bad payload: " ++ e) env, none, false⟩
      | .ok req =>
        match h.Instances.CreateInstance fs req.Name req.Template req.Enabled req.Params
            env.create with
        | (svc, fs1, some e) =>
          ⟨{ h with Instances := svc }, fs1, respondError h msg e env, none, false⟩
        | (svc, fs1, none) =>
          let r := respond h msg (ResponsePayload.ok req.Name) none env
          ⟨{ h with Instances := svc }, fs1, r.1, r.2, h.OnInstanceListChanged⟩
    else if msg.Typ = CmdInstancesDelete then
      match env.codec.unmarshalDelete msg.Payload with
      | .error e => ⟨h, fs, respondError h msg ("bad payload: " ++ e) env, none, false⟩
      | .ok req =>
        match h.Instances.DeleteInstance fs req.Name req.Force req.DeleteData env.delete with
        | (svc, fs1, some e) =>
          ⟨{ h with Instances := svc }, fs1, respondError h msg e env, none, false⟩
        | (svc, fs1, none) =>
          let r := respond h msg (ResponsePayload.ok req.Name) none env
          ⟨{ h with Instances := svc }, fs1, r.1, r.2, h.OnInstanceListChanged⟩
    else if msg.Typ = CmdList then
      let r := respond h msg
        (ResponsePayload.states (h.Instances.ListInstanceNames.map h.Instances.Mgr.Status)) none env
      ⟨h, fs, r.1, r.2, false⟩
    else if msg.Typ = CmdStatus then
      match env.codec.unmarshalTarget msg.Payload with
      | .error e => ⟨h, fs, respondError h msg ("bad payload: " ++ e) env, none, false⟩
      | .ok tgt =>
        let r := respond h msg (ResponsePayload.state (h.Instances.Mgr.Status tgt.Server)) none env
        ⟨h, fs, r.1, r.2, false⟩
    else if msg.Typ = CmdStart then
      match env.codec.unmarshalTarget msg.Payload with
      | .error e => ⟨h, fs, respondError h msg ("bad payload: " ++ e) env, none, false⟩
      | .ok tgt =>
        match h.Instances.ResolveConfig fs tgt.Server env.resolve with
        | (fs1, .error e) => ⟨h, fs1, respondError h msg e env, none, false⟩
        | (fs1, .ok (cfg, logPath)) =>
          let started := h.Instances.Mgr.Start cfg logPath env.spawn
          let r := respond h msg (ResponsePayload.state started.2.1) started.2.2 env
          ⟨{ h with Instances := { h.Instances with Mgr := started.1 } }, fs1, r.1, r.2, false⟩
    else if msg.Typ = CmdStop then
      match env.codec.unmarshalTarget msg.Payload with
      | .error e => ⟨h, fs, respondError h msg ("bad payload: " ++ e) env, none, false⟩
      | .ok tgt =>
        let stopped := h.Instances.Mgr.Stop tgt.Server env.stop
        let r := respond h msg (ResponsePayload.state stopped.2.1) stopped.2.2 env
        ⟨{ h with Instances := { h.Instances with Mgr := stopped.1 } }, fs, r.1, r.2, false⟩
    else
      ⟨h, fs, respondError h msg ("unknown command type: " ++ msg.Typ) env, none, false⟩

/-- A message that `Handle` may return together with its error: the zero message with an
error, or a response to `msg` in the name of the handler without one. -/
def Answers (h : Handler) (msg : Message) (resp : Message) (err : Option String) : Prop :=
  err = none → resp.Kind = KindResponse ∧ resp.ID = msg.ID ∧ resp.AgentID = h.AgentID

/-- An error that `Handle` returns is the error of `json.Marshal` on a response payload. -/
def MarshalFailed (env : HandleEnv) (err : Option String) : Prop :=
  ∀ e, err = some e → ∃ p, env.codec.marshal p = .error e

end control

/-! ## cmd/agent/main.go: the reconnect loop -/

namespace agent

open time

/-- How one call of `connectAndServe` ended: the dial failed, the first `register` could not
be built or sent, or the agent registered and served until the link failed. -/
inductive ConnOutcome
  | dialFailed (err : String)
  | registerFailed (err : String)
  | served (err : String)
deriving DecidableEq, Repr

/-- Whether the agent registered with the server in that iteration. -/
def ConnOutcome.registered : ConnOutcome → Bool
  | ConnOutcome.served _ => true
  | _ => false

def maxBackoff : Duration := 30 * Second

/-- The end of one iteration of `runAgentLoop`: the backoff of the next one. The doubling of
an `int64` that is at most 30s does not overflow. -/
def nextBackoff (backoff : Duration) : Duration :=
  if backoff * 2 > maxBackoff then maxBackoff else backoff * 2

/-- The sleeps of `runAgentLoop`, one for each iteration, from the backoff at its start. -/
def runAgentLoop.sleeps : Duration → List ConnOutcome → List Duration
  | _, [] => []
  | backoff, _ :: outs => backoff :: runAgentLoop.sleeps (nextBackoff backoff) outs

/-- The function `runAgentLoop`, over the iterations whose `connectAndServe` ended as `outs`
say: the durations it slept. -/
def runAgentLoop (outs : List ConnOutcome) : List Duration :=
  runAgentLoop.sleeps (1 * Second) outs

end agent

/-! ## Concrete runs of the registry and of the listener -/

namespace server.Scenario

open protocol time

/-- The line of a `register` message of agent `a` that advertises no instance. -/
def registerLine : List Char :=
  "\x7b\"kind\":\"register\",\"agent_id\":\"a\",\"payload\":\x7b\"servers\":[]\x7d,\"ts\":\"0001-01-01T00:00:00.000000001Z\"\x7d\n".data

/-- A registry with one link, on which agent `a` is registered. -/
def oneAgent : State := Registry.RegisterAgent (NewRegistry [transport.NewConn []]) "a" [] 0 ⟨1⟩

/-- The payload of a `status` request. -/
def target : String := "\x7b\"server\":\"mc\"\x7d"

/-- A response of agent `a` to the request `r1`. -/
def response : Message := ⟨KindResponse, "r1", "a", "", "", "", ⟨3⟩⟩

/-- The locals of the `SendCommand` that sent the request `r1` to agent `a`. -/
def call : Call := ⟨0, "r1", 0, ⟨KindRequest, "r1", "a", "status", target, "", ⟨2⟩⟩⟩

/-- The registry while that `SendCommand` waits in its `select`: the request is sent. -/
def waiting : State :=
  (Registry.SendCommand.send
    (Registry.SendCommand.enter oneAgent "a" "status" (.ok target) "r1" ⟨2⟩).1 call).1

/-- The registry once the listener has delivered the response and before the waiting
`SendCommand` runs again. -/
def answered : State := (Registry.HandleIncomingFromAgent waiting response ⟨3⟩).1

/-- The listener delivers the response while the call waits, and the context is not done. -/
def responseArrives : Schedule := ⟨[], [Event.incoming response ⟨3⟩], [], false, false⟩

/-- The agent sends its response twice while the call waits; the context is done when the
`select` runs and the `select` takes that case. -/
def twoResponsesThenTimeout : Schedule :=
  ⟨[], [Event.incoming response ⟨3⟩, Event.incoming response ⟨4⟩], [], true, true⟩

/-- A registry with two links; agent `a` has written its `register` line on each, and
nothing more on the first. -/
def twoLinks : State :=
  NewRegistry [transport.NewConn registerLine, transport.NewConn registerLine]

/-- Agent `a` is registered on the first link. -/
def registered : State := (AgentListener.handleConn.first twoLinks 0 (.ok []) ⟨1⟩).1

/-- Agent `a` has registered again, on the second link. -/
def reconnected : State := (AgentListener.handleConn.first registered 1 (.ok []) ⟨2⟩).1

/-- The receive loop of the first link has then failed: its stream has ended. -/
def oldLinkFailed : State := (AgentListener.handleConn.iterate reconnected 0 "a" (.ok []) ⟨3⟩).1

/-- A response of agent `a` to the request `r1` that carries the state of `mc` as its payload
and an error, as the handler of the agent answers a `start` of an instance that runs. -/
def failedStart : Message :=
  ⟨KindResponse, "r1", "a", "", "\x7b\"name\":\"mc\",\"running\":true,\"pid\":10\x7d",
    "mc already running (pid=10)", ⟨3⟩⟩

/-- The listener delivers that response while the call waits, and the context is not done. -/
def failedStartArrives : Schedule := ⟨[], [Event.incoming failedStart ⟨3⟩], [], false, false⟩

end server.Scenario

/-! ## Concrete runs of the catalogue and of the supervisor -/

namespace instances.Scenario

/-- A template that sleeps, stopped by `TERM` with a grace of 2s. -/
def sleeper : config.Template := ⟨"/bin/sleep", ["3600"], "", [], ⟨"signal", "", "TERM", "2s"⟩⟩

/-- The store of the agent, as `main` builds it. -/
def store : Store := NewStore "configs/instances.yaml"

/-- A service with the store, one template and no instance. -/
def withStore : Service :=
  NewService manager.NewManager [("sleeper", sleeper)] [] (some store) "data/instances" "logs"

/-- The same service built with a nil store. -/
def withoutStore : Service :=
  NewService manager.NewManager [("sleeper", sleeper)] [] none "data/instances" "logs"

/-- A file system that holds nothing yet. -/
def emptyFS : FS := ⟨[], []⟩

/-- Every call into the file system succeeds. -/
def healthy : CreateEnv := ⟨none, none, none⟩

/-- The write of the temporary file fails. -/
def diskFull : CreateEnv := ⟨some (SaveFault.write "no space left on device"), none, none⟩

/-- A `DeleteInstance` during which every call into the file system succeeds. -/
def healthyDelete : DeleteEnv := ⟨⟨⟨0⟩, none, []⟩, none, none⟩

end instances.Scenario

namespace manager.Scenario

/-- The launch spec of an instance `mc`. -/
def mc : ServerConfig := ⟨"mc", "/bin/sleep", ["3600"], "", [], ⟨StopSignal, SIGTERM, "", 2 * time.Second⟩⟩

/-- The supervisor after `mc` was started, has exited and was started again: it holds two
records named `mc`, the first of them exited. -/
def restarted : Manager :=
  (((NewManager.Start mc "logs/mc.log" (SpawnOutcome.started 10 ⟨1⟩)).1.reap 0
    WaitResult.exited ⟨2⟩).Start mc "logs/mc.log" (SpawnOutcome.started 11 ⟨3⟩)).1

/-- The stop policy that `ConvertStopPublic` returns for the signal `TERM` and the grace
period `0s`. -/
def zeroGracePolicy : StopConfig := ⟨StopSignal, SIGTERM, "", 0⟩

/-- The supervisor with an instance `mc` of that policy, whose child runs with the pid 10. -/
def zeroGrace : Manager :=
  (NewManager.Start ⟨"mc", "/bin/sleep", ["3600"], "", [], zeroGracePolicy⟩ "logs/mc.log"
    (SpawnOutcome.started 10 ⟨1⟩)).1

/-- A `Stop` during which the child is reaped 5s after `Stop` has computed its deadline, and
every step of `Stop` that reads the clock or takes the lock comes 50µs late. -/
def reapedAfter5s : StopEnv :=
  ⟨⟨5⟩, some (5 * time.Second, WaitResult.exitError (some (-1)) "signal: terminated"),
    List.replicate 120 50000⟩

end manager.Scenario

/-! ## Concrete runs of `CreateInstance`, `DeleteInstance` and `ResolveConfig` -/

namespace instances.Scenario

/-- A service whose template map has the empty string among its keys. -/
def withEmptyTemplateName : Service :=
  NewService manager.NewManager [("", sleeper)] [] (some store) "data/instances" "logs"

/-- A service with the store and the instance `i1` of the template `sleeper`. -/
def withInstance : Service :=
  NewService manager.NewManager [("sleeper", sleeper)] [("i1", ⟨"sleeper", true, []⟩)]
    (some store) "data/instances" "logs"

/-- A `DeleteInstance` during which the write of the temporary file fails. -/
def diskFullDelete : DeleteEnv :=
  ⟨⟨⟨0⟩, none, []⟩, some (SaveFault.write "no space left on device"), none⟩

/-- The service with the instance `i1`, whose child runs with the pid 10. -/
def running : Service :=
  { withInstance with
    Mgr := (manager.NewManager.Start
      ⟨"i1", "/bin/sleep", ["3600"], "", [], ⟨manager.StopSignal, manager.SIGTERM, "", 2 * time.Second⟩⟩
      "logs/i1.log" (manager.SpawnOutcome.started 10 ⟨1⟩)).1 }

/-- A `DeleteInstance` during which the child is reaped 300ms after `Stop` has computed its
deadline, the steps of `Stop` come some microseconds late, and every call into the file
system succeeds. -/
def stopping : DeleteEnv :=
  ⟨⟨⟨5⟩, some (300 * time.Millisecond, manager.WaitResult.exitError (some (-1)) "signal: terminated"),
      [20000, 5000, 30000, 5000, 30000, 5000]⟩,
    none, none⟩

/-- A template whose strings read keys of the context with the field syntax. -/
def game : config.Template :=
  ⟨"/opt/\x7b\x7b.instance_name\x7d\x7d/run", ["--port", "\x7b\x7b.port\x7d\x7d"],
    "\x7b\x7b.instance_dir\x7d\x7d", ["LOG=\x7b\x7b .log_path \x7d\x7d"],
    ⟨"signal", "", "TERM", "2s"⟩⟩

/-- A template whose second argument reads the key `port` with the function `index`. -/
def indexed : config.Template :=
  ⟨"/bin/server", ["--port", "\x7b\x7bindex . \"port\"\x7d\x7d"], "", [],
    ⟨"signal", "", "TERM", "2s"⟩⟩

/-- A service with those two templates, an instance `mc` of the first whose params set the
port and try to set `instance_name`, and an instance `i1` of the second without params. -/
def withGames : Service :=
  NewService manager.NewManager [("game", game), ("indexed", indexed)]
    [("mc", ⟨"game", true, [("port", "25565"), ("instance_name", "other")]⟩),
      ("i1", ⟨"indexed", true, []⟩)]
    (some store) "data/instances" "logs"

/-- A `ResolveConfig` during which the directories can be made; the runs below use only
template strings that the embedding of `text/template` covers, so the library is not asked. -/
def resolving : ResolveEnv := ⟨none, none, fun _ _ => .error "template: not embedded"⟩

end instances.Scenario

/-! ## Concrete runs of the handler -/

namespace control.Scenario

open protocol

/-- The payload of a request that creates `i1` from the template `sleeper`. -/
def createI1 : String := "\x7b\"name\":\"i1\",\"template\":\"sleeper\",\"enabled\":true\x7d"

/-- The payload of a request that creates `i2` from a template that does not exist. -/
def createI2 : String := "\x7b\"name\":\"i2\",\"template\":\"nope\",\"enabled\":true\x7d"

/-- The calls into `encoding/json` that the runs below make, tabulated: the two payloads
above decode to their requests, the empty payload is rejected, and the map with the keys
`name` and `ok` is encoded for a plain name. The runs make no other call. -/
def tabulated : Codec where
  marshal := fun p =>
    match p with
    | ResponsePayload.ok name =>
      .ok ("\x7b\"name\":" ++ strconv.Quote name ++ ",\"ok\":true\x7d")
    | _ => .error "json: not tabulated"
  unmarshalTarget := fun text =>
    if text = "" then .error "unexpected end of JSON input" else .error "json: not tabulated"
  unmarshalCreate := fun text =>
    if text = createI1 then .ok ⟨"i1", "sleeper", true, none⟩
    else if text = createI2 then .ok ⟨"i2", "nope", true, none⟩
    else if text = "" then .error "unexpected end of JSON input"
    else .error "json: not tabulated"
  unmarshalDelete := fun text =>
    if text = "" then .error "unexpected end of JSON input" else .error "json: not tabulated"

/-- A handler of agent `a` on the service with the store, with the callback set. -/
def handler : Handler := ⟨"a", instances.Scenario.withStore, true⟩

/-- A `Handle` during which every call into the system succeeds. -/
def calm : HandleEnv :=
  ⟨⟨9⟩, tabulated, instances.Scenario.healthy, instances.Scenario.healthyDelete,
    instances.Scenario.resolving, manager.SpawnOutcome.started 10 ⟨9⟩, ⟨⟨9⟩, none, []⟩⟩

/-- A request of agent `a` with the id `r1`, of a type and with a payload. -/
def request (typ payload : String) : Message := ⟨KindRequest, "r1", "a", typ, payload, "", ⟨8⟩⟩

/-- A message of kind request that has no id. -/
def requestWithoutID : Message := ⟨KindRequest, "", "a", "status", "", "", ⟨8⟩⟩

end control.Scenario

/-! # Theorems -/

namespace GoMap

variable {V : Type}

theorem get_set_same (m : GoMap V) (k : String) (v : V) : get (set m k v) k = some v := by
  induction m with
  | nil => simp [set, get]
  | cons p rest ih =>
    obtain ⟨k', v'⟩ := p
    by_cases h : k' = k
    · simp [set, get, h]
    · simp [set, get, h, ih]

theorem get_set_other (m : GoMap V) (k j : String) (v : V) (h : j ≠ k) :
    get (set m k v) j = get m j := by
  induction m with
  | nil =>
    have h' : ¬ k = j := fun e => h e.symm
    simp [set, get, h']
  | cons p rest ih =>
    obtain ⟨k', v'⟩ := p
    by_cases hk : k' = k
    · subst hk
      have h' : ¬ k' = j := fun e => h e.symm
      simp [set, get, h']
    · by_cases hj : k' = j
      · subst hj
        simp [set, get, h]
      · simp [set, get, hk, hj, ih]

theorem get_delete_same (m : GoMap V) (k : String) : get (delete m k) k = none := by
  induction m with
  | nil => simp [delete, get]
  | cons p rest ih =>
    obtain ⟨k', v'⟩ := p
    by_cases h : k' = k
    · simp [delete, h, ih]
    · simp [delete, get, h, ih]

theorem get_delete_other (m : GoMap V) (k j : String) (h : j ≠ k) :
    get (delete m k) j = get m j := by
  induction m with
  | nil => simp [delete, get]
  | cons p rest ih =>
    obtain ⟨k', v'⟩ := p
    by_cases hk : k' = k
    · subst hk
      have h' : ¬ k' = j := fun e => h e.symm
      simp [delete, get, h', ih]
    · by_cases hj : k' = j
      · subst hj
        simp [delete, get, h]
      · simp [delete, get, hk, hj, ih]

theorem delete_of_get_none (m : GoMap V) (k : String) (h : get m k = none) : delete m k = m := by
  induction m with
  | nil => simp [delete]
  | cons p rest ih =>
    obtain ⟨k', v'⟩ := p
    by_cases hk : k' = k
    · simp [get, hk] at h
    · simp [get, hk] at h
      simp [delete, hk, ih h]

theorem delete_set_of_get_none (m : GoMap V) (k : String) (v : V) (h : get m k = none) :
    delete (set m k v) k = m := by
  induction m with
  | nil => simp [set, delete]
  | cons p rest ih =>
    obtain ⟨k', v'⟩ := p
    by_cases hk : k' = k
    · simp [get, hk] at h
    · simp [get, hk] at h
      simp [set, delete, hk, ih h]

end GoMap

theorem getElem?_modifyAt {α : Type} (heap : List α) (p i : Nat) (f : α → α) :
    (modifyAt heap p f)[i]? = if i = p then (heap[i]?).map f else heap[i]? := by
  unfold modifyAt
  cases hp : heap[p]? with
  | none =>
    by_cases hi : i = p
    · subst hi; simp [hp]
    · simp [hi]
  | some x =>
    by_cases hi : i = p
    · subst hi
      simp [hp, List.getElem?_set]
      by_contra hlt
      have := @List.getElem?_eq_none _ heap i (Nat.le_of_not_lt hlt)
      simp [this] at hp
    · have hne : p ≠ i := fun e => hi e.symm
      simp [hi, List.getElem?_set_ne hne]

theorem length_modifyAt {α : Type} (heap : List α) (p : Nat) (f : α → α) :
    (modifyAt heap p f).length = heap.length := by
  unfold modifyAt
  cases heap[p]? <;> simp

namespace protocol

/-- C1: `ValidateBasic` returns no error exactly when the kind is one of
register, request, response, heartbeat and the fields that kind requires
are non-empty; every other message yields a validation error. -/
theorem ValidateBasic_ok_iff (m : Message) :
    (m.ValidateBasic = none ↔ m.wellFormed) ∧
    (¬ m.wellFormed → ∃ e, m.ValidateBasic = some e) := by
  have key : m.ValidateBasic = none ↔ m.wellFormed := by
    obtain ⟨k, id, aid, ty, pl, er, ts⟩ := m
    simp only [Message.ValidateBasic, Message.wellFormed, KindRegister, KindRequest,
      KindResponse, KindHeartbeat]
    by_cases hg : k = "register"
    · subst hg; simp +decide
    by_cases hq : k = "request"
    · subst hq; simp +decide; split_ifs <;> simp_all
    by_cases hp : k = "response"
    · subst hp; simp +decide; split_ifs <;> simp_all
    by_cases hb : k = "heartbeat"
    · subst hb; simp +decide
    simp [hg, hq, hp, hb]
    split_ifs <;> simp
  refine ⟨key, fun h => ?_⟩
  cases hv : m.ValidateBasic with
  | none => exact absurd (key.mp hv) h
  | some e => exact ⟨e, rfl⟩

end protocol

namespace json

theorem char_eq_iff (c d : Char) : c = d ↔ c.toNat = d.toNat := by
  constructor
  · rintro rfl; rfl
  · intro h
    apply Char.ext
    apply UInt32.ext
    simpa [Char.toNat, UInt32.toNat] using h

theorem hexVal_hex (k : Nat) (hk : k < 16) : hexVal (hex k) = some k := by
  interval_cases k <;> decide

theorem isHex_hex (k : Nat) (hk : k < 16) : isHex (hex k) = true := by
  interval_cases k <;> decide

theorem hex_ne (k : Nat) (hk : k < 16) : hex k ≠ '"' ∧ hex k ≠ '\\' := by
  interval_cases k <;> decide

/-- The three shapes of what the encoder writes for a character. -/
theorem appendChar_cases (c : Char) :
    (appendChar c = [c] ∧ c ≠ '"' ∧ c ≠ '\\' ∧ 32 ≤ c.toNat) ∨
    (∃ e, appendChar c = ['\\', e] ∧
      ((e = c ∧ (c = '"' ∨ c = '\\')) ∨ (e = 'b' ∧ c.toNat = 8) ∨ (e = 'f' ∧ c.toNat = 12) ∨
        (e = 'n' ∧ c.toNat = 10) ∨ (e = 'r' ∧ c.toNat = 13) ∨ (e = 't' ∧ c.toNat = 9))) ∨
    (∃ x y z w, appendChar c = ['\\', 'u', x, y, z, w] ∧ getu4 x y z w = some c.toNat ∧
      c.toNat < 0xD800 ∧ isHex x = true ∧ isHex y = true ∧ isHex z = true ∧ isHex w = true ∧
      (x ≠ '"' ∧ x ≠ '\\') ∧ (y ≠ '"' ∧ y ≠ '\\') ∧ (z ≠ '"' ∧ z ≠ '\\') ∧
      (w ≠ '"' ∧ w ≠ '\\')) := by
  unfold appendChar
  by_cases h80 : c.toNat < 0x80
  · simp only [h80, if_true]
    by_cases hs : htmlSafe c = true
    · left
      simp only [hs, if_true, true_and]
      simp only [htmlSafe, Bool.and_eq_true, decide_eq_true_eq, Bool.not_eq_true',
        Bool.or_eq_false_iff, decide_eq_false_iff_not] at hs
      exact ⟨hs.2.1.1.1.1, hs.2.2, hs.1.1⟩
    · simp only [hs, Bool.false_eq_true, if_false]
      by_cases hq : (c = '\\' || c = '"') = true
      · right; left
        simp only [hq, if_true]
        refine ⟨c, rfl, Or.inl ⟨rfl, ?_⟩⟩
        simp only [Bool.or_eq_true, decide_eq_true_eq] at hq
        exact hq.symm
      · simp only [hq, Bool.false_eq_true, if_false]
        by_cases h8 : c.toNat = 8
        · right; left; rw [if_pos h8]; exact ⟨_, rfl, Or.inr (Or.inl ⟨rfl, h8⟩)⟩
        · by_cases h12 : c.toNat = 12
          · right; left; rw [if_neg h8, if_pos h12]
            exact ⟨_, rfl, Or.inr (Or.inr (Or.inl ⟨rfl, h12⟩))⟩
          · by_cases h10 : c.toNat = 10
            · right; left; rw [if_neg h8, if_neg h12, if_pos h10]
              exact ⟨_, rfl, Or.inr (Or.inr (Or.inr (Or.inl ⟨rfl, h10⟩)))⟩
            · by_cases h13 : c.toNat = 13
              · right; left; rw [if_neg h8, if_neg h12, if_neg h10, if_pos h13]
                exact ⟨_, rfl, Or.inr (Or.inr (Or.inr (Or.inr (Or.inl ⟨rfl, h13⟩))))⟩
              · by_cases h9 : c.toNat = 9
                · right; left; rw [if_neg h8, if_neg h12, if_neg h10, if_neg h13, if_pos h9]
                  exact ⟨_, rfl,
                    Or.inr (Or.inr (Or.inr (Or.inr (Or.inr ⟨rfl, h9⟩))))⟩
                · right; right
                  simp only [h8, h12, h10, h13, h9, if_false]
                  have hd : c.toNat / 16 < 16 := by omega
                  have hm : c.toNat % 16 < 16 := by omega
                  refine ⟨'0', '0', hex (c.toNat / 16), hex (c.toNat % 16), rfl, ?_, by omega,
                    by decide, by decide, isHex_hex _ hd, isHex_hex _ hm, by decide, by decide,
                    hex_ne _ hd, hex_ne _ hm⟩
                  unfold getu4
                  rw [hexVal_hex _ hd, hexVal_hex _ hm]
                  have h0 : hexVal '0' = some 0 := by decide
                  simp only [h0]
                  congr 1
                  omega
  · simp only [h80, if_false]
    by_cases hl : (c.toNat = 0x2028 || c.toNat = 0x2029) = true
    · right; right
      simp only [hl, if_true]
      simp only [Bool.or_eq_true, decide_eq_true_eq] at hl
      have hm : c.toNat % 16 < 16 := by omega
      refine ⟨'2', '0', '2', hex (c.toNat % 16), rfl, ?_, by omega,
        by decide, by decide, by decide, isHex_hex _ hm, by decide, by decide, by decide,
        hex_ne _ hm⟩
      unfold getu4
      rw [hexVal_hex _ hm]
      have h0 : hexVal '0' = some 0 := by decide
      have h2 : hexVal '2' = some 2 := by decide
      simp only [h0, h2]
      congr 1
      omega
    · left
      simp only [hl, Bool.false_eq_true, if_false, true_and]
      refine ⟨?_, ?_, by omega⟩
      · intro h; rw [h] at h80; exact h80 (by decide)
      · intro h; rw [h] at h80; exact h80 (by decide)

theorem ofNat_toNat_eq (c : Char) (n : Nat) (h : c.toNat = n) : Char.ofNat n = c := by
  rw [← h]
  exact Char.ofNat_toNat c

theorem unquoteBody_appendChar (c : Char) (rest : List Char) :
    unquoteBody none (appendChar c ++ rest) = (unquoteBody none rest).map (fun r => c :: r) := by
  rcases appendChar_cases c with ⟨h, h1, h2, h3⟩ | ⟨e, h, he⟩ | ⟨x, y, z, w, h, hu, hlt, _⟩
  · rw [h, List.singleton_append, unquoteBody.eq_def]
    have h3' : ¬ c.toNat < 32 := by omega
    simp [h1, h2, h3']
  · rw [h]
    rcases he with ⟨rfl, hc⟩ | ⟨rfl, hc⟩ | ⟨rfl, hc⟩ | ⟨rfl, hc⟩ | ⟨rfl, hc⟩ | ⟨rfl, hc⟩
    · rcases hc with rfl | rfl <;> (rw [List.cons_append, unquoteBody.eq_def]; simp)
    · have hc' := ofNat_toNat_eq c 8 hc
      subst hc'
      rw [List.cons_append, unquoteBody.eq_def]; simp
    · have hc' := ofNat_toNat_eq c 12 hc
      subst hc'
      rw [List.cons_append, unquoteBody.eq_def]; simp
    · have hc' := ofNat_toNat_eq c 10 hc
      subst hc'
      rw [List.cons_append, unquoteBody.eq_def]; simp
    · have hc' := ofNat_toNat_eq c 13 hc
      subst hc'
      rw [List.cons_append, unquoteBody.eq_def]; simp
    · have hc' := ofNat_toNat_eq c 9 hc
      subst hc'
      rw [List.cons_append, unquoteBody.eq_def]; simp
  · rw [h, List.cons_append, unquoteBody.eq_def]
    have hns : ¬ (0xD800 ≤ c.toNat ∧ c.toNat < 0xE000) := by omega
    have hns' : ¬ (55296 ≤ c.toNat ∧ c.toNat < 57344) := hns
    simp [hu, hns', Char.ofNat_toNat]

theorem unquoteBody_flatMap (s rest : List Char) :
    unquoteBody none (s.flatMap appendChar ++ rest)
      = (unquoteBody none rest).map (fun r => s ++ r) := by
  induction s with
  | nil => simp
  | cons c cs ih =>
    rw [List.flatMap_cons, List.append_assoc, unquoteBody_appendChar, ih]
    cases unquoteBody none rest <;> simp

/-- Unquoting what the encoder writes for a string gives the string. -/
theorem unquoteBody_appendString (s : List Char) :
    unquoteBody none (s.flatMap appendChar) = some s := by
  have h0 : unquoteBody none [] = some [] := by rw [unquoteBody.eq_def]; rfl
  have := unquoteBody_flatMap s []
  rw [h0] at this
  simpa using this

theorem stringEnd_plain (c : Char) (rest : List Char) (h1 : c ≠ '"') (h2 : c ≠ '\\') :
    stringEnd (c :: rest) = (stringEnd rest).map (fun r => (c :: r.1, r.2)) := by
  rw [stringEnd.eq_def]
  simp [h1, h2]

theorem stringEnd_escape (e : Char) (rest : List Char) :
    stringEnd ('\\' :: e :: rest) = (stringEnd rest).map (fun r => ('\\' :: e :: r.1, r.2)) := by
  rw [stringEnd.eq_def]
  simp

theorem stringEnd_appendChar (c : Char) (rest : List Char) :
    stringEnd (appendChar c ++ rest)
      = (stringEnd rest).map (fun r => (appendChar c ++ r.1, r.2)) := by
  rcases appendChar_cases c with ⟨h, h1, h2, _⟩ | ⟨e, h, _⟩ |
    ⟨x, y, z, w, h, _, _, _, _, _, _, hx, hy, hz, hw⟩
  · rw [h, List.singleton_append, stringEnd_plain c rest h1 h2]
    simp
  · rw [h, List.cons_append, List.cons_append, List.nil_append, stringEnd_escape]
    simp
  · rw [h]
    simp only [List.cons_append, List.nil_append]
    rw [stringEnd_escape, stringEnd_plain x _ hx.1 hx.2, stringEnd_plain y _ hy.1 hy.2,
      stringEnd_plain z _ hz.1 hz.2, stringEnd_plain w _ hw.1 hw.2]
    cases stringEnd rest <;> simp

theorem stringEnd_flatMap (s rest : List Char) :
    stringEnd (s.flatMap appendChar ++ '"' :: rest) = some (s.flatMap appendChar, rest) := by
  induction s with
  | nil => rw [List.flatMap_nil, List.nil_append, stringEnd.eq_def]; simp
  | cons c cs ih =>
    rw [List.flatMap_cons, List.append_assoc, stringEnd_appendChar, ih]
    simp

theorem scanLoop_append (limit : Nat) (a b : List Char) (s : scanner) :
    scanLoop limit s (a ++ b) = (scanLoop limit s a).bind (fun s' => scanLoop limit s' b) := by
  induction a generalizing s with
  | nil => simp [scanLoop]
  | cons c cs ih =>
    simp only [List.cons_append, scanLoop]
    cases s.next limit c with
    | none => simp
    | some r => simp [ih]

theorem scanLoop_appendChar (limit : Nat) (ps : List ParseState) (e : Bool) (c : Char) :
    scanLoop limit ⟨Step.inString, ps, e⟩ (appendChar c) = some ⟨Step.inString, ps, e⟩ := by
  rcases appendChar_cases c with ⟨h, h1, h2, h3⟩ | ⟨x, h, he⟩ |
    ⟨x, y, z, w, h, _, _, hx, hy, hz, hw, _⟩
  · rw [h]
    have h3' : ¬ c.toNat < 32 := by omega
    simp [scanLoop, scanner.next, h1, h2, h3']
  · rw [h]
    rcases he with ⟨rfl, hc⟩ | ⟨rfl, hc⟩ | ⟨rfl, hc⟩ | ⟨rfl, hc⟩ | ⟨rfl, hc⟩ | ⟨rfl, hc⟩
    · rcases hc with rfl | rfl <;> simp [scanLoop, scanner.next]
    all_goals simp [scanLoop, scanner.next]
  · rw [h]
    simp [scanLoop, scanner.next, hx, hy, hz, hw]

theorem scanLoop_flatMap (limit : Nat) (ps : List ParseState) (e : Bool) (s : List Char) :
    scanLoop limit ⟨Step.inString, ps, e⟩ (s.flatMap appendChar)
      = some ⟨Step.inString, ps, e⟩ := by
  induction s with
  | nil => simp [scanLoop]
  | cons c cs ih =>
    rw [List.flatMap_cons, scanLoop_append, scanLoop_appendChar]
    simpa using ih

end json

namespace time

theorem digit_spec (n : Nat) : json.isDigit (digit n) = true ∧ (digit n).toNat - 48 = n % 10 := by
  unfold digit
  have h : n % 10 < 10 := Nat.mod_lt _ (by decide)
  generalize n % 10 = k at h
  interval_cases k <;> decide

theorem atoi_append (l : List Char) (c : Char) : atoi (l ++ [c]) = atoi l * 10 + (c.toNat - 48) := by
  simp [atoi, List.foldl_append]

theorem atoi_appendInt (w x : Nat) : atoi (appendInt x w) = x % 10 ^ w := by
  induction w generalizing x with
  | zero => simp [appendInt, atoi, Nat.mod_one]
  | succ n ih =>
    rw [appendInt, atoi_append, ih, (digit_spec x).2, pow_succ', Nat.mod_mul]
    ring

theorem all_isDigit_appendInt (w x : Nat) : (appendInt x w).all json.isDigit = true := by
  induction w generalizing x with
  | zero => rfl
  | succ n ih =>
    rw [appendInt, List.all_append, ih]
    simp [(digit_spec x).1]

theorem length_appendInt (w x : Nat) : (appendInt x w).length = w := by
  induction w generalizing x with
  | zero => rfl
  | succ n ih => rw [appendInt, List.length_append, ih]; rfl

theorem parseUint_appendInt (w x min max : Nat) (hx : x < 10 ^ w) (h1 : min ≤ x) (h2 : x ≤ max) :
    parseUint (appendInt x w) min max = some x := by
  unfold parseUint
  rw [atoi_appendInt, Nat.mod_eq_of_lt hx, all_isDigit_appendInt]
  simp [h1, h2]

theorem isLeap_iff (y : Int) :
    isLeap y = true ↔ y % 4 = 0 ∧ (y % 100 ≠ 0 ∨ y % 400 = 0) := by
  simp [isLeap]

theorem yearDay_aux (a r b r2 c r3 e : Int) (hr : 0 ≤ r ∧ r < 146097)
    (hb : b = if r / 36524 = 4 then 3 else r / 36524) (hr2 : r2 = r - 36524 * b)
    (hc : c = r2 / 1461) (hr3 : r3 = r2 % 1461)
    (he : e = if r3 / 365 = 4 then 3 else r3 / 365) :
    365 * (400 * a + 100 * b + 4 * c + e + 1 - 1) + (400 * a + 100 * b + 4 * c + e + 1 - 1) / 4
        - (400 * a + 100 * b + 4 * c + e + 1 - 1) / 100
        + (400 * a + 100 * b + 4 * c + e + 1 - 1) / 400 + (r3 - 365 * e) = 146097 * a + r ∧
    0 ≤ r3 - 365 * e ∧
    (((400 * a + 100 * b + 4 * c + e + 1) % 4 = 0 ∧
      ((400 * a + 100 * b + 4 * c + e + 1) % 100 ≠ 0 ∨
        (400 * a + 100 * b + 4 * c + e + 1) % 400 = 0)) → r3 - 365 * e < 366) ∧
    (¬ ((400 * a + 100 * b + 4 * c + e + 1) % 4 = 0 ∧
      ((400 * a + 100 * b + 4 * c + e + 1) % 100 ≠ 0 ∨
        (400 * a + 100 * b + 4 * c + e + 1) % 400 = 0)) → r3 - 365 * e < 365) ∧
    (-366 ≤ 146097 * a + r → 146097 * a + r < 3652059 →
      0 ≤ 400 * a + 100 * b + 4 * c + e + 1 ∧ 400 * a + 100 * b + 4 * c + e + 1 ≤ 9999) := by
  have hb1 : 0 ≤ b ∧ b ≤ 3 ∧ 0 ≤ r2 ∧ r2 ≤ 36524 ∧ (b < 3 → r2 < 36524) := by
    subst hr2 hb
    split_ifs <;> omega
  have hc1 : 0 ≤ c ∧ c ≤ 24 ∧ 0 ≤ r3 ∧ r3 ≤ 1460 ∧ r2 = 1461 * c + r3 := by
    subst hc hr3
    omega
  have he1 : 0 ≤ e ∧ e ≤ 3 ∧ 0 ≤ r3 - 365 * e ∧ (e < 3 → r3 - 365 * e < 365) := by
    subst he
    split_ifs <;> omega
  have hrange : -366 ≤ 146097 * a + r → 146097 * a + r < 3652059 →
      0 ≤ 400 * a + 100 * b + 4 * c + e + 1 ∧ 400 * a + 100 * b + 4 * c + e + 1 ≤ 9999 := by
    intro hlo hhi
    have ha : -1 ≤ a ∧ a ≤ 24 := by omega
    have hb3 : r ≥ 109572 → b = 3 := by
      intro h; subst hb; split_ifs <;> omega
    have hb0 : r < 109572 → b ≤ 2 := by
      intro h; subst hb; split_ifs <;> omega
    have he3 : r3 ≥ 1095 → e = 3 := by
      intro h; subst he; split_ifs <;> omega
    have he0 : r3 < 1095 → e ≤ 2 := by
      intro h; subst he; split_ifs <;> omega
    constructor
    · by_cases ha0 : 0 ≤ a
      · omega
      · have ha1 : a = -1 := by omega
        have hbb := hb3 (by omega)
        have hcc : c = 24 := by omega
        have hee := he3 (by omega)
        omega
    · by_cases ha24 : a ≤ 23
      · omega
      · have ha1 : a = 24 := by omega
        by_cases hbb : b ≤ 2
        · omega
        · have hb' : b = 3 := by omega
          by_cases hcc : c ≤ 23
          · omega
          · have hc' : c = 24 := by omega
            have := he0 (by omega)
            omega
  have h4 : (400 * a + 100 * b + 4 * c + e + 1 - 1) / 4 = 100 * a + 25 * b + c := by omega
  have h100 : (400 * a + 100 * b + 4 * c + e + 1 - 1) / 100 = 4 * a + b := by omega
  have h400 : (400 * a + 100 * b + 4 * c + e + 1 - 1) / 400 = a := by omega
  have m4 : (400 * a + 100 * b + 4 * c + e + 1) % 4 = 0 ↔ e = 3 := by omega
  have m100 : (400 * a + 100 * b + 4 * c + e + 1) % 100 = 0 ↔ (c = 24 ∧ e = 3) := by omega
  have m400 : (400 * a + 100 * b + 4 * c + e + 1) % 400 = 0 ↔ (b = 3 ∧ c = 24 ∧ e = 3) := by
    omega
  simp only [h4, h100, h400, m4, m100, m400, ne_eq]
  refine ⟨by omega, he1.2.2.1, by omega, ?_, hrange⟩
  intro hn
  by_cases h3 : e = 3
  · have hc24 : c = 24 ∧ b ≠ 3 := by
      by_contra hcon
      apply hn
      refine ⟨h3, ?_⟩
      by_cases hcc : c = 24
      · right
        refine ⟨?_, hcc, h3⟩
        by_contra hb3
        exact hcon ⟨hcc, hb3⟩
      · left
        intro h
        exact hcc h.1
    have : r2 < 36524 := hb1.2.2.2.2 (by omega)
    omega
  · exact he1.2.2.2 (by omega)

theorem yearDay_spec (d : Int) :
    daysSinceEpoch (yearDay d).1 + ((yearDay d).2 : Int) = d ∧
    (isLeap (yearDay d).1 = true → (yearDay d).2 < 366) ∧
    (isLeap (yearDay d).1 = false → (yearDay d).2 < 365) ∧
    (-366 ≤ d → d < 3652059 → 0 ≤ (yearDay d).1 ∧ (yearDay d).1 ≤ 9999) := by
  have hnot : isLeap (yearDay d).1 = false ↔ ¬ (isLeap (yearDay d).1 = true) := by
    cases isLeap (yearDay d).1 <;> simp
  rw [hnot, isLeap_iff]
  have hr : 0 ≤ d % 146097 ∧ d % 146097 < 146097 := by omega
  have hd : 146097 * (d / 146097) + d % 146097 = d := by omega
  obtain ⟨h1, h2, h3, h4, h5⟩ :=
    yearDay_aux (d / 146097) (d % 146097) _ _ _ _ _ hr rfl rfl rfl rfl rfl
  rw [hd] at h5
  unfold yearDay daysSinceEpoch
  simp only []
  rw [Int.toNat_of_nonneg h2]
  refine ⟨by rw [h1, hd], fun h => ?_, fun h => ?_, h5⟩
  · have := h3 h
    omega
  · have := h4 h
    omega

set_option maxRecDepth 100000 in
theorem monthOf_table :
    ∀ leap : Bool, ∀ yd : Fin 366, yd.val < 365 + (if leap = true then 1 else 0) →
      1 ≤ monthOf leap yd.val ∧ monthOf leap yd.val ≤ 12 ∧
      monthStart leap (monthOf leap yd.val) ≤ yd.val ∧
      yd.val < monthStart leap (monthOf leap yd.val + 1) := by
  decide

theorem monthOf_spec (leap : Bool) (yd : Nat) (h : yd < 365 + (if leap = true then 1 else 0)) :
    1 ≤ monthOf leap yd ∧ monthOf leap yd ≤ 12 ∧ monthStart leap (monthOf leap yd) ≤ yd ∧
    yd < monthStart leap (monthOf leap yd + 1) := by
  have hlt : yd < 366 := by
    cases leap <;> simp at h <;> omega
  exact monthOf_table leap ⟨yd, hlt⟩ h

theorem daysIn_eq (y : Int) (m : Nat) (h1 : 1 ≤ m) (h2 : m ≤ 12) :
    daysIn m y = monthStart (isLeap y) (m + 1) - monthStart (isLeap y) m := by
  unfold daysIn monthStart
  interval_cases m <;> cases isLeap y <;> simp [daysBefore]

/-- The date and clock reading of an instant in the years 0 to 9999 are in range, and `Date`
gives the instant back. -/
theorem civil_spec (t : Time) (h : t.marshalable = true) :
    0 ≤ t.civil.year ∧ t.civil.year ≤ 9999 ∧ 1 ≤ t.civil.month ∧ t.civil.month ≤ 12 ∧
    1 ≤ t.civil.day ∧ t.civil.day ≤ daysIn t.civil.month t.civil.year ∧
    t.civil.hour < 24 ∧ t.civil.min < 60 ∧ t.civil.sec < 60 ∧ t.civil.nsec < 1000000000 ∧
    Date t.civil.year t.civil.month t.civil.day t.civil.hour t.civil.min t.civil.sec
      t.civil.nsec = t := by
  obtain ⟨n⟩ := t
  simp only [Time.marshalable, Bool.and_eq_true, decide_eq_true_eq] at h
  have hd : -366 ≤ n / 1000000000 / 86400 ∧ n / 1000000000 / 86400 < 3652059 := by omega
  obtain ⟨y1, y2, y3, y4⟩ := yearDay_spec (n / 1000000000 / 86400)
  have hy := y4 hd.1 hd.2
  have hyd : (yearDay (n / 1000000000 / 86400)).2
      < 365 + (if isLeap (yearDay (n / 1000000000 / 86400)).1 = true then 1 else 0) := by
    cases hl : isLeap (yearDay (n / 1000000000 / 86400)).1
    · have := y3 hl; simpa using this
    · have := y2 hl; simpa using this
  obtain ⟨m1, m2, m3, m4⟩ := monthOf_spec _ _ hyd
  have hdi := daysIn_eq (yearDay (n / 1000000000 / 86400)).1 _ m1 m2
  have hsod : 0 ≤ n / 1000000000 % 86400 ∧ n / 1000000000 % 86400 < 86400 := by omega
  have hns : 0 ≤ n % 1000000000 ∧ n % 1000000000 < 1000000000 := by omega
  simp only [Time.civil]
  refine ⟨hy.1, hy.2, m1, m2, by omega, by omega, by omega, by omega, by omega, by omega, ?_⟩
  unfold Date
  congr 1
  have e1 : (((yearDay (n / 1000000000 / 86400)).2
      - monthStart (isLeap (yearDay (n / 1000000000 / 86400)).1)
          (monthOf (isLeap (yearDay (n / 1000000000 / 86400)).1)
            (yearDay (n / 1000000000 / 86400)).2) + 1 : Nat) : Int)
      = ((yearDay (n / 1000000000 / 86400)).2 : Int)
        - (monthStart (isLeap (yearDay (n / 1000000000 / 86400)).1)
          (monthOf (isLeap (yearDay (n / 1000000000 / 86400)).1)
            (yearDay (n / 1000000000 / 86400)).2) : Nat) + 1 := by omega
  have e2 : (((n / 1000000000 % 86400).toNat / 3600 * 3600
      + (n / 1000000000 % 86400).toNat % 3600 / 60 * 60
      + (n / 1000000000 % 86400).toNat % 60 : Nat) : Int) = n / 1000000000 % 86400 := by omega
  have e3 : (((n % 1000000000).toNat : Nat) : Int) = n % 1000000000 := by omega
  rw [e1, e2, e3]
  omega

theorem atoi_append_list (a b : List Char) :
    atoi (a ++ b) = b.foldl (fun x c => x * 10 + (c.toNat - 48)) (atoi a) := by
  simp [atoi, List.foldl_append]

theorem foldl_zeros (k x : Nat) :
    (List.replicate k '0').foldl (fun x c => x * 10 + (c.toNat - 48)) x = x * 10 ^ k := by
  induction k generalizing x with
  | zero => simp
  | succ n ih =>
    rw [List.replicate_succ, List.foldl_cons, ih]
    have h0 : ('0' : Char).toNat - 48 = 0 := by decide
    rw [h0, pow_succ]
    ring

theorem trimZeros_spec (l : List Char) :
    ∃ k, l = trimZeros l ++ List.replicate k '0' ∧ k + (trimZeros l).length = l.length := by
  refine ⟨(l.reverse.takeWhile (fun c => c = '0')).length, ?_, ?_⟩
  · have h := List.takeWhile_append_dropWhile (fun c => decide (c = '0')) l.reverse
    have hz : l.reverse.takeWhile (fun c => decide (c = '0'))
        = List.replicate (l.reverse.takeWhile (fun c => decide (c = '0'))).length '0' := by
      apply List.eq_replicate_of_mem
      intro b hb
      have := List.mem_takeWhile_imp hb
      simpa using this
    have h2 := congrArg List.reverse h
    rw [List.reverse_append, List.reverse_reverse] at h2
    rw [hz, List.reverse_replicate] at h2
    unfold trimZeros
    exact h2.symm
  · have h := List.takeWhile_append_dropWhile (fun c => decide (c = '0')) l.reverse
    have h2 := congrArg List.length h
    rw [List.length_append, List.length_reverse] at h2
    unfold trimZeros
    rw [List.length_reverse]
    exact h2

theorem takeWhile_digits (f rest : List Char) (hf : f.all json.isDigit = true) :
    (f ++ 'Z' :: rest).takeWhile json.isDigit = f ∧
    (f ++ 'Z' :: rest).dropWhile json.isDigit = 'Z' :: rest := by
  induction f with
  | nil =>
    have hz : json.isDigit 'Z' = false := by decide
    simp [List.takeWhile, List.dropWhile, hz]
  | cons c cs ih =>
    simp only [List.all_cons, Bool.and_eq_true] at hf
    simp [List.takeWhile, List.dropWhile, hf.1, ih hf.2]

/-- The fractional second that the encoder writes parses back to the nanoseconds. -/
theorem parseFraction_appendNano (ns : Nat) (h : ns < 1000000000) :
    parseFraction (appendNano ns ++ ['Z']) = (ns, ['Z']) := by
  unfold appendNano
  by_cases h0 : ns = 0
  · simp [h0, parseFraction]
  · simp only [h0, if_false]
    obtain ⟨k, hk, hlen⟩ := trimZeros_spec (appendInt ns 9)
    have hatoi : atoi (appendInt ns 9) = ns := by
      rw [atoi_appendInt, Nat.mod_eq_of_lt (by simpa using h)]
    have hall := all_isDigit_appendInt 9 ns
    rw [length_appendInt] at hlen
    generalize trimZeros (appendInt ns 9) = f at hk hlen
    rw [hk] at hatoi hall
    rw [atoi_append_list, foldl_zeros] at hatoi
    rw [List.all_append, Bool.and_eq_true] at hall
    cases f with
    | nil => simp [atoi] at hatoi; exact absurd hatoi.symm h0
    | cons d ds =>
      have hd : json.isDigit d = true := by
        have := hall.1
        simp only [List.all_cons, Bool.and_eq_true] at this
        exact this.1
      obtain ⟨ht, hdr⟩ := takeWhile_digits (d :: ds) [] hall.1
      have hlen9 : (d :: ds).length ≤ 9 := by omega
      simp only [parseFraction, List.cons_append, hd, and_self, if_true, true_and]
      rw [show d :: (ds ++ ['Z']) = (d :: ds) ++ 'Z' :: [] from rfl, ht, hdr,
        List.take_of_length_le hlen9]
      have hk9 : 9 - (d :: ds).length = k := by omega
      rw [hk9, hatoi]

theorem appendInt_two (x : Nat) : appendInt x 2 = [digit (x / 10), digit x] := by
  simp [appendInt]

theorem appendInt_four (x : Nat) :
    appendInt x 4 = [digit (x / 10 / 10 / 10), digit (x / 10 / 10), digit (x / 10), digit x] := by
  simp [appendInt]

/-- Parsing the text that the encoder writes for an instant in the years 0 to 9999 gives the
instant. -/
theorem parseRFC3339_appendFormat (t : Time) (h : t.marshalable = true) :
    parseRFC3339 t.appendFormatRFC3339 = some t := by
  obtain ⟨hy0, hy1, hm0, hm1, hd0, hd1, hh, hmi, hs, hns, hdate⟩ := civil_spec t h
  have hyear : ((t.civil.year.toNat : Nat) : Int) = t.civil.year := Int.toNat_of_nonneg hy0
  have py := parseUint_appendInt 4 t.civil.year.toNat 0 9999 (by omega) (by omega) (by omega)
  have pm := parseUint_appendInt 2 t.civil.month 1 12 (by omega) hm0 hm1
  have pd := parseUint_appendInt 2 t.civil.day 1 (daysIn t.civil.month t.civil.year)
    (by
      have : daysIn t.civil.month t.civil.year ≤ 31 := by
        unfold daysIn
        split_ifs
        · omega
        · interval_cases t.civil.month <;> simp [daysBefore]
      omega) hd0 hd1
  have ph := parseUint_appendInt 2 t.civil.hour 0 23 (by omega) (by omega) (by omega)
  have pmi := parseUint_appendInt 2 t.civil.min 0 59 (by omega) (by omega) (by omega)
  have ps := parseUint_appendInt 2 t.civil.sec 0 59 (by omega) (by omega) (by omega)
  have pf := parseFraction_appendNano t.civil.nsec hns
  rw [appendInt_four] at py
  rw [appendInt_two] at pm pd ph pmi ps
  unfold parseRFC3339 Time.appendFormatRFC3339
  simp only [appendInt_four, appendInt_two, List.cons_append, List.nil_append, List.length_cons,
    List.take, List.drop, List.getD_cons_succ, List.getD_cons_zero]
  have hlen : ¬ ((appendNano t.civil.nsec ++ ['Z']).length + 1 + 1 + 1 + 1 + 1 + 1 + 1 + 1 + 1
      + 1 + 1 + 1 + 1 + 1 + 1 + 1 + 1 + 1 + 1 < 19) := by omega
  simp only [hlen, if_false, py, pm, hyear, pd, ph, pmi, ps, pf, and_self, if_true]
  have hz : parseZone ['Z'] 23 59 = some 0 := by decide
  simp only [List.append_eq, List.nil_append, pf, hz]
  simp only [mul_zero, zero_mul, neg_zero]
  rw [hdate]
  simp [Time.Add]

end time

namespace json

theorem popParseState_eq (st : Step) (ps : List ParseState) (e : Bool) :
    scanner.popParseState ⟨st, ps, e⟩
      = (if ps.tail = [] then ⟨Step.endTop, [], true⟩ else ⟨Step.endValue, ps.tail, e⟩) := by
  unfold scanner.popParseState
  cases ps.tail <;> simp

theorem trans_goto (limit : Nat) (s : scanner) (c : Char) (s' : scanner) (d : Bool) (st : Step)
    (h : some ((⟨st, s.parseState, s.endTop⟩ : scanner), false) = some (s', d))
    (h1 : st ≠ Step.endTop) (h2 : st ≠ Step.beginStringOrEmpty)
    (h3 : st ≠ Step.beginValueOrEmpty) (h4 : s.step ≠ Step.endTop)
    (h6 : s.step.ok = true → st.ok = true)
    (h5 : isSpace c = true → s.step.ok = true → s.step = Step.inString) :
    Trans limit s c s' d := by
  simp only [Option.some.injEq, Prod.mk.injEq] at h
  exact Or.inl ⟨st, h.1.symm, h.2.symm, h1, h2, h3, h4, h6, h5⟩

theorem stateEndValue_trans (limit : Nat) (st : Step) (ps : List ParseState) (e : Bool) (c : Char)
    (s' : scanner) (d : Bool) (hst : st.ends = true)
    (h : stateEndValue ⟨st, ps, e⟩ c = some (s', d)) : Trans limit ⟨st, ps, e⟩ c s' d := by
  have hne : st ≠ Step.endTop := by rintro rfl; simp [Step.ends] at hst
  unfold Trans
  cases ps with
  | nil =>
    simp only [stateEndValue, stateEndTop] at h
    split_ifs at h with hsp
    simp only [Option.some.injEq, Prod.mk.injEq] at h
    right; right; right; left
    exact ⟨rfl, h.1.symm, h.2.symm, hsp, hst⟩
  | cons x r =>
    simp only [stateEndValue] at h
    by_cases hsp : isSpace c = true
    · simp only [hsp, if_true, Option.some.injEq, Prod.mk.injEq] at h
      right; right; left
      exact ⟨by simp, h.1.symm, h.2.symm, hsp, hst⟩
    · have hsp' : isSpace c = false := by simpa using hsp
      simp only [hsp, if_false, Bool.false_eq_true] at h
      cases x with
      | objectKey =>
        simp only at h
        split_ifs at h
        simp only [Option.some.injEq, Prod.mk.injEq] at h
        right; right; right; right; right; left
        exact ⟨_, _, _, _, rfl, h.1.symm, h.2.symm, Or.inl rfl, hsp', hne⟩
      | objectValue =>
        simp only at h
        split_ifs at h
        · simp only [Option.some.injEq, Prod.mk.injEq] at h
          right; right; right; right; right; left
          exact ⟨_, _, _, _, rfl, h.1.symm, h.2.symm, Or.inr rfl, hsp', hne⟩
        · simp only [Option.some.injEq, Prod.mk.injEq, popParseState_eq] at h
          right; right; right; right; right; right
          exact ⟨h.1.symm, h.2.symm, hsp', hne, Or.inl (by simp)⟩
      | arrayValue =>
        simp only at h
        split_ifs at h
        · simp only [Option.some.injEq, Prod.mk.injEq] at h
          right; right; right; right; right; left
          exact ⟨_, _, _, _, rfl, h.1.symm, h.2.symm, Or.inl rfl, hsp', hne⟩
        · simp only [Option.some.injEq, Prod.mk.injEq, popParseState_eq] at h
          right; right; right; right; right; right
          exact ⟨h.1.symm, h.2.symm, hsp', hne, Or.inl (by simp)⟩

theorem stateBeginString_trans (limit : Nat) (s : scanner) (c : Char) (s' : scanner) (d : Bool)
    (hst : s.step = Step.beginString ∨ s.step = Step.beginStringOrEmpty)
    (h : stateBeginString s c = some (s', d)) : Trans limit s c s' d := by
  have hne : s.step ≠ Step.endTop ∧ s.step ≠ Step.inString ∧ s.step.ends = false := by
    rcases hst with h | h <;> simp [h, Step.ends]
  simp only [stateBeginString] at h
  split_ifs at h with hsp hq
  · simp only [Option.some.injEq, Prod.mk.injEq] at h
    exact Or.inr (Or.inl ⟨h.1.symm, h.2.symm, hsp, hne.2.1, hne.2.2⟩)
  · exact trans_goto limit s c s' d _ h (by simp) (by simp) (by simp) hne.1
      (fun _ => rfl) (fun h => absurd h hsp)

theorem stateBeginValue_trans (limit : Nat) (s : scanner) (c : Char) (s' : scanner) (d : Bool)
    (hst : s.step = Step.beginValue ∨ s.step = Step.beginValueOrEmpty)
    (h : stateBeginValue limit s c = some (s', d)) : Trans limit s c s' d := by
  have hne : s.step ≠ Step.endTop ∧ s.step ≠ Step.inString ∧ s.step.ends = false := by
    rcases hst with h | h <;> simp [h, Step.ends]
  simp only [stateBeginValue, scanner.pushParseState] at h
  by_cases hsp : isSpace c = true
  · simp only [hsp, if_true, Option.some.injEq, Prod.mk.injEq] at h
    exact Or.inr (Or.inl ⟨h.1.symm, h.2.symm, hsp, hne.2.1, hne.2.2⟩)
  · have hsp' : isSpace c = false := by simpa using hsp
    simp only [hsp, if_false, Bool.false_eq_true] at h
    split_ifs at h
    · simp only [Option.some.injEq, Prod.mk.injEq] at h
      exact Or.inr (Or.inr (Or.inr (Or.inr (Or.inl
        ⟨_, _, h.1.symm, h.2.symm, by assumption, Or.inl rfl, hsp', hne.1⟩))))
    · simp only [Option.some.injEq, Prod.mk.injEq] at h
      exact Or.inr (Or.inr (Or.inr (Or.inr (Or.inl
        ⟨_, _, h.1.symm, h.2.symm, by assumption, Or.inr rfl, hsp', hne.1⟩))))
    all_goals
      exact trans_goto limit s c s' d _ h (by simp) (by simp) (by simp) hne.1 (fun _ => by decide)
        (fun h => absurd h hsp)

/-- Every step of the scanner is of one of the seven kinds. -/
theorem next_trans (limit : Nat) (s : scanner) (c : Char) (s' : scanner) (d : Bool)
    (h : s.next limit c = some (s', d)) : Trans limit s c s' d := by
  obtain ⟨step, ps, e⟩ := s
  have goto : ∀ st : Step, some ((⟨st, ps, e⟩ : scanner), false) = some (s', d) →
      st.ok = true → st ≠ Step.endTop → st ≠ Step.beginStringOrEmpty →
      st ≠ Step.beginValueOrEmpty → step ≠ Step.endTop →
      (isSpace c = true → step = Step.inString) → Trans limit ⟨step, ps, e⟩ c s' d :=
    fun st h h0 h1 h2 h3 h4 h5 =>
      trans_goto limit ⟨step, ps, e⟩ c s' d st h h1 h2 h3 h4 (fun _ => h0) (fun hs _ => h5 hs)
  have nsp : ∀ x : Char, isSpace x = false → c = x → isSpace c = true → False := by
    intro x hx hc h; rw [hc, hx] at h; cases h
  cases step with
  | beginValueOrEmpty =>
    simp only [scanner.next] at h
    by_cases hsp : isSpace c = true
    · simp only [hsp, if_true, Option.some.injEq, Prod.mk.injEq] at h
      exact Or.inr (Or.inl ⟨h.1.symm, h.2.symm, hsp, by simp, by simp [Step.ends]⟩)
    · have hsp' : isSpace c = false := by simpa using hsp
      simp only [hsp, if_false, Bool.false_eq_true] at h
      split_ifs at h with hc
      · subst hc
        cases ps with
        | nil => simp +decide [stateEndValue, stateEndTop] at h
        | cons x r =>
          cases x
          · simp +decide [stateEndValue] at h
          · simp +decide [stateEndValue] at h
          · simp +decide only [stateEndValue, if_false, if_true, Bool.false_eq_true,
              Option.some.injEq, Prod.mk.injEq, popParseState_eq] at h
            exact Or.inr (Or.inr (Or.inr (Or.inr (Or.inr (Or.inr
              ⟨h.1.symm, h.2.symm, hsp', by simp, Or.inl (by simp)⟩)))))
      · exact stateBeginValue_trans limit _ c s' d (Or.inr rfl) h
  | beginValue => exact stateBeginValue_trans limit _ c s' d (Or.inl rfl) h
  | beginStringOrEmpty =>
    simp only [scanner.next] at h
    by_cases hsp : isSpace c = true
    · simp only [hsp, if_true, Option.some.injEq, Prod.mk.injEq] at h
      exact Or.inr (Or.inl ⟨h.1.symm, h.2.symm, hsp, by simp, by simp [Step.ends]⟩)
    · have hsp' : isSpace c = false := by simpa using hsp
      simp only [hsp, if_false, Bool.false_eq_true] at h
      split_ifs at h with hc
      · subst hc
        simp +decide only [stateEndValue, if_false, if_true, Bool.false_eq_true,
            Option.some.injEq, Prod.mk.injEq, popParseState_eq, List.tail_cons] at h
        exact Or.inr (Or.inr (Or.inr (Or.inr (Or.inr (Or.inr
              ⟨h.1.symm, h.2.symm, hsp', by simp, Or.inr rfl⟩)))))
      · exact stateBeginString_trans limit _ c s' d (Or.inr rfl) h
  | beginString => exact stateBeginString_trans limit _ c s' d (Or.inl rfl) h
  | endValue => exact stateEndValue_trans limit _ ps e c s' d rfl h
  | endTop =>
    simp only [scanner.next, stateEndTop] at h
    split_ifs at h with hsp
    simp only [Option.some.injEq, Prod.mk.injEq] at h
    exact Or.inr (Or.inl ⟨h.1.symm, h.2.symm, hsp, by simp, by simp [Step.ends]⟩)
  | inString =>
    simp only [scanner.next] at h
    split_ifs at h
    all_goals exact goto _ h rfl (by simp) (by simp) (by simp) (by simp) (fun _ => rfl)
  | inStringEsc =>
    simp only [scanner.next] at h
    split_ifs at h with h1 h2
    · refine goto _ h rfl (by simp) (by simp) (by simp) (by simp) ?_
      intro hsp
      simp only [Bool.or_eq_true, decide_eq_true_eq] at h1
      rcases h1 with ((((((h1 | h1) | h1) | h1) | h1) | h1) | h1) | h1 <;>
        exact (nsp _ (by decide) h1 hsp).elim
    · exact goto _ h rfl (by simp) (by simp) (by simp) (by simp)
        (fun hsp => (nsp _ (by decide) h2 hsp).elim)
  | inStringEscU =>
    simp only [scanner.next] at h
    split_ifs at h with h1
    refine goto _ h rfl (by simp) (by simp) (by simp) (by simp) ?_
    intro hsp
    simp only [isSpace, Bool.or_eq_true, decide_eq_true_eq] at hsp
    rcases hsp with ((hsp | hsp) | hsp) | hsp <;> subst hsp <;> simp +decide at h1
  | inStringEscU1 =>
    simp only [scanner.next] at h
    split_ifs at h with h1
    refine goto _ h rfl (by simp) (by simp) (by simp) (by simp) ?_
    intro hsp
    simp only [isSpace, Bool.or_eq_true, decide_eq_true_eq] at hsp
    rcases hsp with ((hsp | hsp) | hsp) | hsp <;> subst hsp <;> simp +decide at h1
  | inStringEscU12 =>
    simp only [scanner.next] at h
    split_ifs at h with h1
    refine goto _ h rfl (by simp) (by simp) (by simp) (by simp) ?_
    intro hsp
    simp only [isSpace, Bool.or_eq_true, decide_eq_true_eq] at hsp
    rcases hsp with ((hsp | hsp) | hsp) | hsp <;> subst hsp <;> simp +decide at h1
  | inStringEscU123 =>
    simp only [scanner.next] at h
    split_ifs at h with h1
    refine goto _ h rfl (by simp) (by simp) (by simp) (by simp) ?_
    intro hsp
    simp only [isSpace, Bool.or_eq_true, decide_eq_true_eq] at hsp
    rcases hsp with ((hsp | hsp) | hsp) | hsp <;> subst hsp <;> simp +decide at h1
  | neg =>
    simp only [scanner.next] at h
    split_ifs at h with h1 h2
    · exact goto _ h rfl (by simp) (by simp) (by simp) (by simp)
        (fun hsp => (nsp _ (by decide) h1 hsp).elim)
    · refine goto _ h rfl (by simp) (by simp) (by simp) (by simp) ?_
      intro hsp
      simp only [isSpace, Bool.or_eq_true, decide_eq_true_eq] at hsp
      rcases hsp with ((hsp | hsp) | hsp) | hsp <;> subst hsp <;> simp +decide at h2
  | one =>
    simp only [scanner.next, state0] at h
    split_ifs at h with h1 h2 h3
    · refine goto _ h rfl (by simp) (by simp) (by simp) (by simp) ?_
      intro hsp
      simp only [isSpace, Bool.or_eq_true, decide_eq_true_eq] at hsp
      rcases hsp with ((hsp | hsp) | hsp) | hsp <;> subst hsp <;> simp +decide at h1
    · exact goto _ h rfl (by simp) (by simp) (by simp) (by simp)
        (fun hsp => (nsp _ (by decide) h2 hsp).elim)
    · refine goto _ h rfl (by simp) (by simp) (by simp) (by simp) ?_
      intro hsp
      simp only [Bool.or_eq_true, decide_eq_true_eq] at h3
      rcases h3 with h3 | h3 <;> exact (nsp _ (by decide) h3 hsp).elim
    · exact stateEndValue_trans limit _ ps e c s' d rfl h
  | zero =>
    simp only [scanner.next, state0] at h
    split_ifs at h with h2 h3
    · exact goto _ h rfl (by simp) (by simp) (by simp) (by simp)
        (fun hsp => (nsp _ (by decide) h2 hsp).elim)
    · refine goto _ h rfl (by simp) (by simp) (by simp) (by simp) ?_
      intro hsp
      simp only [Bool.or_eq_true, decide_eq_true_eq] at h3
      rcases h3 with h3 | h3 <;> exact (nsp _ (by decide) h3 hsp).elim
    · exact stateEndValue_trans limit _ ps e c s' d rfl h
  | dot =>
    simp only [scanner.next] at h
    split_ifs at h with h1
    refine goto _ h rfl (by simp) (by simp) (by simp) (by simp) ?_
    intro hsp
    simp only [isSpace, Bool.or_eq_true, decide_eq_true_eq] at hsp
    rcases hsp with ((hsp | hsp) | hsp) | hsp <;> subst hsp <;> simp +decide at h1
  | dot0 =>
    simp only [scanner.next] at h
    split_ifs at h with h1 h3
    · refine goto _ h rfl (by simp) (by simp) (by simp) (by simp) ?_
      intro hsp
      simp only [isSpace, Bool.or_eq_true, decide_eq_true_eq] at hsp
      rcases hsp with ((hsp | hsp) | hsp) | hsp <;> subst hsp <;> simp +decide at h1
    · refine goto _ h rfl (by simp) (by simp) (by simp) (by simp) ?_
      intro hsp
      simp only [Bool.or_eq_true, decide_eq_true_eq] at h3
      rcases h3 with h3 | h3 <;> exact (nsp _ (by decide) h3 hsp).elim
    · exact stateEndValue_trans limit _ ps e c s' d rfl h
  | e =>
    simp only [scanner.next, stateESign] at h
    split_ifs at h with h3 h1
    · refine goto _ h rfl (by simp) (by simp) (by simp) (by simp) ?_
      intro hsp
      simp only [Bool.or_eq_true, decide_eq_true_eq] at h3
      rcases h3 with h3 | h3 <;> exact (nsp _ (by decide) h3 hsp).elim
    · refine goto _ h rfl (by simp) (by simp) (by simp) (by simp) ?_
      intro hsp
      simp only [isSpace, Bool.or_eq_true, decide_eq_true_eq] at hsp
      rcases hsp with ((hsp | hsp) | hsp) | hsp <;> subst hsp <;> simp +decide at h1
  | eSign =>
    simp only [scanner.next, stateESign] at h
    split_ifs at h with h1
    refine goto _ h rfl (by simp) (by simp) (by simp) (by simp) ?_
    intro hsp
    simp only [isSpace, Bool.or_eq_true, decide_eq_true_eq] at hsp
    rcases hsp with ((hsp | hsp) | hsp) | hsp <;> subst hsp <;> simp +decide at h1
  | e0 =>
    simp only [scanner.next] at h
    split_ifs at h with h1
    · refine goto _ h rfl (by simp) (by simp) (by simp) (by simp) ?_
      intro hsp
      simp only [isSpace, Bool.or_eq_true, decide_eq_true_eq] at hsp
      rcases hsp with ((hsp | hsp) | hsp) | hsp <;> subst hsp <;> simp +decide at h1
    · exact stateEndValue_trans limit _ ps e c s' d rfl h
  | literal l =>
    match l, h with
    | [], h => simp [scanner.next] at h
    | [x], h =>
      simp only [scanner.next] at h
      split_ifs at h with h1
      subst h1
      refine trans_goto limit _ c s' d _ h (by simp) (by simp) (by simp) (by simp)
        (fun _ => rfl) ?_
      intro hsp hok
      simp [Step.ok, hsp] at hok
    | x :: y :: r, h =>
      simp only [scanner.next] at h
      split_ifs at h with h1
      subst h1
      refine trans_goto limit _ c s' d _ h (by simp) (by simp) (by simp) (by simp) ?_ ?_
      · intro hok
        simp only [Step.ok, List.all_cons, Bool.and_eq_true] at hok ⊢
        exact hok.2
      · intro hsp hok
        simp [Step.ok, hsp] at hok

theorem Inv_reset : scanner.reset.Inv := by
  simp [scanner.Inv, scanner.reset, Step.ok]

theorem next_Inv (limit : Nat) (s s' : scanner) (c : Char) (d : Bool) (hi : s.Inv)
    (h : s.next limit c = some (s', d)) : s'.Inv := by
  obtain ⟨i1, i2, i3, i4⟩ := hi
  have ht := next_trans limit s c s' d h
  unfold Trans at ht
  rcases ht with ⟨st, rfl, -, h1, h2, h3, h4, h5, -⟩ | ⟨rfl, -⟩ | ⟨h1, rfl, -, -, h2⟩ |
    ⟨-, rfl, -⟩ | ⟨st, p, rfl, -, -, h1, -, h2⟩ | ⟨st, x, y, r, -, rfl, -, h1, -, h2⟩ |
    ⟨rfl, -, -, h1, -⟩
  · exact ⟨fun he => absurd (i1 he) h4, fun he => absurd he h1, fun he => absurd he h2, h5 i4⟩
  · exact ⟨i1, i2, i3, i4⟩
  · refine ⟨fun he => ?_, fun he => by simp at he, fun he => by simp at he, rfl⟩
    have := i1 he
    rw [this] at h2
    exact absurd h2 (by decide)
  · simp [scanner.Inv, Step.ok]
  · refine ⟨fun he => absurd (i1 he) h2, ?_, fun _ => by simp, ?_⟩
    · rcases h1 with rfl | rfl <;> simp
    · rcases h1 with rfl | rfl <;> rfl
  · refine ⟨fun he => absurd (i1 he) h2, ?_, ?_, ?_⟩
    · rcases h1 with rfl | rfl <;> simp
    · rcases h1 with rfl | rfl <;> simp
    · rcases h1 with rfl | rfl <;> rfl
  · split_ifs
    · exact ⟨fun _ => rfl, fun _ => rfl, fun he => by simp at he, rfl⟩
    · exact ⟨fun he => absurd (i1 he) h1, fun he => by simp at he, fun he => by simp at he, rfl⟩

/-- A character that the scanner drops is white space, and it is then not inside a string. -/
theorem drop_isSpace (limit : Nat) (s s' : scanner) (c : Char)
    (h : s.next limit c = some (s', true)) : isSpace c = true ∧ s'.step ≠ Step.inString := by
  have ht := next_trans limit s c s' true h
  unfold Trans at ht
  rcases ht with ⟨st, -, h1, -⟩ | ⟨rfl, -, h1, h2, -⟩ | ⟨-, rfl, -, h1, -⟩ |
    ⟨-, rfl, -, h1, -⟩ | ⟨st, p, -, h1, -⟩ | ⟨st, x, y, r, -, -, h1, -⟩ | ⟨-, h1, -⟩
  · cases h1
  · exact ⟨h1, h2⟩
  · exact ⟨h1, by simp⟩
  · exact ⟨h1, by simp⟩
  · cases h1
  · cases h1
  · cases h1

/-- White space that the scanner keeps is inside a string. -/
theorem keep_space (limit : Nat) (s s' : scanner) (c : Char) (hi : s.Inv)
    (h : s.next limit c = some (s', false)) (hsp : isSpace c = true) :
    s.step = Step.inString := by
  have ht := next_trans limit s c s' false h
  unfold Trans at ht
  rcases ht with ⟨st, -, -, -, -, -, -, -, h1⟩ | ⟨-, h1, -⟩ | ⟨-, -, h1, -⟩ |
    ⟨-, -, h1, -⟩ | ⟨st, p, -, -, -, -, h1, -⟩ | ⟨st, x, y, r, -, -, -, -, h1, -⟩ |
    ⟨-, -, h1, -⟩
  · exact h1 hsp hi.2.2.2
  · cases h1
  · cases h1
  · cases h1
  · rw [hsp] at h1; cases h1
  · rw [hsp] at h1; cases h1
  · rw [hsp] at h1; cases h1

theorem compactChar_keep (c : Char) (d : Bool) (l : List Char) (h : compactChar c d = c :: l) :
    d = false ∧ l = [] ∧ compactChar c d = [c] := by
  unfold compactChar at h ⊢
  split_ifs at h ⊢ with h1 h2 h3 h4 h5 h6
  · subst h1; simp +decide at h
  · subst h2; simp +decide at h
  · subst h3; simp +decide at h
  · simp only [String.data, List.cons.injEq] at h
    have := h.1
    rw [← this] at h4
    simp +decide at h4
  · simp only [String.data, List.cons.injEq] at h
    have := h.1
    rw [← this] at h5
    simp +decide at h5
  · cases h
    exact ⟨by simpa using h6, rfl, rfl⟩

theorem compactChar_head (c : Char) (d : Bool) (x : Char) (l : List Char)
    (h : compactChar c d = x :: l) : x = '\\' ∨ (x = c ∧ d = false) := by
  unfold compactChar at h
  split_ifs at h with h1 h2 h3 h4 h5 h6
  all_goals first
    | (simp only [String.data, List.cons.injEq] at h; exact Or.inl h.1.symm)
    | (simp only [List.cons.injEq] at h; exact Or.inr ⟨h.1.symm, by simpa using h6⟩)

/-- Outside a string, what compaction writes does not begin with white space. -/
theorem compactLoop_head (limit : Nat) (cs : List Char) : ∀ (s : scanner) (out : List Char),
    s.Inv → s.step ≠ Step.inString → compactLoop limit s cs = some out →
    ∀ x ∈ out.head?, isSpace x = false := by
  induction cs with
  | nil =>
    intro s out _ _ h
    simp only [compactLoop] at h
    split_ifs at h
    cases h
    simp
  | cons c cs ih =>
    intro s out hi hs h
    simp only [compactLoop] at h
    cases hn : s.next limit c with
    | none => simp [hn] at h
    | some r =>
      obtain ⟨s', d⟩ := r
      simp only [hn] at h
      cases ho : compactLoop limit s' cs with
      | none => simp [ho] at h
      | some out' =>
        simp only [ho, Option.some.injEq] at h
        subst h
        intro x hx
        cases hc : compactChar c d with
        | nil =>
          rw [hc, List.nil_append] at hx
          have hd : d = true := by
            unfold compactChar at hc
            split_ifs at hc with h1 h2 h3 h4 h5 h6
            exact h6
          subst hd
          exact ih s' out' (next_Inv limit s s' c true hi hn)
            (drop_isSpace limit s s' c hn).2 ho x hx
        | cons y l =>
          rw [hc] at hx
          simp only [List.cons_append, List.head?_cons, Option.mem_def, Option.some.injEq] at hx
          subst hx
          rcases compactChar_head c d y l hc with rfl | ⟨rfl, rfl⟩
          · decide
          · cases hsp : isSpace y with
            | false => rfl
            | true => exact absurd (keep_space limit s s' y hi hn hsp) hs

/-- Text that compaction leaves as it is, is text of which the scanner drops no character. -/
theorem compactLoop_kept (limit : Nat) (cs : List Char) : ∀ (s : scanner),
    s.Inv → compactLoop limit s cs = some cs →
    ∃ sf, keptLoop limit s cs = some sf ∧ sf.eof = true := by
  induction cs with
  | nil =>
    intro s _ h
    simp only [compactLoop] at h
    split_ifs at h with he
    exact ⟨s, rfl, he⟩
  | cons c cs ih =>
    intro s hi h
    simp only [compactLoop] at h
    cases hn : s.next limit c with
    | none => simp [hn] at h
    | some r =>
      obtain ⟨s', d⟩ := r
      simp only [hn] at h
      cases ho : compactLoop limit s' cs with
      | none => simp [ho] at h
      | some out' =>
        simp only [ho, Option.some.injEq] at h
        have hi' := next_Inv limit s s' c d hi hn
        cases hc : compactChar c d with
        | nil =>
          exfalso
          rw [hc, List.nil_append] at h
          have hd : d = true := by
            unfold compactChar at hc
            split_ifs at hc with h1 h2 h3 h4 h5 h6
            exact h6
          subst hd
          have hsp := drop_isSpace limit s s' c hn
          have := compactLoop_head limit cs s' out' hi' hsp.2 ho c (by rw [h]; simp)
          rw [hsp.1] at this
          cases this
        | cons y l =>
          rw [hc] at h
          simp only [List.cons_append, List.cons.injEq] at h
          obtain ⟨rfl, h⟩ := h
          obtain ⟨rfl, rfl, -⟩ := compactChar_keep y d l hc
          simp only [List.nil_append] at h
          subst h
          obtain ⟨sf, h1, h2⟩ := ih s' hi' ho
          exact ⟨sf, by simp only [keptLoop, hn, h1], h2⟩

theorem lift_of_ne (S : List ParseState) (st : Step) (T : List ParseState) (e : Bool)
    (h : st ≠ Step.endTop) : scanner.lift S ⟨st, T, e⟩ = ⟨st, T ++ S, false⟩ := by
  simp [scanner.lift, h]

theorem stateBeginValue_indep (L L' : Nat) (s : scanner) (c : Char) (h1 : c ≠ '\x7b')
    (h2 : c ≠ '[') : stateBeginValue L s c = stateBeginValue L' s c := by
  unfold stateBeginValue
  rw [if_neg h1, if_neg h2]
  rw [if_neg h1, if_neg h2]

theorem stateBeginValue_open (L : Nat) (s : scanner) :
    stateBeginValue L s '\x7b'
      = s.pushParseState L ParseState.objectKey Step.beginStringOrEmpty := by
  unfold stateBeginValue
  rw [if_neg (by decide), if_pos rfl]

theorem stateBeginValue_open2 (L : Nat) (s : scanner) :
    stateBeginValue L s '['
      = s.pushParseState L ParseState.arrayValue Step.beginValueOrEmpty := by
  unfold stateBeginValue
  rw [if_neg (by decide), if_neg (by decide), if_pos rfl]

theorem pushParseState_mono (L L' : Nat) (hL : L ≤ L') (s : scanner) (p : ParseState) (st : Step)
    (r : scanner × Bool) (h : s.pushParseState L p st = some r) :
    s.pushParseState L' p st = some r := by
  unfold scanner.pushParseState at h ⊢
  split_ifs at h with h1
  rw [if_pos (by omega)]
  exact h

theorem stateBeginValue_mono (L L' : Nat) (hL : L ≤ L') (s : scanner) (c : Char)
    (r : scanner × Bool) (h : stateBeginValue L s c = some r) : stateBeginValue L' s c = some r := by
  by_cases h1 : c = '\x7b'
  · subst h1
    rw [stateBeginValue_open] at h ⊢
    exact pushParseState_mono L L' hL _ _ _ r h
  · by_cases h2 : c = '['
    · subst h2
      rw [stateBeginValue_open2] at h ⊢
      exact pushParseState_mono L L' hL _ _ _ r h
    · rw [← stateBeginValue_indep L L' s c h1 h2]
      exact h

/-- A step of the scanner under a limit of nesting is one under every greater limit. -/
theorem next_mono (L L' : Nat) (hL : L ≤ L') (s : scanner) (c : Char) (r : scanner × Bool)
    (h : s.next L c = some r) : s.next L' c = some r := by
  obtain ⟨step, ps, e⟩ := s
  cases step
  case beginValueOrEmpty =>
    unfold scanner.next at h ⊢
    simp only at h ⊢
    split_ifs at h ⊢
    · exact h
    · exact h
    · exact stateBeginValue_mono L L' hL _ c r h
  case beginValue => exact stateBeginValue_mono L L' hL _ c r h
  case literal l => rcases l with _ | ⟨x, _ | ⟨y, l⟩⟩ <;> exact h
  all_goals exact h

theorem stateBeginValue_goto (L L' : Nat) (s1 s2 s1' : scanner) (c : Char) (hb1 : c ≠ '\x7b')
    (hb2 : c ≠ '[') (h : stateBeginValue L s1 c = some (s1', false)) :
    s1' = ⟨s1'.step, s1.parseState, s1.endTop⟩ ∧ s1'.step ≠ Step.endTop ∧
    stateBeginValue L' s2 c = some (⟨s1'.step, s2.parseState, s2.endTop⟩, false) := by
  unfold stateBeginValue at h ⊢
  by_cases hsp : isSpace c = true
  · rw [if_pos hsp] at h
    simp at h
  · rw [if_neg hsp, if_neg hb1, if_neg hb2] at h ⊢
    split_ifs at h with h1 h2 h3 h4 h5 h6 h7 <;>
      simp only [Option.some.injEq, Prod.mk.injEq, and_true] at h <;> subst h <;>
      simp [*]

theorem stateBeginString_goto (s1 s2 s1' : scanner) (c : Char)
    (h : stateBeginString s1 c = some (s1', false)) :
    s1' = ⟨Step.inString, s1.parseState, s1.endTop⟩ ∧
    stateBeginString s2 c = some (⟨Step.inString, s2.parseState, s2.endTop⟩, false) := by
  unfold stateBeginString at h ⊢
  by_cases hsp : isSpace c = true
  · rw [if_pos hsp] at h
    simp at h
  · rw [if_neg hsp] at h ⊢
    split_ifs at h with h1
    simp only [Option.some.injEq, Prod.mk.injEq, and_true] at h
    exact ⟨h.symm, by rw [if_pos h1]⟩

theorem stateEndValue_lift (S : List ParseState) (hS : S ≠ []) (st st2 : Step)
    (T : List ParseState) (c : Char) (s' : scanner)
    (h : stateEndValue ⟨st, T, false⟩ c = some (s', false)) :
    stateEndValue ⟨st2, T ++ S, false⟩ c = some (s'.lift S, false) := by
  cases T with
  | nil =>
    simp only [stateEndValue, stateEndTop] at h
    split_ifs at h
    simp at h
  | cons x r =>
    unfold stateEndValue at h ⊢
    simp only [List.cons_append] at h ⊢
    by_cases hsp : isSpace c = true
    · rw [if_pos hsp] at h
      simp at h
    · rw [if_neg hsp] at h ⊢
      cases x
      · simp only at h ⊢
        split_ifs at h with h1
        simp only [Option.some.injEq, Prod.mk.injEq, and_true] at h
        subst h
        rw [if_pos h1]
        simp [scanner.lift]
      · simp only [popParseState_eq, List.tail_cons] at h ⊢
        split_ifs at h with h1 h2 h3 <;>
          simp only [Option.some.injEq, Prod.mk.injEq, and_true] at h <;> subst h
        · rw [if_pos h1]
          simp [scanner.lift]
        · subst h3
          rw [if_neg h1, if_pos h2]
          simp [scanner.lift, hS]
        · rw [if_neg h1, if_pos h2]
          simp [scanner.lift, hS, h3]
      · simp only [popParseState_eq, List.tail_cons] at h ⊢
        split_ifs at h with h1 h2 h3 <;>
          simp only [Option.some.injEq, Prod.mk.injEq, and_true] at h <;> subst h
        · rw [if_pos h1]
          simp [scanner.lift]
        · subst h3
          rw [if_neg h1, if_pos h2]
          simp [scanner.lift, hS]
        · rw [if_neg h1, if_pos h2]
          simp [scanner.lift, hS, h3]

theorem stateBeginValue_lift (L : Nat) (S : List ParseState) (st st2 : Step)
    (T : List ParseState) (c : Char) (s' : scanner)
    (h : stateBeginValue L ⟨st, T, false⟩ c = some (s', false)) :
    stateBeginValue (L + S.length) ⟨st2, T ++ S, false⟩ c = some (s'.lift S, false) := by
  by_cases h1 : c = '\x7b'
  · subst h1
    rw [stateBeginValue_open] at h ⊢
    unfold scanner.pushParseState at h ⊢
    simp only [List.length_append] at h ⊢
    split_ifs at h with h2
    simp only [Option.some.injEq, Prod.mk.injEq, and_true] at h
    subst h
    rw [if_pos (by omega)]
    simp [scanner.lift]
  · by_cases h2 : c = '['
    · subst h2
      rw [stateBeginValue_open2] at h ⊢
      unfold scanner.pushParseState at h ⊢
      simp only [List.length_append] at h ⊢
      split_ifs at h with h2
      simp only [Option.some.injEq, Prod.mk.injEq, and_true] at h
      subst h
      rw [if_pos (by omega)]
      simp [scanner.lift]
    · obtain ⟨e1, e2, e3⟩ :=
        stateBeginValue_goto L (L + S.length) _ ⟨st2, T ++ S, false⟩ s' c h1 h2 h
      rw [e3]
      have hp : s'.parseState = T := by rw [e1]
      simp [scanner.lift, e2, hp]

theorem stateBeginString_lift (S : List ParseState) (st st2 : Step)
    (T : List ParseState) (c : Char) (s' : scanner)
    (h : stateBeginString ⟨st, T, false⟩ c = some (s', false)) :
    stateBeginString ⟨st2, T ++ S, false⟩ c = some (s'.lift S, false) := by
  obtain ⟨e1, e3⟩ := stateBeginString_goto _ ⟨st2, T ++ S, false⟩ s' c h
  rw [e3, e1]
  simp [scanner.lift]

/-- A step of the scanner that keeps its character is the same step inside an array or an
object. -/
theorem next_lift (L : Nat) (S : List ParseState) (hS : S ≠ []) (s s' : scanner) (c : Char)
    (hi : s.Inv) (h : s.next L c = some (s', false)) :
    (s.lift S).next (L + S.length) c = some (s'.lift S, false) := by
  obtain ⟨step, T, e⟩ := s
  obtain ⟨i1, i2, i3, i4⟩ := hi
  simp only at i1 i2 i3 i4
  by_cases hend : step = Step.endTop
  · subst hend
    simp only [scanner.next, stateEndTop] at h
    split_ifs at h
    simp at h
  · have he : e = false := by
      cases e
      · rfl
      · exact absurd (i1 rfl) hend
    subst he
    rw [lift_of_ne S step T false hend]
    cases step with
    | endTop => exact absurd rfl hend
    | beginValueOrEmpty =>
      unfold scanner.next at h ⊢
      simp only at h ⊢
      by_cases hsp : isSpace c = true
      · rw [if_pos hsp] at h
        simp at h
      · rw [if_neg hsp] at h ⊢
        split_ifs at h ⊢ with h1
        · exact stateEndValue_lift S hS _ _ T c s' h
        · exact stateBeginValue_lift L S _ _ T c s' h
    | beginValue => exact stateBeginValue_lift L S _ _ T c s' h
    | beginStringOrEmpty =>
      unfold scanner.next at h ⊢
      simp only at h ⊢
      by_cases hsp : isSpace c = true
      · rw [if_pos hsp] at h
        simp at h
      · rw [if_neg hsp] at h ⊢
        split_ifs at h ⊢ with h1
        · have ht : (T ++ S).tail = T.tail ++ S := by
            cases T with
            | nil => exact absurd rfl (i3 rfl)
            | cons x r => rfl
          rw [ht]
          exact stateEndValue_lift S hS _ _ (ParseState.objectValue :: T.tail) c s' h
        · exact stateBeginString_lift S _ _ T c s' h
    | beginString => exact stateBeginString_lift S _ _ T c s' h
    | endValue => exact stateEndValue_lift S hS _ _ T c s' h
    | inString =>
      unfold scanner.next at h ⊢
      simp only at h ⊢
      split_ifs at h ⊢ <;> simp only [Option.some.injEq, Prod.mk.injEq, and_true] at h <;>
        subst h <;> simp [scanner.lift]
    | inStringEsc =>
      unfold scanner.next at h ⊢
      simp only at h ⊢
      split_ifs at h ⊢ <;> simp only [Option.some.injEq, Prod.mk.injEq, and_true] at h <;>
        subst h <;> simp [scanner.lift]
    | inStringEscU =>
      unfold scanner.next at h ⊢
      simp only at h ⊢
      split_ifs at h ⊢ <;> simp only [Option.some.injEq, Prod.mk.injEq, and_true] at h <;>
        subst h <;> simp [scanner.lift]
    | inStringEscU1 =>
      unfold scanner.next at h ⊢
      simp only at h ⊢
      split_ifs at h ⊢ <;> simp only [Option.some.injEq, Prod.mk.injEq, and_true] at h <;>
        subst h <;> simp [scanner.lift]
    | inStringEscU12 =>
      unfold scanner.next at h ⊢
      simp only at h ⊢
      split_ifs at h ⊢ <;> simp only [Option.some.injEq, Prod.mk.injEq, and_true] at h <;>
        subst h <;> simp [scanner.lift]
    | inStringEscU123 =>
      unfold scanner.next at h ⊢
      simp only at h ⊢
      split_ifs at h ⊢ <;> simp only [Option.some.injEq, Prod.mk.injEq, and_true] at h <;>
        subst h <;> simp [scanner.lift]
    | neg =>
      unfold scanner.next at h ⊢
      simp only at h ⊢
      split_ifs at h ⊢ <;> simp only [Option.some.injEq, Prod.mk.injEq, and_true] at h <;>
        subst h <;> simp [scanner.lift]
    | dot =>
      unfold scanner.next at h ⊢
      simp only at h ⊢
      split_ifs at h ⊢ <;> simp only [Option.some.injEq, Prod.mk.injEq, and_true] at h <;>
        subst h <;> simp [scanner.lift]
    | e =>
      unfold scanner.next stateESign at h ⊢
      simp only at h ⊢
      split_ifs at h ⊢ <;> simp only [Option.some.injEq, Prod.mk.injEq, and_true] at h <;>
        subst h <;> simp [scanner.lift]
    | eSign =>
      unfold scanner.next stateESign at h ⊢
      simp only at h ⊢
      split_ifs at h ⊢ <;> simp only [Option.some.injEq, Prod.mk.injEq, and_true] at h <;>
        subst h <;> simp [scanner.lift]
    | one =>
      unfold scanner.next state0 at h ⊢
      simp only at h ⊢
      split_ifs at h ⊢
      · simp only [Option.some.injEq, Prod.mk.injEq, and_true] at h
        subst h
        simp [scanner.lift]
      · simp only [Option.some.injEq, Prod.mk.injEq, and_true] at h
        subst h
        simp [scanner.lift]
      · simp only [Option.some.injEq, Prod.mk.injEq, and_true] at h
        subst h
        simp [scanner.lift]
      · exact stateEndValue_lift S hS _ _ T c s' h
    | zero =>
      unfold scanner.next state0 at h ⊢
      simp only at h ⊢
      split_ifs at h ⊢
      · simp only [Option.some.injEq, Prod.mk.injEq, and_true] at h
        subst h
        simp [scanner.lift]
      · simp only [Option.some.injEq, Prod.mk.injEq, and_true] at h
        subst h
        simp [scanner.lift]
      · exact stateEndValue_lift S hS _ _ T c s' h
    | dot0 =>
      unfold scanner.next at h ⊢
      simp only at h ⊢
      split_ifs at h ⊢
      · simp only [Option.some.injEq, Prod.mk.injEq, and_true] at h
        subst h
        simp [scanner.lift]
      · simp only [Option.some.injEq, Prod.mk.injEq, and_true] at h
        subst h
        simp [scanner.lift]
      · exact stateEndValue_lift S hS _ _ T c s' h
    | e0 =>
      unfold scanner.next at h ⊢
      simp only at h ⊢
      split_ifs at h ⊢
      · simp only [Option.some.injEq, Prod.mk.injEq, and_true] at h
        subst h
        simp [scanner.lift]
      · exact stateEndValue_lift S hS _ _ T c s' h
    | literal l =>
      rcases l with _ | ⟨x, _ | ⟨y, l⟩⟩
      · simp [scanner.next] at h
      · unfold scanner.next at h ⊢
        simp only at h ⊢
        split_ifs at h ⊢ <;> simp only [Option.some.injEq, Prod.mk.injEq, and_true] at h <;>
          subst h <;> simp [scanner.lift]
      · unfold scanner.next at h ⊢
        simp only at h ⊢
        split_ifs at h ⊢ <;> simp only [Option.some.injEq, Prod.mk.injEq, and_true] at h <;>
          subst h <;> simp [scanner.lift]

theorem keptLoop_cons (L : Nat) (s sf : scanner) (c : Char) (cs : List Char)
    (h : keptLoop L s (c :: cs) = some sf) :
    ∃ s', s.next L c = some (s', false) ∧ keptLoop L s' cs = some sf := by
  simp only [keptLoop] at h
  split at h
  · exact ⟨_, by assumption, h⟩
  · cases h

/-- The run of the scanner over a value that compaction leaves as it is, is the same run
inside an array or an object. -/
theorem keptLoop_lift (L : Nat) (S : List ParseState) (hS : S ≠ []) (cs : List Char) :
    ∀ s sf : scanner, s.Inv → keptLoop L s cs = some sf →
      scanLoop (L + S.length) (s.lift S) cs = some (sf.lift S) ∧ sf.Inv := by
  induction cs with
  | nil =>
    intro s sf hi h
    simp only [keptLoop, Option.some.injEq] at h
    subst h
    exact ⟨rfl, hi⟩
  | cons c cs ih =>
    intro s sf hi h
    obtain ⟨s', hn, hk⟩ := keptLoop_cons L s sf c cs h
    have hl := next_lift L S hS s s' c hi hn
    simp only [scanLoop, hl]
    exact ih s' sf (next_Inv L s s' c false hi hn) hk

theorem eof_ends (s : scanner) (hi : s.Inv) (he : s.eof = true) :
    (s.step = Step.endTop ∧ s.parseState = []) ∨
    (s.step.ends = true ∧ s.parseState = [] ∧ s.endTop = false) := by
  unfold scanner.eof at he
  split_ifs at he with h1
  · exact Or.inl ⟨hi.1 h1, hi.2.1 (hi.1 h1)⟩
  · have h1' : s.endTop = false := by simpa using h1
    cases hn : s.next maxNestingDepth ' ' with
    | none => simp [hn] at he
    | some r =>
      obtain ⟨s', d⟩ := r
      simp only [hn] at he
      have ht := next_trans maxNestingDepth s ' ' s' d hn
      unfold Trans at ht
      rcases ht with ⟨st, rfl, -⟩ | ⟨rfl, -⟩ | ⟨-, rfl, -⟩ |
        ⟨h2, -, -, -, h3⟩ | ⟨st, p, rfl, -⟩ | ⟨st, x, y, r, -, rfl, -⟩ | ⟨-, -, h2, -⟩
      · simp only at he; rw [h1'] at he; cases he
      · rw [h1'] at he; cases he
      · simp only at he; rw [h1'] at he; cases he
      · exact Or.inr ⟨h3, h2, h1'⟩
      · simp only at he; rw [h1'] at he; cases he
      · simp only at he; rw [h1'] at he; cases he
      · exact absurd h2 (by decide)

/-- After a whole value inside an object the scanner is in a step that ends a value. -/
theorem lift_done (S : List ParseState) (s : scanner) (hi : s.Inv) (he : s.eof = true) :
    ∃ st, s.lift S = ⟨st, S, false⟩ ∧ st.ends = true := by
  rcases eof_ends s hi he with ⟨h1, h2⟩ | ⟨h1, h2, h3⟩
  · exact ⟨Step.endValue, by simp [scanner.lift, h1], rfl⟩
  · have hne : s.step ≠ Step.endTop := by
      intro h
      rw [h] at h1
      exact absurd h1 (by decide)
    exact ⟨s.step, by simp [scanner.lift, hne, h2], h1⟩

theorem done_comma (L : Nat) (st : Step) (r : List ParseState) (hst : st.ends = true) :
    scanner.next L ⟨st, ParseState.objectValue :: r, false⟩ ','
      = some (⟨Step.beginString, ParseState.objectKey :: r, false⟩, false) := by
  cases st <;> first | rfl | exact absurd hst (by decide) | (simp [Step.ends] at hst)

theorem done_close (L : Nat) (st : Step) (hst : st.ends = true) :
    scanner.next L ⟨st, [ParseState.objectValue], false⟩ '\x7d'
      = some (⟨Step.endTop, [], true⟩, false) := by
  cases st <;> first | rfl | exact absurd hst (by decide) | (simp [Step.ends] at hst)

theorem kept_endTop_nil (L : Nat) (s sf : scanner) (cs : List Char)
    (hs : s.step = Step.endTop ∨ (s.step = Step.endValue ∧ s.parseState = []))
    (h : keptLoop L s cs = some sf) : cs = [] := by
  cases cs with
  | nil => rfl
  | cons c cs =>
    exfalso
    obtain ⟨s', hn, -⟩ := keptLoop_cons L s sf c cs h
    obtain ⟨step, T, e⟩ := s
    simp only at hs
    rcases hs with rfl | ⟨rfl, rfl⟩
    · simp only [scanner.next, stateEndTop] at hn
      split_ifs at hn
      simp at hn
    · simp only [scanner.next, stateEndValue, stateEndTop] at hn
      split_ifs at hn
      simp at hn

theorem isHex_ne (c : Char) (h : isHex c = true) : c ≠ '"' ∧ c ≠ '\\' := by
  constructor <;> rintro rfl <;> exact absurd h (by decide)

theorem kept_hex (L : Nat) (st st' : Step) (T : List ParseState) (e : Bool) (sf : scanner)
    (cs : List Char)
    (hn : ∀ c, scanner.next L ⟨st, T, e⟩ c
      = if isHex c = true then some (⟨st', T, e⟩, false) else none)
    (hne : sf.eof = true → sf ≠ ⟨st, T, e⟩)
    (h : keptLoop L ⟨st, T, e⟩ cs = some sf) (he : sf.eof = true) :
    ∃ x cs', cs = x :: cs' ∧ isHex x = true ∧ keptLoop L ⟨st', T, e⟩ cs' = some sf := by
  cases cs with
  | nil =>
    simp only [keptLoop, Option.some.injEq] at h
    exact absurd h.symm (hne he)
  | cons c cs =>
    obtain ⟨s', h1, h2⟩ := keptLoop_cons L _ sf c cs h
    rw [hn c] at h1
    split_ifs at h1 with hx
    simp only [Option.some.injEq, Prod.mk.injEq, and_true] at h1
    subst h1
    exact ⟨c, cs, rfl, hx, h2⟩

theorem eof_false (st : Step) (T : List ParseState) (sf : scanner)
    (h : (⟨st, T, false⟩ : scanner).eof = false) (he : sf.eof = true) : sf ≠ ⟨st, T, false⟩ := by
  rintro rfl
  rw [h] at he
  cases he

/-- The text of a string that compaction leaves as it is, after its opening quote: it ends
with the closing quote, where `rescanLiteral` ends it too. -/
theorem kept_string (L : Nat) (n : Nat) : ∀ (cs : List Char) (sf : scanner), cs.length ≤ n →
    keptLoop L ⟨Step.inString, [], false⟩ cs = some sf → sf.eof = true →
    ∃ body, cs = body ++ ['"'] ∧ ∀ t, stringEnd (body ++ '"' :: t) = some (body, t) := by
  induction n with
  | zero =>
    intro cs sf hl h he
    have : cs = [] := List.length_eq_zero.mp (Nat.le_zero.mp hl)
    subst this
    simp only [keptLoop, Option.some.injEq] at h
    subst h
    exact absurd he (by decide)
  | succ n ih =>
    intro cs sf hl h he
    cases cs with
    | nil =>
      simp only [keptLoop, Option.some.injEq] at h
      subst h
      exact absurd he (by decide)
    | cons c cs =>
      simp only [List.length_cons, Nat.add_le_add_iff_right] at hl
      obtain ⟨s', h1, h2⟩ := keptLoop_cons L _ sf c cs h
      unfold scanner.next at h1
      simp only at h1
      split_ifs at h1 with hq hb hc
      · simp only [Option.some.injEq, Prod.mk.injEq, and_true] at h1
        subst h1
        have := kept_endTop_nil L _ sf cs (Or.inr ⟨rfl, rfl⟩) h2
        subst this
        subst hq
        refine ⟨[], rfl, fun t => ?_⟩
        rw [List.nil_append, stringEnd.eq_def]
        simp
      · simp only [Option.some.injEq, Prod.mk.injEq, and_true] at h1
        subst h1
        subst hb
        cases cs with
        | nil =>
          simp only [keptLoop, Option.some.injEq] at h2
          subst h2
          exact absurd he (by decide)
        | cons x cs =>
          simp only [List.length_cons] at hl
          obtain ⟨s', h1, h2⟩ := keptLoop_cons L _ sf x cs h2
          unfold scanner.next at h1
          simp only at h1
          split_ifs at h1 with hx hu
          · simp only [Option.some.injEq, Prod.mk.injEq, and_true] at h1
            subst h1
            obtain ⟨body, hb1, hb2⟩ := ih cs sf (by omega) h2 he
            refine ⟨'\\' :: x :: body, by rw [hb1]; rfl, fun t => ?_⟩
            rw [List.cons_append, List.cons_append, stringEnd_escape, hb2]
            rfl
          · simp only [Option.some.injEq, Prod.mk.injEq, and_true] at h1
            subst h1
            subst hu
            obtain ⟨a, cs1, rfl, ha, h3⟩ := kept_hex L Step.inStringEscU Step.inStringEscU1 [] false
              sf cs (fun c => rfl) (eof_false _ _ sf (by decide)) h2 he
            obtain ⟨b, cs2, rfl, hb, h4⟩ := kept_hex L Step.inStringEscU1 Step.inStringEscU12 []
              false sf cs1 (fun c => rfl) (eof_false _ _ sf (by decide)) h3 he
            obtain ⟨c, cs3, rfl, hc, h5⟩ := kept_hex L Step.inStringEscU12 Step.inStringEscU123 []
              false sf cs2 (fun c => rfl) (eof_false _ _ sf (by decide)) h4 he
            obtain ⟨d, cs4, rfl, hd, h6⟩ := kept_hex L Step.inStringEscU123 Step.inString []
              false sf cs3 (fun c => rfl) (eof_false _ _ sf (by decide)) h5 he
            simp only [List.length_cons] at hl
            obtain ⟨body, hb1, hb2⟩ := ih cs4 sf (by omega) h6 he
            refine ⟨'\\' :: 'u' :: a :: b :: c :: d :: body, by rw [hb1]; rfl, fun t => ?_⟩
            simp only [List.cons_append]
            rw [stringEnd_escape, stringEnd_plain a _ (isHex_ne a ha).1 (isHex_ne a ha).2,
              stringEnd_plain b _ (isHex_ne b hb).1 (isHex_ne b hb).2,
              stringEnd_plain c _ (isHex_ne c hc).1 (isHex_ne c hc).2,
              stringEnd_plain d _ (isHex_ne d hd).1 (isHex_ne d hd).2, hb2]
            rfl
      · simp only [Option.some.injEq, Prod.mk.injEq, and_true] at h1
        subst h1
        obtain ⟨body, hb1, hb2⟩ := ih cs sf (by omega) h2 he
        refine ⟨c :: body, by rw [hb1]; rfl, fun t => ?_⟩
        rw [List.cons_append, stringEnd_plain c _ hq hb, hb2]
        rfl

theorem isNumberChar_of_digit (c : Char) (h : isDigit c = true) : isNumberChar c = true := by
  simp [isNumberChar, h]

theorem isDigit_of_19 (c : Char) (h : (decide ('1' ≤ c) && decide (c ≤ '9')) = true) :
    isDigit c = true := by
  simp only [Bool.and_eq_true, decide_eq_true_eq] at h
  simp only [isDigit, Bool.and_eq_true, decide_eq_true_eq]
  exact ⟨Nat.le_trans (by decide : '0'.toNat ≤ '1'.toNat) h.1, h.2⟩

theorem endValue_nil_kept (st : Step) (e : Bool) (c : Char) (s' : scanner)
    (h : stateEndValue ⟨st, [], e⟩ c = some (s', false)) : False := by
  simp only [stateEndValue, stateEndTop] at h
  split_ifs at h
  simp at h

/-- On a number at the top level the scanner keeps the characters of numbers only. -/
theorem kept_number_step (L : Nat) (st : Step) (e : Bool) (c : Char) (s' : scanner)
    (hst : st.isNumber = true) (h : scanner.next L ⟨st, [], e⟩ c = some (s', false)) :
    isNumberChar c = true ∧ s'.step.isNumber = true ∧ s'.parseState = [] ∧ s'.endTop = e := by
  cases st with
  | neg =>
    unfold scanner.next at h
    simp only at h
    split_ifs at h with h1 h2 <;> simp only [Option.some.injEq, Prod.mk.injEq, and_true] at h <;>
      subst h
    · subst h1; exact ⟨by decide, rfl, rfl, rfl⟩
    · exact ⟨isNumberChar_of_digit c (isDigit_of_19 c h2), rfl, rfl, rfl⟩
  | one =>
    unfold scanner.next state0 at h
    simp only at h
    split_ifs at h with h1 h2 h3
    · simp only [Option.some.injEq, Prod.mk.injEq, and_true] at h
      subst h
      exact ⟨isNumberChar_of_digit c h1, rfl, rfl, rfl⟩
    · simp only [Option.some.injEq, Prod.mk.injEq, and_true] at h
      subst h
      subst h2
      exact ⟨by decide, rfl, rfl, rfl⟩
    · simp only [Option.some.injEq, Prod.mk.injEq, and_true] at h
      subst h
      exact ⟨by simp only [isNumberChar]; simp only [Bool.or_eq_true] at h3 ⊢; tauto, rfl, rfl, rfl⟩
    · exact (endValue_nil_kept _ e c s' h).elim
  | zero =>
    unfold scanner.next state0 at h
    simp only at h
    split_ifs at h with h2 h3
    · simp only [Option.some.injEq, Prod.mk.injEq, and_true] at h
      subst h
      subst h2
      exact ⟨by decide, rfl, rfl, rfl⟩
    · simp only [Option.some.injEq, Prod.mk.injEq, and_true] at h
      subst h
      exact ⟨by simp only [isNumberChar]; simp only [Bool.or_eq_true] at h3 ⊢; tauto, rfl, rfl, rfl⟩
    · exact (endValue_nil_kept _ e c s' h).elim
  | dot =>
    unfold scanner.next at h
    simp only at h
    split_ifs at h with h1
    simp only [Option.some.injEq, Prod.mk.injEq, and_true] at h
    subst h
    exact ⟨isNumberChar_of_digit c h1, rfl, rfl, rfl⟩
  | dot0 =>
    unfold scanner.next at h
    simp only at h
    split_ifs at h with h1 h3
    · simp only [Option.some.injEq, Prod.mk.injEq, and_true] at h
      subst h
      exact ⟨isNumberChar_of_digit c h1, rfl, rfl, rfl⟩
    · simp only [Option.some.injEq, Prod.mk.injEq, and_true] at h
      subst h
      exact ⟨by simp only [isNumberChar]; simp only [Bool.or_eq_true] at h3 ⊢; tauto, rfl, rfl, rfl⟩
    · exact (endValue_nil_kept _ e c s' h).elim
  | e =>
    unfold scanner.next stateESign at h
    simp only at h
    split_ifs at h with h3 h1
    · simp only [Option.some.injEq, Prod.mk.injEq, and_true] at h
      subst h
      exact ⟨by simp only [isNumberChar]; simp only [Bool.or_eq_true] at h3 ⊢; tauto, rfl, rfl, rfl⟩
    · simp only [Option.some.injEq, Prod.mk.injEq, and_true] at h
      subst h
      exact ⟨isNumberChar_of_digit c h1, rfl, rfl, rfl⟩
  | eSign =>
    unfold scanner.next stateESign at h
    simp only at h
    split_ifs at h with h1
    simp only [Option.some.injEq, Prod.mk.injEq, and_true] at h
    subst h
    exact ⟨isNumberChar_of_digit c h1, rfl, rfl, rfl⟩
  | e0 =>
    unfold scanner.next at h
    simp only at h
    split_ifs at h with h1
    · simp only [Option.some.injEq, Prod.mk.injEq, and_true] at h
      subst h
      exact ⟨isNumberChar_of_digit c h1, rfl, rfl, rfl⟩
    · exact (endValue_nil_kept _ e c s' h).elim
  | _ => simp [Step.isNumber] at hst

theorem kept_number (L : Nat) (cs : List Char) : ∀ (st : Step) (e : Bool) (sf : scanner),
    st.isNumber = true → keptLoop L ⟨st, [], e⟩ cs = some sf →
    ∀ c ∈ cs, isNumberChar c = true := by
  induction cs with
  | nil => intro _ _ _ _ _ c hc; cases hc
  | cons x cs ih =>
    intro st e sf hst h c hc
    obtain ⟨s', h1, h2⟩ := keptLoop_cons L _ sf x cs h
    obtain ⟨k1, k2, k3, k4⟩ := kept_number_step L st e x s' hst h1
    obtain ⟨st', T', e'⟩ := s'
    simp only at k2 k3 k4
    subst k3
    rcases List.mem_cons.mp hc with rfl | hc
    · exact k1
    · exact ih st' e' sf k2 h2 c hc

/-- The text of a literal word that compaction leaves as it is, after its first letter. -/
theorem kept_literal (L : Nat) (l : List Char) : ∀ (cs : List Char) (sf : scanner), l ≠ [] →
    keptLoop L ⟨Step.literal l, [], false⟩ cs = some sf → sf.eof = true → cs = l := by
  induction l with
  | nil => intro _ _ h; exact absurd rfl h
  | cons x l ih =>
    intro cs sf _ h he
    cases cs with
    | nil =>
      exfalso
      simp only [keptLoop, Option.some.injEq] at h
      subst h
      cases l with
      | nil =>
        simp only [scanner.eof, scanner.next] at he
        split_ifs at he <;> contradiction
      | cons y l =>
        simp only [scanner.eof, scanner.next] at he
        split_ifs at he <;> contradiction
    | cons c cs =>
      obtain ⟨s', h1, h2⟩ := keptLoop_cons L _ sf c cs h
      cases l with
      | nil =>
        simp only [scanner.next] at h1
        split_ifs at h1 with hc
        simp only [Option.some.injEq, Prod.mk.injEq, and_true] at h1
        subst h1
        rw [kept_endTop_nil L _ sf cs (Or.inr ⟨rfl, rfl⟩) h2, hc]
      | cons y l =>
        simp only [scanner.next] at h1
        split_ifs at h1 with hc
        simp only [Option.some.injEq, Prod.mk.injEq, and_true] at h1
        subst h1
        rw [ih cs sf (by simp) h2 he, hc]

/-- The text of an array or an object that compaction leaves as it is, from inside it: it
ends with the bracket that closes it, where `skip` ends it too. -/
theorem kept_composite (L : Nat) (hL : L ≤ maxNestingDepth) (cs : List Char) :
    ∀ (s sf : scanner), s.Inv → s.parseState ≠ [] → keptLoop L s cs = some sf →
    sf.eof = true → ∀ t, compositeEnd s (cs ++ t) = some (cs, t) := by
  induction cs with
  | nil =>
    intro s sf hi hs h he t
    simp only [keptLoop, Option.some.injEq] at h
    subst h
    rcases eof_ends s hi he with ⟨-, h2⟩ | ⟨-, h2, -⟩ <;> exact absurd h2 hs
  | cons c cs ih =>
    intro s sf hi hs h he t
    obtain ⟨s', hn, hk⟩ := keptLoop_cons L s sf c cs h
    have hn' := next_mono L maxNestingDepth hL s c _ hn
    have hi' := next_Inv L s s' c false hi hn
    simp only [List.cons_append, compositeEnd, hn', List.append_eq]
    by_cases hs' : s'.parseState = []
    · rw [if_pos hs']
      have hend : s'.step = Step.endTop := by
        have ht := next_trans L s c s' false hn
        unfold Trans at ht
        rcases ht with ⟨st, rfl, -⟩ | ⟨-, h1, -⟩ | ⟨-, -, h1, -⟩ |
          ⟨-, -, h1, -⟩ | ⟨st, p, rfl, -⟩ | ⟨st, x, y, r, -, rfl, -⟩ | ⟨rfl, -⟩
        · exact absurd hs' hs
        · cases h1
        · cases h1
        · cases h1
        · simp at hs'
        · simp at hs'
        · split_ifs at hs' ⊢ with h1
          · rfl
          · exact absurd hs' h1
      rw [kept_endTop_nil L s' sf cs (Or.inl hend) hk]
      rfl
    · rw [if_neg hs', ih s' sf hi' hs' hk he t]
      rfl

theorem takeWhile_append_of_all (p : Char → Bool) (l : List Char) (d : Char) (t : List Char)
    (hl : ∀ c ∈ l, p c = true) (hd : p d = false) :
    (l ++ d :: t).takeWhile p = l ∧ (l ++ d :: t).dropWhile p = d :: t := by
  induction l with
  | nil => simp [List.takeWhile, List.dropWhile, hd]
  | cons x l ih =>
    have hx := hl x (List.mem_cons_self x l)
    have := ih (fun c hc => hl c (List.mem_cons_of_mem x hc))
    simp [List.takeWhile, List.dropWhile, hx, this]

theorem valueEnd_string (cs : List Char) :
    valueEnd ('"' :: cs) = (stringEnd cs).map (fun r => ('"' :: (r.1 ++ ['"']), r.2)) := by
  simp [valueEnd]

theorem valueEnd_composite (c : Char) (cs : List Char) (h : c = '\x7b' ∨ c = '[') :
    valueEnd (c :: cs) = compositeEnd scanner.reset (c :: cs) := by
  rcases h with rfl | rfl <;> simp [valueEnd]

theorem valueEnd_number (c : Char) (cs : List Char) (h : isNumberChar c = true) :
    valueEnd (c :: cs)
      = some ((c :: cs).takeWhile isNumberChar, (c :: cs).dropWhile isNumberChar) := by
  have h1 : c ≠ '"' := by rintro rfl; exact absurd h (by decide)
  have h2 : c ≠ '\x7b' := by rintro rfl; exact absurd h (by decide)
  have h3 : c ≠ '[' := by rintro rfl; exact absurd h (by decide)
  have h4 : c ≠ 't' := by rintro rfl; exact absurd h (by decide)
  have h5 : c ≠ 'n' := by rintro rfl; exact absurd h (by decide)
  have h6 : c ≠ 'f' := by rintro rfl; exact absurd h (by decide)
  simp only [valueEnd, h1, h2, h3, h4, h5, h6, if_false, or_self]

/-- Where a value that compaction leaves as it is stands before a comma or a closing brace,
the decoder finds the whole of it as the text of the value, and no white space before it. -/
theorem valueEnd_stable (L : Nat) (hL : L ≤ maxNestingDepth) (P : List Char)
    (hP : compactLoop L scanner.reset P = some P) (d : Char) (t : List Char)
    (hd : d = ',' ∨ d = '\x7d') :
    valueEnd (P ++ d :: t) = some (P, d :: t) ∧ skipSpace (P ++ d :: t) = P ++ d :: t := by
  obtain ⟨sf, hk, he⟩ := compactLoop_kept L P scanner.reset Inv_reset hP
  have hdn : isNumberChar d = false := by rcases hd with rfl | rfl <;> decide
  cases P with
  | nil =>
    simp only [keptLoop, Option.some.injEq] at hk
    subst hk
    exact absurd he (by decide)
  | cons c P =>
    obtain ⟨s', hn, hk'⟩ := keptLoop_cons L _ sf c P hk
    have hi' := next_Inv L _ s' c false Inv_reset hn
    have hsp : isSpace c = false := by
      cases h : isSpace c with
      | false => rfl
      | true => exact absurd (keep_space L _ s' c Inv_reset hn h) (by decide)
    refine ⟨?_, by simp [skipSpace, List.dropWhile, hsp]⟩
    have hn0 := hn
    unfold scanner.next at hn
    simp only [scanner.reset] at hn
    unfold stateBeginValue scanner.pushParseState at hn
    simp only [hsp, Bool.false_eq_true, if_false] at hn
    split_ifs at hn with h1 h1l h2 h2l h3 h4 h5 h6 h7 h8 h9 <;>
      simp only [Option.some.injEq, Prod.mk.injEq, and_true] at hn <;> subst hn
    · subst h1
      have := kept_composite L hL P _ sf hi' (by simp) hk' he (d :: t)
      have hn' := next_mono L maxNestingDepth hL _ _ _ hn0
      rw [List.cons_append, valueEnd_composite _ _ (Or.inl rfl)]
      simp only [compositeEnd, hn', this]
      simp
    · subst h2
      have := kept_composite L hL P _ sf hi' (by simp) hk' he (d :: t)
      have hn' := next_mono L maxNestingDepth hL _ _ _ hn0
      rw [List.cons_append, valueEnd_composite _ _ (Or.inr rfl)]
      simp only [compositeEnd, hn', this]
      simp
    · subst h3
      obtain ⟨body, hb1, hb2⟩ := kept_string L P.length P sf (Nat.le_refl _) hk' he
      subst hb1
      rw [List.cons_append, valueEnd_string, List.append_assoc, List.singleton_append, hb2]
      rfl
    · subst h4
      have hall := kept_number L P Step.neg false sf rfl hk'
      have := takeWhile_append_of_all isNumberChar ('-' :: P) d t
        (fun c hc => by
          rcases List.mem_cons.mp hc with rfl | hc
          · decide
          · exact hall c hc) hdn
      rw [List.cons_append] at this ⊢
      rw [valueEnd_number _ _ (by decide), this.1, this.2]
    · subst h5
      have hall := kept_number L P Step.zero false sf rfl hk'
      have := takeWhile_append_of_all isNumberChar ('0' :: P) d t
        (fun c hc => by
          rcases List.mem_cons.mp hc with rfl | hc
          · decide
          · exact hall c hc) hdn
      rw [List.cons_append] at this ⊢
      rw [valueEnd_number _ _ (by decide), this.1, this.2]
    · subst h6
      have := kept_literal L _ P sf (by simp) hk' he
      subst this
      simp [valueEnd]
    · subst h7
      have := kept_literal L _ P sf (by simp) hk' he
      subst this
      simp [valueEnd]
    · subst h8
      have := kept_literal L _ P sf (by simp) hk' he
      subst this
      simp [valueEnd]
    · have hdg := isNumberChar_of_digit c (isDigit_of_19 c h9)
      have hall := kept_number L P Step.one false sf rfl hk'
      have := takeWhile_append_of_all isNumberChar (c :: P) d t
        (fun x hx => by
          rcases List.mem_cons.mp hx with rfl | hx
          · exact hdg
          · exact hall x hx) hdn
      rw [List.cons_append] at this ⊢
      rw [valueEnd_number _ _ hdg, this.1, this.2]

end json

namespace transport

open protocol time json

theorem scan_string (L : Nat) (st : Step)
    (hst : st = Step.beginValue ∨ st = Step.beginString ∨ st = Step.beginStringOrEmpty)
    (T : List ParseState) (e : Bool) (x : String) :
    scanLoop L ⟨st, T, e⟩ (appendString x) = some ⟨Step.endValue, T, e⟩ := by
  have h1 : scanner.next L ⟨st, T, e⟩ '"' = some (⟨Step.inString, T, e⟩, false) := by
    rcases hst with rfl | rfl | rfl <;> rfl
  have h2 : scanner.next L ⟨Step.inString, T, e⟩ '"' = some (⟨Step.endValue, T, e⟩, false) := rfl
  unfold appendString
  simp only [scanLoop, h1, scanLoop_append, scanLoop_flatMap, Option.some_bind, h2]

theorem find_key (f : Field) :
    (unquoteBody none (f.key.data.flatMap appendChar)).bind Field.find = some f := by
  rw [unquoteBody_appendString]
  cases f <;> decide

theorem skipSpace_cons (c : Char) (cs : List Char) (h : isSpace c = false) :
    skipSpace (c :: cs) = c :: cs := by
  simp [skipSpace, List.dropWhile, h]

/-- The decoding of one member of an object. -/
theorem decode_member (n : Nat) (m m1 : Message) (f : Field) (v : List Char) (d : Char)
    (rest : List Char) (hv : GoodValue v) (hd : d = ',' ∨ d = '\x7d')
    (hs : store m none f v = .ok (m1, none)) :
    decodeMembers (n + 1) m none (appendString f.key ++ ':' :: (v ++ d :: rest))
      = if d = ',' then decodeMembers n m1 none rest else finish m1 none := by
  obtain ⟨-, h2, -⟩ := hv
  obtain ⟨h3, h4⟩ := h2 d rest hd
  have hdsp : isSpace d = false := by rcases hd with rfl | rfl <;> decide
  unfold appendString
  rw [decodeMembers]
  simp only [List.cons_append, List.append_assoc, List.singleton_append]
  rw [skipSpace_cons _ _ (by decide)]
  simp only
  rw [if_neg (by decide), stringEnd_flatMap]
  simp only [List.nil_append]
  rw [skipSpace_cons _ _ (by decide)]
  simp only [List.drop_succ_cons, List.drop_zero]
  rw [h4, h3]
  simp only [find_key, hs]
  rw [skipSpace_cons _ _ hdsp]

/-- The decoding of the members that the encoder's loop writes after a first one. -/
theorem decode_fields (l : List (Field × Option (List Char))) :
    (∀ f v, (f, some v) ∈ l → GoodValue v ∧ ∀ m, ∃ m1, store m none f v = .ok (m1, none)) →
    ∀ (n : Nat) (m m1 : Message) (f : Field) (v rest : List Char), GoodValue v →
      store m none f v = .ok (m1, none) →
      (l.filter (fun p => p.2.isSome)).length + 1 ≤ n →
      decodeMembers n m none (appendString f.key ++ ':' :: (v ++ (encodeFields ',' l ++ rest)))
        = .ok (storeAll m1 l) := by
  induction l with
  | nil =>
    intro _ n m m1 f v rest hv hs hn
    obtain ⟨k, rfl⟩ : ∃ k, n = k + 1 := ⟨n - 1, by simp at hn; omega⟩
    simp only [encodeFields]
    rw [if_neg (by decide), List.singleton_append,
      decode_member k m m1 f v _ rest hv (Or.inr rfl) hs, if_neg (by decide)]
    rfl
  | cons p l ih =>
    intro hl n m m1 f v rest hv hs hn
    have hl' : ∀ f v, (f, some v) ∈ l →
        GoodValue v ∧ ∀ m, ∃ m1, store m none f v = .ok (m1, none) :=
      fun f v h => hl f v (List.mem_cons_of_mem _ h)
    obtain ⟨f2, ov⟩ := p
    cases ov with
    | none =>
      simp only [encodeFields, storeAll]
      exact ih hl' n m m1 f v rest hv hs (by simpa using hn)
    | some v2 =>
      obtain ⟨k, rfl⟩ : ∃ k, n = k + 1 := ⟨n - 1, by simp at hn; omega⟩
      obtain ⟨hv2, hs2⟩ := hl f2 v2 (List.mem_cons_self _ _)
      obtain ⟨m2, hm2⟩ := hs2 m1
      simp only [encodeFields, storeAll, hm2, List.cons_append, List.append_assoc]
      rw [decode_member k m m1 f v _ _ hv (Or.inl rfl) hs, if_pos rfl]
      exact ih hl' k m1 m2 f2 v2 rest hv2 hm2 (by simp at hn; omega)

theorem scanLoop_cons (L : Nat) (s : scanner) (c : Char) (cs : List Char) :
    scanLoop L s (c :: cs) = (s.next L c).bind (fun r => scanLoop L r.1 cs) := by
  rw [scanLoop]
  cases s.next L c with
  | none => rfl
  | some r => rfl

theorem scan_key_value (L : Nat) (st0 : Step)
    (h0 : st0 = Step.beginString ∨ st0 = Step.beginStringOrEmpty) (f : Field)
    (v rest : List Char) (st : Step)
    (hsc : scanLoop L ⟨Step.beginValue, [ParseState.objectValue], false⟩ v
      = some ⟨st, [ParseState.objectValue], false⟩) :
    scanLoop L ⟨st0, [ParseState.objectKey], false⟩ (appendString f.key ++ ':' :: (v ++ rest))
      = scanLoop L ⟨st, [ParseState.objectValue], false⟩ rest := by
  have hcolon : scanner.next L ⟨Step.endValue, [ParseState.objectKey], false⟩ ':'
      = some (⟨Step.beginValue, [ParseState.objectValue], false⟩, false) := rfl
  rw [scanLoop_append, scan_string L st0 (h0.elim (fun h => Or.inr (Or.inl h))
    (fun h => Or.inr (Or.inr h)))]
  simp only [Option.some_bind]
  rw [scanLoop_cons, hcolon]
  simp only [Option.some_bind]
  rw [scanLoop_append, hsc]
  rfl

/-- The scanner over the members that the encoder's loop writes after a first one, up to
the closing brace. -/
theorem scan_fields (l : List (Field × Option (List Char))) :
    (∀ f v, (f, some v) ∈ l → GoodValue v) →
    ∀ (st : Step) (rest : List Char), st.ends = true →
      scanLoop maxNestingDepth ⟨st, [ParseState.objectValue], false⟩
          (encodeFields ',' l ++ rest)
        = scanLoop maxNestingDepth ⟨Step.endTop, [], true⟩ rest := by
  induction l with
  | nil =>
    intro _ st rest hst
    simp only [encodeFields]
    rw [if_neg (by decide), List.singleton_append, scanLoop_cons,
      done_close maxNestingDepth st hst]
    rfl
  | cons p l ih =>
    intro hl st rest hst
    have hl' : ∀ f v, (f, some v) ∈ l → GoodValue v :=
      fun f v h => hl f v (List.mem_cons_of_mem _ h)
    obtain ⟨f2, ov⟩ := p
    cases ov with
    | none =>
      simp only [encodeFields]
      exact ih hl' st rest hst
    | some v2 =>
      obtain ⟨⟨st2, hsc, hst2⟩, -, -⟩ := hl f2 v2 (List.mem_cons_self _ _)
      simp only [encodeFields]
      rw [List.cons_append, scanLoop_cons, done_comma maxNestingDepth st [] hst]
      simp only [Option.some_bind]
      rw [List.append_assoc, List.cons_append, List.append_assoc,
        scan_key_value _ _ (Or.inl rfl) f2 v2 _ st2 hsc]
      exact ih hl' st2 rest hst2

/-- The line that the encoder's loop writes for a struct with a first member is valid JSON. -/
theorem checkValid_fields (f : Field) (v : List Char) (l : List (Field × Option (List Char)))
    (hv : GoodValue v) (hl : ∀ f v, (f, some v) ∈ l → GoodValue v) :
    checkValid (encodeFields '\x7b' ((f, some v) :: l) ++ ['\n']) = true := by
  obtain ⟨⟨st, hsc, hst⟩, -, -⟩ := hv
  have hopen : scanner.next maxNestingDepth scanner.reset '\x7b'
      = some (⟨Step.beginStringOrEmpty, [ParseState.objectKey], false⟩, false) := by decide
  have hlf : scanner.next maxNestingDepth ⟨Step.endTop, [], true⟩ '\n'
      = some (⟨Step.endTop, [], true⟩, true) := rfl
  unfold checkValid
  simp only [encodeFields]
  rw [List.cons_append, scanLoop_cons, hopen]
  simp only [Option.some_bind]
  rw [List.append_assoc, List.cons_append, List.append_assoc,
    scan_key_value _ _ (Or.inr rfl) f v _ st hsc, scan_fields l hl st _ hst,
    scanLoop_cons, hlf]
  rfl

/-- The decoding of the line that the encoder's loop writes for a struct with a first
member. -/
theorem Unmarshal_fields (f : Field) (v : List Char) (l : List (Field × Option (List Char)))
    (m1 : Message) (hv : GoodValue v) (hs : store Message.zero none f v = .ok (m1, none))
    (hl : ∀ f v, (f, some v) ∈ l →
      GoodValue v ∧ ∀ m, ∃ m1, store m none f v = .ok (m1, none)) :
    Unmarshal (encodeFields '\x7b' ((f, some v) :: l) ++ ['\n']) = .ok (storeAll m1 l) := by
  unfold Unmarshal
  rw [if_pos (checkValid_fields f v l hv (fun f v h => (hl f v h).1))]
  simp only [encodeFields, List.cons_append, List.append_assoc]
  rw [skipSpace_cons _ _ (by decide)]
  simp only
  rw [if_pos trivial]
  refine decode_fields l hl _ Message.zero m1 f v _ hv hs ?_
  simp only [List.length_cons, List.length_append]
  have : (l.filter (fun p => p.2.isSome)).length ≤ (encodeFields ',' l).length := by
    clear hl
    induction l with
    | nil => simp
    | cons p l ih =>
      obtain ⟨f2, ov⟩ := p
      cases ov with
      | none => simpa [encodeFields] using ih
      | some v2 =>
        simp only [encodeFields, List.length_cons, List.length_append, Option.isSome_some,
          List.filter_cons_of_pos]
        omega
  omega

end transport

namespace json

theorem compactLoop_mono (L L' : Nat) (hL : L ≤ L') (cs : List Char) :
    ∀ (s : scanner) (out : List Char), compactLoop L s cs = some out →
      compactLoop L' s cs = some out := by
  induction cs with
  | nil => intro s out h; exact h
  | cons c cs ih =>
    intro s out h
    simp only [compactLoop] at h ⊢
    cases hn : s.next L c with
    | none => simp [hn] at h
    | some r =>
      obtain ⟨s', d⟩ := r
      rw [next_mono L L' hL s c _ hn]
      simp only [hn] at h ⊢
      cases ho : compactLoop L s' cs with
      | none => simp [ho] at h
      | some out' =>
        rw [ih s' out' ho]
        simpa [ho] using h

/-- Text of which the scanner drops no character holds no line feed. -/
theorem kept_no_lf (L : Nat) (cs : List Char) : ∀ (s sf : scanner), s.Inv →
    keptLoop L s cs = some sf → ∀ c ∈ cs, c ≠ '\n' := by
  induction cs with
  | nil => intro _ _ _ _ c hc; cases hc
  | cons x cs ih =>
    intro s sf hi h c hc
    obtain ⟨s', hn, hk⟩ := keptLoop_cons L s sf x cs h
    rcases List.mem_cons.mp hc with rfl | hc
    · rintro rfl
      have hs := keep_space L s s' '\n' hi hn (by decide)
      obtain ⟨step, T, e⟩ := s
      simp only at hs
      subst hs
      simp [scanner.next] at hn
    · exact ih s' sf (next_Inv L s s' x false hi hn) hk c hc

theorem appendChar_no_lf (c : Char) : ∀ x ∈ appendChar c, x ≠ '\n' := by
  intro x hx
  rcases appendChar_cases c with ⟨h, -, -, h3⟩ | ⟨e, h, he⟩ |
    ⟨a, b, u, w, h, -, -, ha, hb, hu, hw, -⟩
  · rw [h, List.mem_singleton] at hx
    subst hx
    rintro rfl
    exact absurd h3 (by decide)
  · rw [h] at hx
    simp only [List.mem_cons, List.mem_singleton, List.not_mem_nil, or_false] at hx
    rcases hx with rfl | rfl
    · decide
    · rcases he with ⟨rfl, rfl | rfl⟩ | ⟨rfl, -⟩ | ⟨rfl, -⟩ | ⟨rfl, -⟩ | ⟨rfl, -⟩ | ⟨rfl, -⟩ <;>
        decide
  · rw [h] at hx
    simp only [List.mem_cons, List.mem_singleton, List.not_mem_nil, or_false] at hx
    rcases hx with rfl | rfl | rfl | rfl | rfl | rfl
    · decide
    · decide
    · rintro rfl; exact absurd ha (by decide)
    · rintro rfl; exact absurd hb (by decide)
    · rintro rfl; exact absurd hu (by decide)
    · rintro rfl; exact absurd hw (by decide)

end json

namespace transport

open protocol time json

/-- The text that the encoder writes for a string is a good value. -/
theorem good_string (x : String) : GoodValue (appendString x) := by
  refine ⟨⟨Step.endValue, scan_string _ _ (Or.inl rfl) _ _ x, rfl⟩, ?_, ?_⟩
  · intro d rest _
    unfold appendString
    rw [List.cons_append, List.append_assoc, List.singleton_append, valueEnd_string,
      stringEnd_flatMap, skipSpace_cons _ _ (by decide)]
    exact ⟨rfl, rfl⟩
  · intro c hc
    unfold appendString at hc
    simp only [List.mem_cons, List.mem_append, List.mem_flatMap, List.mem_singleton,
      List.not_mem_nil, or_false] at hc
    rcases hc with rfl | ⟨a, -, ha⟩ | rfl
    · decide
    · exact appendChar_no_lf a c ha
    · decide

/-- A payload that compaction under the limit of nesting less one leaves as it is, is a
good value. -/
theorem good_payload (P : List Char)
    (hP : compactLoop (maxNestingDepth - 1) scanner.reset P = some P) : GoodValue P := by
  obtain ⟨sf, hk, he⟩ := compactLoop_kept _ P scanner.reset Inv_reset hP
  obtain ⟨hl, hi⟩ := keptLoop_lift (maxNestingDepth - 1) [ParseState.objectValue] (by simp) P
    scanner.reset sf Inv_reset hk
  obtain ⟨st, hst, hends⟩ := lift_done [ParseState.objectValue] sf hi he
  refine ⟨⟨st, ?_, hends⟩, ?_, kept_no_lf _ P _ sf Inv_reset hk⟩
  · rw [hst] at hl
    exact hl
  · intro d rest hd
    exact valueEnd_stable (maxNestingDepth - 1) (by decide) P hP d rest hd

theorem store_string (m : Message) (f : Field) (x : String)
    (hf : f ≠ Field.payload ∧ f ≠ Field.ts) :
    store m none f (appendString x) = .ok (setString m f x, none) := by
  have h : (x.data.flatMap appendChar ++ ['"']).dropLast = x.data.flatMap appendChar :=
    List.dropLast_concat
  cases f <;> first
    | exact absurd rfl hf.1
    | exact absurd rfl hf.2
    | simp [store, appendString, h, unquoteBody_appendString]

theorem store_payload (m : Message) (P : String) :
    store m none Field.payload P.data = .ok ({ m with Payload := P }, none) := rfl

end transport

namespace time

open json

theorem isDigit_plain (c : Char) (h : isDigit c = true) : appendChar c = [c] := by
  simp only [isDigit, Bool.and_eq_true, decide_eq_true_eq] at h
  have h1 : 48 ≤ c.toNat := h.1
  have h2 : c.toNat ≤ 57 := h.2
  have hc : c = Char.ofNat c.toNat := (Char.ofNat_toNat c).symm
  generalize c.toNat = n at h1 h2 hc
  subst hc
  interval_cases n <;> decide

theorem mem_trimZeros (l : List Char) (c : Char) (h : c ∈ trimZeros l) : c ∈ l := by
  obtain ⟨k, hk, -⟩ := trimZeros_spec l
  rw [hk]
  exact List.mem_append_left _ h

theorem mem_appendInt (x w : Nat) (c : Char) (h : c ∈ appendInt x w) : appendChar c = [c] :=
  isDigit_plain c (List.all_eq_true.mp (all_isDigit_appendInt w x) c h)

/-- The encoder of strings copies every character of the layout as it is. -/
theorem format_plain (t : Time) : ∀ c ∈ t.appendFormatRFC3339, appendChar c = [c] := by
  intro c hc
  unfold Time.appendFormatRFC3339 appendNano at hc
  simp only [List.mem_append, List.mem_cons, List.mem_singleton, List.not_mem_nil, or_false] at hc
  rcases hc with h | rfl | h | rfl | h | rfl | h | rfl | h | rfl | h | h | rfl
  · exact mem_appendInt _ _ c h
  · decide
  · exact mem_appendInt _ _ c h
  · decide
  · exact mem_appendInt _ _ c h
  · decide
  · exact mem_appendInt _ _ c h
  · decide
  · exact mem_appendInt _ _ c h
  · decide
  · exact mem_appendInt _ _ c h
  · split_ifs at h
    · cases h
    · rcases List.mem_cons.mp h with rfl | h
      · decide
      · exact mem_appendInt _ _ c (mem_trimZeros _ c h)
  · decide

theorem flatMap_plain (l : List Char) (h : ∀ c ∈ l, appendChar c = [c]) :
    l.flatMap appendChar = l := by
  induction l with
  | nil => rfl
  | cons x l ih =>
    rw [List.flatMap_cons, h x (List.mem_cons_self _ _),
      ih (fun c hc => h c (List.mem_cons_of_mem _ hc))]
    rfl

/-- What `Time.MarshalJSON` writes is the JSON string of the layout. -/
theorem MarshalJSON_eq (t : Time) (h : t.marshalable = true) :
    t.MarshalJSON = .ok (appendString (String.mk t.appendFormatRFC3339)) := by
  unfold Time.MarshalJSON appendString
  rw [if_pos h]
  simp only [flatMap_plain _ (format_plain t)]

/-- The method `Time.UnmarshalJSON` reads the instant back from what `Time.MarshalJSON`
writes. -/
theorem UnmarshalJSON_MarshalJSON (t : Time) (h : t.marshalable = true) :
    Time.UnmarshalJSON (appendString (String.mk t.appendFormatRFC3339)) = .ok (some t) := by
  have hp := parseRFC3339_appendFormat t h
  unfold appendString
  simp only [flatMap_plain _ (format_plain t)]
  unfold Time.UnmarshalJSON
  have hlast : ('"' :: (t.appendFormatRFC3339 ++ ['"'])).getLast? = some '"' := by
    rw [← List.cons_append, List.getLast?_append]
    rfl
  rw [if_neg (by simp), if_neg]
  · simp only [List.tail_cons, List.dropLast_concat, parseStrictRFC3339, hp]
  · simp [hlast]

end time

namespace transport

open protocol time json

theorem store_ts (m : Message) (t : Time) (h : t.marshalable = true) :
    store m none Field.ts (appendString (String.mk t.appendFormatRFC3339))
      = .ok ({ m with TS := t }, none) := by
  simp only [store, UnmarshalJSON_MarshalJSON t h]

theorem storeAll_string (m : Message) (f : Field) (x : String)
    (rest : List (Field × Option (List Char))) (hf : f ≠ Field.payload ∧ f ≠ Field.ts) :
    storeAll m ((f, omitempty x) :: rest)
      = storeAll (if x = "" then m else setString m f x) rest := by
  unfold omitempty
  split_ifs with hx
  · simp only [storeAll]
  · simp only [storeAll, store_string m f x hf]

theorem readLine_line (b rest : List Char) (h : ∀ c ∈ b, c ≠ '\n') :
    readLine ((b ++ ['\n']) ++ rest) = some (b ++ ['\n'], rest) := by
  induction b with
  | nil => simp [readLine]
  | cons x b ih =>
    rw [List.cons_append, List.cons_append, readLine, if_neg (h x (List.mem_cons_self _ _)),
      ih (fun c hc => h c (List.mem_cons_of_mem _ hc))]
    rfl

theorem encodeFields_no_lf (l : List (Field × Option (List Char))) :
    (∀ f v, (f, some v) ∈ l → GoodValue v) → ∀ next : Char, next ≠ '\n' →
      ∀ c ∈ encodeFields next l, c ≠ '\n' := by
  induction l with
  | nil =>
    intro _ next _ c hc
    simp only [encodeFields] at hc
    split_ifs at hc <;>
      simp only [List.mem_cons, List.mem_singleton, List.not_mem_nil, or_false] at hc
    · rcases hc with rfl | rfl <;> decide
    · subst hc; decide
  | cons p l ih =>
    intro hl next hn c hc
    have hl' : ∀ f v, (f, some v) ∈ l → GoodValue v :=
      fun f v h => hl f v (List.mem_cons_of_mem _ h)
    obtain ⟨f2, ov⟩ := p
    cases ov with
    | none => exact ih hl' next hn c (by simpa [encodeFields] using hc)
    | some v =>
      simp only [encodeFields, List.mem_cons, List.mem_append] at hc
      rcases hc with rfl | h | rfl | h | h
      · exact hn
      · exact (good_string f2.key).2.2 c h
      · decide
      · exact (hl f2 v (List.mem_cons_self _ _)).2.2 c h
      · exact ih hl' ',' (by decide) c h

/-- The fields of a message as the encoder's loop sees them. -/
theorem Marshal_eq (m : Message)
    (hp : m.Payload = "" ∨
      compactLoop (maxNestingDepth - 1) scanner.reset m.Payload.data = some m.Payload.data)
    (ht : m.TS.marshalable = true) :
    Marshal m = .ok (encodeFields '\x7b' [(Field.kind, some (appendString m.Kind)),
        (Field.id, omitempty m.ID), (Field.agentID, omitempty m.AgentID),
        (Field.typ, omitempty m.Typ),
        (Field.payload, if m.Payload = "" then none else some m.Payload.data),
        (Field.error, omitempty m.Error),
        (Field.ts, some (appendString (String.mk m.TS.appendFormatRFC3339)))]) := by
  unfold Marshal
  rw [MarshalJSON_eq m.TS ht]
  by_cases he : m.Payload = ""
  · simp only [he, if_true]
  · rcases hp with hp | hp
    · exact absurd hp he
    · rw [if_neg he, compactLoop_mono _ maxNestingDepth (by decide) _ _ _ hp]
      simp only [Option.map_some', if_neg he]

theorem Marshal_marshalable (m : Message) (b : List Char) (h : Marshal m = .ok b) :
    m.TS.marshalable = true := by
  unfold Marshal Time.MarshalJSON at h
  cases ht : m.TS.marshalable with
  | true => rfl
  | false =>
    rw [ht] at h
    simp only [Bool.false_eq_true, if_false] at h
    split at h <;> cases h

/-- The decoder reads from the line that the encoder writes for a message, the message. -/
theorem Unmarshal_Marshal (m : Message) (b : List Char)
    (hp : m.Payload = "" ∨
      compactLoop (maxNestingDepth - 1) scanner.reset m.Payload.data = some m.Payload.data)
    (h : Marshal m = .ok b) :
    Unmarshal (b ++ ['\n']) = .ok m ∧ ∀ c ∈ b, c ≠ '\n' := by
  have ht := Marshal_marshalable m b h
  rw [Marshal_eq m hp ht] at h
  simp only [Except.ok.injEq] at h
  subst h
  have hgood : ∀ f v, (f, some v) ∈ [(Field.id, omitempty m.ID),
      (Field.agentID, omitempty m.AgentID), (Field.typ, omitempty m.Typ),
      (Field.payload, if m.Payload = "" then none else some m.Payload.data),
      (Field.error, omitempty m.Error),
      (Field.ts, some (appendString (String.mk m.TS.appendFormatRFC3339)))] →
      GoodValue v ∧ ∀ m0, ∃ m1, store m0 none f v = .ok (m1, none) := by
    intro f v hm
    simp only [List.mem_cons, Prod.mk.injEq, List.mem_singleton, List.not_mem_nil,
      or_false, omitempty] at hm
    rcases hm with ⟨rfl, h⟩ | ⟨rfl, h⟩ | ⟨rfl, h⟩ | ⟨rfl, h⟩ | ⟨rfl, h⟩ | ⟨rfl, h⟩
    · split_ifs at h
      simp only [Option.some.injEq] at h
      subst h
      exact ⟨good_string _, fun m0 => ⟨_, store_string m0 _ _ (by decide)⟩⟩
    · split_ifs at h
      simp only [Option.some.injEq] at h
      subst h
      exact ⟨good_string _, fun m0 => ⟨_, store_string m0 _ _ (by decide)⟩⟩
    · split_ifs at h
      simp only [Option.some.injEq] at h
      subst h
      exact ⟨good_string _, fun m0 => ⟨_, store_string m0 _ _ (by decide)⟩⟩
    · split_ifs at h with he
      simp only [Option.some.injEq] at h
      subst h
      exact ⟨good_payload _ (hp.resolve_left he), fun m0 => ⟨_, store_payload m0 _⟩⟩
    · split_ifs at h
      simp only [Option.some.injEq] at h
      subst h
      exact ⟨good_string _, fun m0 => ⟨_, store_string m0 _ _ (by decide)⟩⟩
    · simp only [Option.some.injEq] at h
      subst h
      exact ⟨good_string _, fun m0 => ⟨_, store_ts m0 _ ht⟩⟩
  constructor
  · rw [Unmarshal_fields Field.kind _ _ _ (good_string _)
      (store_string Message.zero Field.kind m.Kind (by decide)) hgood]
    rw [storeAll_string _ _ _ _ (by decide), storeAll_string _ _ _ _ (by decide),
      storeAll_string _ _ _ _ (by decide)]
    obtain ⟨k, id, aid, ty, pl, er, ts⟩ := m
    simp only at ht hp ⊢
    by_cases hpl : pl = ""
    · rw [if_pos hpl]
      simp only [storeAll]
      rw [storeAll_string _ _ _ _ (by decide)]
      simp only [storeAll, store_ts _ ts ht]
      subst hpl
      by_cases h1 : id = "" <;> by_cases h2 : aid = "" <;> by_cases h3 : ty = "" <;>
        by_cases h4 : er = "" <;> simp [h1, h2, h3, h4, setString, Message.zero]
    · rw [if_neg hpl]
      simp only [storeAll, store_payload]
      rw [storeAll_string _ _ _ _ (by decide)]
      simp only [storeAll, store_ts _ ts ht]
      by_cases h1 : id = "" <;> by_cases h2 : aid = "" <;> by_cases h3 : ty = "" <;>
        by_cases h4 : er = "" <;> simp [h1, h2, h3, h4, setString, Message.zero]
  · exact encodeFields_no_lf _
      (fun f v hm => by
        rcases List.mem_cons.mp hm with h | h
        · simp only [Prod.mk.injEq, Option.some.injEq] at h
          rw [h.2]
          exact good_string _
        · exact (hgood f v h).1) _ (by decide)

/-- C6 (as amended): for every valid message whose payload is empty or is JSON text that
compaction leaves as it is and that nests less deep than the limit of the decoder, `Send` on
an open link succeeds when the timestamp is in the years 0 to 9999, and what `Send` writes
is one line from which `Recv` reads the message and after which it leaves the stream. -/
theorem Send_Recv_roundtrip (m : Message) (c : Conn)
    (_hv : m.ValidateBasic = none)
    (hp : m.Payload = "" ∨
      compactLoop (maxNestingDepth - 1) scanner.reset m.Payload.data = some m.Payload.data) :
    (c.closed = false → m.TS.marshalable = true → (c.Send m).2 = none) ∧
    (∀ c', c.Send m = (c', none) →
      ∃ line, c'.tx = c.tx ++ line ∧ c'.rx = c.rx ∧
        ∀ rest, Conn.Recv (NewConn (line ++ rest)) = (⟨rest, [], false⟩, .ok m)) := by
  constructor
  · intro hc ht
    simp [Conn.Send, Marshal_eq m hp ht, hc]
  · intro c' h
    unfold Conn.Send at h
    cases hm : Marshal m with
    | error e => simp [hm] at h
    | ok b =>
      simp only [hm] at h
      split_ifs at h with hc
      · simp at h
      · simp only [Prod.mk.injEq, and_true] at h
        subst h
        obtain ⟨h1, h2⟩ := Unmarshal_Marshal m b hp hm
        refine ⟨b ++ ['\n'], rfl, rfl, fun rest => ?_⟩
        simp only [Conn.Recv, NewConn, readLine_line b rest h2, h1]

/-- C6, witness: a response with a compact payload makes the round trip. -/
theorem Send_Recv_roundtrip_witness :
    let m : Message := ⟨KindResponse, "r1", "a", "", "[1,2]", "", Time.zero⟩
    m.ValidateBasic = none ∧
    (m.Payload = "" ∨
      compactLoop (maxNestingDepth - 1) scanner.reset m.Payload.data = some m.Payload.data) ∧
    ((NewConn []).closed = false → m.TS.marshalable = true → ((NewConn []).Send m).2 = none) ∧
    (∀ c', (NewConn []).Send m = (c', none) →
      ∃ line, c'.tx = (NewConn []).tx ++ line ∧ c'.rx = (NewConn []).rx ∧
        ∀ rest, Conn.Recv (NewConn (line ++ rest)) = (⟨rest, [], false⟩, .ok m)) :=
  ⟨by decide, Or.inr (by decide),
    Send_Recv_roundtrip ⟨KindResponse, "r1", "a", "", "[1,2]", "", Time.zero⟩ (NewConn [])
      (by decide) (Or.inr (by decide))⟩

/-- C6, counterexample: a heartbeat whose payload is the JSON text `[1, 2]` passes
`ValidateBasic`; `Send` writes a line for it, and `Recv` reads from that line a message with
the payload `[1,2]`, which is not the message sent. -/
theorem Send_Recv_roundtrip_counterexample :
    let m : Message := ⟨KindHeartbeat, "", "a", "", "[1, 2]", "", Time.zero⟩
    let line : String :=
      "\x7b\"kind\":\"heartbeat\",\"agent_id\":\"a\",\"payload\":[1,2],\"ts\":\"0001-01-01T00:00:00Z\"\x7d\n"
    m.ValidateBasic = none ∧
    (NewConn []).Send m = (⟨[], line.data, false⟩, none) ∧
    (Conn.Recv (NewConn line.data)).2 = .ok { m with Payload := "[1,2]" } ∧
    (Conn.Recv (NewConn line.data)).2 ≠ .ok m := by
  decide

end transport

namespace server

open protocol time

theorem pendingOf_modifyAt (s : State) (p a : Nat) (f : agentConn → agentConn) :
    State.pendingOf { s with agentConns := modifyAt s.agentConns p f } a =
      if a = p then
        (match s.agentConns[a]? with
          | some ac => (f ac).pending
          | none => [])
      else s.pendingOf a := by
  unfold State.pendingOf
  simp only [getElem?_modifyAt]
  by_cases h : a = p
  · simp only [h, if_true]
    cases s.agentConns[p]? <;> simp
  · simp [h]

theorem pendingOf_modifyAt_of_pending_eq (s : State) (p a : Nat) (f : agentConn → agentConn)
    (hf : ∀ ac, (f ac).pending = ac.pending) :
    State.pendingOf { s with agentConns := modifyAt s.agentConns p f } a = s.pendingOf a := by
  rw [pendingOf_modifyAt]
  by_cases h : a = p
  · simp only [h, if_true]
    unfold State.pendingOf
    cases s.agentConns[p]? <;> simp [hf]
  · simp [h]

theorem pendingOf_Touch (s : State) (agentID : String) (now : Time) (a : Nat) :
    (Registry.Touch s agentID now).pendingOf a = s.pendingOf a := by
  unfold Registry.Touch
  cases s.agents.get agentID with
  | none => rfl
  | some p => exact pendingOf_modifyAt_of_pending_eq s p a _ (fun _ => rfl)

theorem pendingOf_HandleIncoming (s : State) (msg : Message) (now : Time) (a : Nat) :
    (Registry.HandleIncomingFromAgent s msg now).1.pendingOf a = s.pendingOf a := by
  have ht := pendingOf_Touch s msg.AgentID now a
  unfold Registry.HandleIncomingFromAgent
  simp only
  split
  · exact ht
  · split
    · exact ht
    · split
      · exact ht
      · split
        · exact ht
        · exact ht

theorem pendingOf_run (s : State) (e : Event) (a : Nat) :
    (Event.run s e).pendingOf a = s.pendingOf a := by
  cases e with
  | register agentID servers c now =>
    simp only [Event.run, Registry.RegisterAgent, State.pendingOf]
    rcases Nat.lt_trichotomy a s.agentConns.length with h | h | h
    · rw [List.getElem?_append_left h]
    · subst h
      rw [List.getElem?_concat_length]
      simp
    · rw [List.getElem?_eq_none (by simp; omega), List.getElem?_eq_none (by omega)]
  | update agentID servers now =>
    simp only [Event.run, Registry.UpdateAgentServers]
    cases s.agents.get agentID with
    | none => rfl
    | some p => exact pendingOf_modifyAt_of_pending_eq s p a _ (fun _ => rfl)
  | remove agentID => rfl
  | touch agentID now => exact pendingOf_Touch s agentID now a
  | incoming msg now => exact pendingOf_HandleIncoming s msg now a

theorem pendingOf_runEvents (es : List Event) (s : State) (a : Nat) :
    (runEvents s es).pendingOf a = s.pendingOf a := by
  induction es generalizing s with
  | nil => rfl
  | cons e rest ih =>
    simp only [runEvents, List.foldl_cons] at ih ⊢
    rw [ih, pendingOf_run]

theorem pendingOf_cleanup (s : State) (call : Call) :
    (Registry.SendCommand.cleanup s call).pendingOf call.a =
      (s.pendingOf call.a).delete call.reqID := by
  unfold Registry.SendCommand.cleanup
  rw [pendingOf_modifyAt]
  simp only [if_true, State.pendingOf]
  cases s.agentConns[call.a]? <;> simp [GoMap.delete]

theorem pendingOf_send (s : State) (call : Call) (a : Nat) :
    (Registry.SendCommand.send s call).1.pendingOf a = s.pendingOf a := by
  unfold Registry.SendCommand.send
  split
  · rfl
  · split <;> rfl

theorem pendingOf_select (s s' : State) (call : Call) (ctxDone preferCtx : Bool)
    (res : Except String Message) (a : Nat)
    (h : Registry.SendCommand.select s call ctxDone preferCtx = some (s', res)) :
    s'.pendingOf a = s.pendingOf a := by
  unfold Registry.SendCommand.select at h
  split at h
  · split_ifs at h
    · cases h; rfl
    · cases h; rfl
  · split_ifs at h
    cases h; rfl

end server

namespace server

open protocol time

theorem pendingOf_enter (s : State) (a : Nat) (reqID : String) (ch : Nat) (k : String)
    (hk : k ≠ reqID) :
    (State.pendingOf { s with
        chans := s.chans ++ [Chan.make]
        agentConns := modifyAt s.agentConns a (fun ac =>
          { ac with pending := ac.pending.set reqID ch }) } a).get k = (s.pendingOf a).get k := by
  have h := pendingOf_modifyAt { s with chans := s.chans ++ [Chan.make] } a a
    (fun ac => { ac with pending := ac.pending.set reqID ch })
  simp only [if_true] at h
  rw [h]
  unfold State.pendingOf
  cases s.agentConns[a]? with
  | none => rfl
  | some ac => exact GoMap.get_set_other ac.pending reqID k ch hk

theorem pendingOf_serve (s1 : State) (call : Call) (sch : Schedule)
    (res : Except String Message)
    (hret : (Registry.SendCommand.serve s1 call sch).2 = some res) :
    (Registry.SendCommand.serve s1 call sch).1.pendingOf call.a =
      (s1.pendingOf call.a).delete call.reqID := by
  unfold Registry.SendCommand.serve at hret ⊢
  cases hs : Registry.SendCommand.send (runEvents s1 sch.beforeSend) call with
  | mk s2 r =>
    have h2 : s2.pendingOf call.a = s1.pendingOf call.a := by
      have := pendingOf_send (runEvents s1 sch.beforeSend) call call.a
      rw [hs] at this
      rw [this, pendingOf_runEvents]
    rw [hs] at hret
    cases r with
    | some e =>
      simp only
      rw [pendingOf_cleanup, pendingOf_runEvents, h2]
    | none =>
      simp only at hret ⊢
      cases hsel : Registry.SendCommand.select (runEvents s2 sch.whileWaiting) call sch.ctxDone
          sch.preferCtx with
      | none =>
        rw [hsel] at hret
        simp at hret
      | some r3 =>
        obtain ⟨s3, r⟩ := r3
        simp only
        rw [pendingOf_cleanup, pendingOf_runEvents, pendingOf_select _ _ _ _ _ _ _ hsel,
          pendingOf_runEvents, h2]

/-- C2: when `SendCommand` on a registered agent has returned, whatever it returned (a
response, the error of the link, the timeout error) and whatever the listener did meanwhile,
the pending table of the agent connection it used holds no entry under the request id of the
call, and holds under every other id what it held before the call. A call that fails to
build its request returns before it touches the table. -/
theorem SendCommand_clears_pending (s : State) (agentID typ : String)
    (payloadJSON : Except String String) (reqID : String) (now : Time) (sch : Schedule)
    (a : Nat) (res : Except String Message)
    (hreg : Registry.get s agentID = some a)
    (hret : (Registry.SendCommand s agentID typ payloadJSON reqID now sch).2 = some res) :
    ((∃ p, payloadJSON = .ok p) →
      ((Registry.SendCommand s agentID typ payloadJSON reqID now sch).1.pendingOf a).get reqID
        = none) ∧
    (∀ k, k ≠ reqID →
      ((Registry.SendCommand s agentID typ payloadJSON reqID now sch).1.pendingOf a).get k
        = (s.pendingOf a).get k) ∧
    (∀ e, payloadJSON = .error e →
      (Registry.SendCommand s agentID typ payloadJSON reqID now sch).1 = s ∧ res = .error e) := by
  cases payloadJSON with
  | error e =>
    have hrun : Registry.SendCommand s agentID typ (.error e) reqID now sch
        = (s, some (.error e)) := by
      simp only [Registry.SendCommand, Registry.SendCommand.enter, hreg, NewRequest]
    rw [hrun] at hret ⊢
    refine ⟨fun h => ?_, fun k _ => rfl, fun e2 he => ?_⟩
    · obtain ⟨p, hp⟩ := h
      cases hp
    · cases he
      simp only [Option.some.injEq] at hret
      exact ⟨rfl, hret.symm⟩
  | ok p =>
    have hrun : Registry.SendCommand s agentID typ (.ok p) reqID now sch
        = Registry.SendCommand.serve
            { s with
              chans := s.chans ++ [Chan.make]
              agentConns := modifyAt s.agentConns a (fun ac =>
                { ac with pending := ac.pending.set reqID s.chans.length }) }
            ⟨a, reqID, s.chans.length, ⟨KindRequest, reqID, agentID, typ, p, "", now⟩⟩ sch := by
      simp only [Registry.SendCommand, Registry.SendCommand.enter, hreg, NewRequest]
    rw [hrun] at hret ⊢
    have hp := pendingOf_serve _ _ sch res hret
    simp only at hp
    rw [hp]
    refine ⟨fun _ => GoMap.get_delete_same _ _, fun k hk => ?_, fun e he => by cases he⟩
    rw [GoMap.get_delete_other _ _ _ hk]
    exact pendingOf_enter s a reqID s.chans.length k hk

end server

namespace server

open protocol time

/-- C2, witness: agent `a` answers the request `r1`; the call returns the response and the
pending table of the agent holds no entry under `r1`. -/
theorem SendCommand_clears_pending_witness :
    Registry.get Scenario.oneAgent "a" = some 0 ∧
    (Registry.SendCommand Scenario.oneAgent "a" "status" (.ok Scenario.target) "r1" ⟨2⟩
      Scenario.responseArrives).2 = some (.ok Scenario.response) ∧
    ((Registry.SendCommand Scenario.oneAgent "a" "status" (.ok Scenario.target) "r1" ⟨2⟩
      Scenario.responseArrives).1.pendingOf 0).get "r1" = none :=
  ⟨by decide, by decide,
    (SendCommand_clears_pending Scenario.oneAgent "a" "status" (.ok Scenario.target) "r1" ⟨2⟩
      Scenario.responseArrives 0 (.ok Scenario.response) (by decide) (by decide)).1 ⟨_, rfl⟩⟩

set_option maxRecDepth 100000 in
/-- C7, the run that fails: agent `a` registers on a first link and again on a second one;
the registry then serves `a` on the second link. When the receive loop of the first link
fails, it removes the entry of `a`: `GetAgent` no longer finds the agent and `SendCommand`
fails with "agent not connected", although the second link is open. -/
theorem reconnect_then_old_link_failure :
    (Registry.GetAgent Scenario.reconnected "a" = some ⟨"a", [], ⟨2⟩, ⟨2⟩⟩ ∧
      (Scenario.reconnected.agentConns[1]?).map (fun ac => ac.conn) = some 1 ∧
      Registry.get Scenario.reconnected "a" = some 1) ∧
    (AgentListener.handleConn.iterate Scenario.reconnected 0 "a" (.ok []) ⟨3⟩).2
      = LoopStatus.stopped ∧
    (Scenario.oldLinkFailed.links[1]?).map (fun l => l.closed) = some false ∧
    Registry.GetAgent Scenario.oldLinkFailed "a" = none ∧
    Registry.SendCommand Scenario.oldLinkFailed "a" "status" (.ok Scenario.target) "r2" ⟨4⟩
      Scenario.responseArrives = (Scenario.oldLinkFailed, some (.error "agent not connected: a")) := by
  decide

/-- C9, the run that fails: the request `r1` is pending and its sink holds the response that
the listener delivered and that the waiting `SendCommand` has not yet received. A second
response with the same id finds the sink under `r1` and the listener blocks in `ch <- msg`.
When the `SendCommand` returns through its context, the second message stays parked on a
channel that nothing reads. -/
theorem duplicate_response_blocks :
    (Registry.HandleIncomingFromAgent Scenario.waiting Scenario.response ⟨3⟩).2
      = Progress.returned ∧
    (Scenario.answered.pendingOf 0).get "r1" = some 0 ∧
    Scenario.answered.chans[0]? = some ⟨[Scenario.response], []⟩ ∧
    (Registry.HandleIncomingFromAgent Scenario.answered Scenario.response ⟨4⟩).2
      = Progress.blocked ∧
    (Registry.SendCommand Scenario.oneAgent "a" "status" (.ok Scenario.target) "r1" ⟨2⟩
      Scenario.twoResponsesThenTimeout).2 = some (.error "timeout waiting for agent response") ∧
    (Registry.SendCommand Scenario.oneAgent "a" "status" (.ok Scenario.target) "r1" ⟨2⟩
      Scenario.twoResponsesThenTimeout).1.chans[0]?
      = some ⟨[Scenario.response], [Scenario.response]⟩ := by
  decide

end server

namespace server

open protocol time

theorem Touch_agents (s : State) (agentID : String) (now : Time) :
    (Registry.Touch s agentID now).agents = s.agents ∧
    (Registry.Touch s agentID now).chans = s.chans ∧
    (Registry.Touch s agentID now).links = s.links := by
  unfold Registry.Touch
  cases s.agents.get agentID <;> exact ⟨rfl, rfl, rfl⟩

/-- C10: `HandleIncomingFromAgent` changes neither the agents map, nor a link, nor a
pending table. A sink changes only when the message has kind response and the sink is the
one registered under the id of the message in the pending table of the agent that the
message names; that sink then takes the message. A message of another kind, or a response
whose id is not pending, does nothing but update the last-seen time. -/
theorem HandleIncoming_delivers_only_to_pending (s : State) (msg : Message) (now : Time) :
    ((Registry.HandleIncomingFromAgent s msg now).1.agents = s.agents ∧
      (Registry.HandleIncomingFromAgent s msg now).1.links = s.links ∧
      ∀ a, (Registry.HandleIncomingFromAgent s msg now).1.pendingOf a = s.pendingOf a) ∧
    (∀ ch, (Registry.HandleIncomingFromAgent s msg now).1.chans[ch]? ≠ s.chans[ch]? →
      msg.Kind = KindResponse ∧
      ∃ a, Registry.get s msg.AgentID = some a ∧ (s.pendingOf a).get msg.ID = some ch) ∧
    (∀ a ch c, msg.Kind = KindResponse → Registry.get s msg.AgentID = some a →
      (s.pendingOf a).get msg.ID = some ch → s.chans[ch]? = some c →
      (Registry.HandleIncomingFromAgent s msg now).1.chans[ch]? = some (c.send msg).1 ∧
      ((Registry.HandleIncomingFromAgent s msg now).2 = Progress.returned ↔ c.buf = [])) ∧
    ((msg.Kind ≠ KindResponse ∨
        ∀ a, Registry.get s msg.AgentID = some a → (s.pendingOf a).get msg.ID = none) →
      Registry.HandleIncomingFromAgent s msg now
        = (Registry.Touch s msg.AgentID now, Progress.returned)) := by
  obtain ⟨hta, htc, htl⟩ := Touch_agents s msg.AgentID now
  have htp := pendingOf_Touch s msg.AgentID now
  have hget : Registry.get (Registry.Touch s msg.AgentID now) msg.AgentID
      = Registry.get s msg.AgentID := by
    unfold Registry.get
    rw [hta]
  refine ⟨⟨?_, ?_, fun a => pendingOf_HandleIncoming s msg now a⟩, ?_, ?_, ?_⟩
  · unfold Registry.HandleIncomingFromAgent
    simp only
    split
    · exact hta
    · split
      · exact hta
      · split
        · exact hta
        · split <;> exact hta
  · unfold Registry.HandleIncomingFromAgent
    simp only
    split
    · exact htl
    · split
      · exact htl
      · split
        · exact htl
        · split <;> exact htl
  · intro ch hch
    unfold Registry.HandleIncomingFromAgent at hch
    simp only [hget, htp, htc] at hch
    cases hg : Registry.get s msg.AgentID with
    | none =>
      rw [hg] at hch
      simp only [htc] at hch
      exact absurd rfl hch
    | some a =>
      rw [hg] at hch
      simp only at hch
      by_cases hk : msg.Kind = KindResponse
      · simp only [hk, ne_eq, not_true_eq_false, if_false] at hch
        cases hp : (s.pendingOf a).get msg.ID with
        | none =>
          rw [hp] at hch
          simp only [htc] at hch
          exact absurd trivial hch
        | some ch0 =>
          rw [hp] at hch
          simp only at hch
          cases hc : s.chans[ch0]? with
          | none =>
            rw [hc] at hch
            simp only [htc] at hch
            exact absurd trivial hch
          | some c =>
            rw [hc] at hch
            simp only at hch
            by_cases he : ch = ch0
            · subst he
              exact ⟨hk, a, rfl, hp⟩
            · have hne : ch0 ≠ ch := fun e => he e.symm
              rw [List.getElem?_set_ne hne] at hch
              exact absurd rfl hch
      · simp only [ne_eq, hk, not_false_eq_true, if_true, htc] at hch
        exact absurd trivial hch
  · intro a ch c hk hg hp hc
    unfold Registry.HandleIncomingFromAgent
    simp only [hget, htp, htc, hg, hk, ne_eq, not_true_eq_false, if_false, hp, hc]
    have hlt : ch < s.chans.length := by
      by_contra hlt
      have := @List.getElem?_eq_none _ s.chans ch (Nat.le_of_not_lt hlt)
      rw [this] at hc
      cases hc
    refine ⟨by simp [List.getElem?_set, hlt], ?_⟩
    unfold Chan.send Chan.cap
    cases hb : c.buf with
    | nil => simp
    | cons m rest => simp
  · intro h
    unfold Registry.HandleIncomingFromAgent
    simp only [hget, htp]
    cases hg : Registry.get s msg.AgentID with
    | none => rfl
    | some a =>
      simp only
      rcases h with hk | hn
      · simp [hk]
      · by_cases hk : msg.Kind = KindResponse
        · simp only [hk, ne_eq, not_true_eq_false, if_false, hn a hg]
        · simp [hk]

end server

namespace manager

open time

theorem RunningIsCurrent_init : RunningIsCurrent NewManager := by
  intro ptr p h _
  simp [NewManager] at h

theorem RunningIsCurrent_Start (m : Manager) (cfg : ServerConfig) (logPath : String)
    (out : SpawnOutcome) (h : RunningIsCurrent m) :
    RunningIsCurrent (m.Start cfg logPath out).1 := by
  unfold Manager.Start
  cases hf : (m.lookup cfg.Name).filter (fun p => p.state.Running) with
  | some p => exact h
  | none =>
    cases out with
    | logOpenFailed err => exact h
    | stdinPipeFailed err => exact h
    | startFailed err => exact h
    | started pid now =>
      intro ptr p hp hrun
      simp only at hp ⊢
      rcases Nat.lt_trichotomy ptr m.heap.length with hlt | heq | hgt
      · rw [List.getElem?_append_left hlt] at hp
        have hcur := h ptr p hp hrun
        have hne : p.state.Name ≠ cfg.Name := by
          intro hname
          have hl : m.lookup cfg.Name = some p := by
            unfold Manager.lookup
            rw [← hname, hcur]
            exact hp
          rw [hl] at hf
          simp [Option.filter, hrun] at hf
        rw [GoMap.get_set_other _ _ _ _ hne]
        exact hcur
      · subst heq
        rw [List.getElem?_concat_length] at hp
        cases hp
        exact GoMap.get_set_same _ _ _
      · rw [List.getElem?_eq_none (by simp; omega)] at hp
        cases hp

theorem RunningIsCurrent_reap (m : Manager) (ptr0 : Nat) (w : WaitResult) (now : Time)
    (h : RunningIsCurrent m) : RunningIsCurrent (m.reap ptr0 w now) := by
  intro ptr p hp hrun
  simp only [Manager.reap, getElem?_modifyAt] at hp ⊢
  by_cases he : ptr = ptr0
  · simp only [he, if_true] at hp
    cases hq : m.heap[ptr0]? with
    | none => simp [hq] at hp
    | some q =>
      simp only [hq, Option.map_some', Option.some.injEq] at hp
      subst hp
      simp at hrun
  · simp only [he, if_false] at hp
    exact h ptr p hp hrun

theorem RunningIsCurrent_of_Reachable (m : Manager) (h : Reachable m) : RunningIsCurrent m := by
  induction h with
  | init => exact RunningIsCurrent_init
  | step m m' _ hs ih =>
    cases hs with
    | start cfg logPath out => exact RunningIsCurrent_Start m cfg logPath out ih
    | reap ptr w now _ => exact RunningIsCurrent_reap m ptr w now ih

/-- C5: `Start` on a name whose record is running fails with the already-running error,
returns the state of that record and leaves the manager as it was; and in every state that
`Start` and reap events reach, two running records with the same name are one record. -/
theorem Start_running_rejected_and_unique :
    (∀ (m : Manager) (cfg : ServerConfig) (logPath : String) (out : SpawnOutcome)
        (p : managedProc),
      m.lookup cfg.Name = some p → p.state.Running = true →
      m.Start cfg logPath out =
        (m, p.state,
          some (cfg.Name ++ " already running (pid=" ++ toString p.state.PID ++ ")"))) ∧
    (∀ (m : Manager), Reachable m →
      ∀ (ptr1 ptr2 : Nat) (p1 p2 : managedProc),
        m.heap[ptr1]? = some p1 → m.heap[ptr2]? = some p2 →
        p1.state.Running = true → p2.state.Running = true →
        p1.state.Name = p2.state.Name → ptr1 = ptr2) := by
  constructor
  · intro m cfg logPath out p hl hrun
    unfold Manager.Start
    simp [hl, Option.filter, hrun]
  · intro m hm ptr1 ptr2 p1 p2 h1 h2 r1 r2 hn
    have hinv := RunningIsCurrent_of_Reachable m hm
    have e1 := hinv ptr1 p1 h1 r1
    have e2 := hinv ptr2 p2 h2 r2
    rw [hn] at e1
    rw [e1] at e2
    exact Option.some.inj e2

end manager

namespace GoMap

variable {V : Type}

theorem get_filter_key (m : GoMap V) (f : String → Bool) (k : String) (hk : f k = true) :
    get (m.filter (fun e => f e.1)) k = get m k := by
  induction m with
  | nil => rfl
  | cons p rest ih =>
    obtain ⟨k', v'⟩ := p
    by_cases hf : f k' = true
    · simp only [List.filter_cons, hf, if_true, get, ih]
    · have hne : ¬ k' = k := by
        intro e
        rw [e] at hf
        exact hf hk
      simp [List.filter_cons, hf, get, hne, ih]

end GoMap

namespace instances

open time

theorem mkdirAll_files (fs : FS) (path : String) : (fs.mkdirAll path).files = fs.files := by
  unfold FS.mkdirAll
  split_ifs <;> rfl

theorem EnsureDirs_files (s : Service) (fs : FS) (name : String) (f1 f2 : Option String) :
    (s.EnsureDirs fs name f1 f2).1.files = fs.files := by
  unfold Service.EnsureDirs
  cases f1 with
  | some e => rfl
  | none =>
    cases f2 with
    | some e => simp [mkdirAll_files]
    | none => simp [mkdirAll_files]

theorem Save_ok_files (st : Store) (fs : FS) (instances : GoMap config.Instance)
    (fault : Option SaveFault) (h : (st.Save fs instances fault).2 = none) :
    (st.Save fs instances fault).1.files.get st.Path = some (some instances) := by
  cases fault with
  | some f => cases f <;> simp [Store.Save] at h
  | none =>
    simp only [Store.Save]
    exact GoMap.get_set_same _ _ _

/-- C3: when `CreateInstance` reaches its persist step and `Store.Save` fails, the call
returns the error of `Save` and the service, its instance map included, is what it was
before the call. -/
theorem CreateInstance_rollback (s : Service) (fs : FS) (name templateName : String)
    (enabled : Bool) (params : Option (GoMap String)) (env : CreateEnv) (st : Store)
    (err : String)
    (hstore : s.Store = some st)
    (hname : name ≠ "") (htpl : templateName ≠ "")
    (hknown : s.Templates.has templateName = true)
    (hfresh : s.Instances.has name = false)
    (hfail : (st.Save fs (s.Instances.set name ⟨templateName, enabled, params.getD []⟩)
      env.save).2 = some err) :
    (s.CreateInstance fs name templateName enabled params env).2.2 = some err ∧
    (s.CreateInstance fs name templateName enabled params env).1.Instances = s.Instances ∧
    (s.CreateInstance fs name templateName enabled params env).1 = s := by
  have hnone : s.Instances.get name = none := by
    unfold GoMap.has at hfresh
    cases hg : s.Instances.get name with
    | none => rfl
    | some v => simp [hg] at hfresh
  have hrun : s.CreateInstance fs name templateName enabled params env =
      (s, (st.Save fs (s.Instances.set name ⟨templateName, enabled, params.getD []⟩)
        env.save).1, some err) := by
    unfold Service.CreateInstance
    simp only [hname, htpl, hknown, hfresh, hstore, if_false, Bool.not_true, Bool.false_eq_true]
    cases hs : st.Save fs (s.Instances.set name ⟨templateName, enabled, params.getD []⟩)
        env.save with
    | mk fs1 r =>
      rw [hs] at hfail
      simp only at hfail
      subst hfail
      simp only [GoMap.delete_set_of_get_none _ _ _ hnone]
      cases s
      cases hstore
      rfl
  rw [hrun]
  exact ⟨rfl, rfl, rfl⟩

/-- C4 (as amended): on a service that has a store, when `CreateInstance` or
`DeleteInstance` returns success, the file of the store holds the catalogue that equals the
instance map of the service at that moment; for a `DeleteInstance` with `deleteData`, this is
stated when the file of the store is not below the directory that the call removes. -/
theorem success_persists (s : Service) (fs : FS) (st : Store) (hstore : s.Store = some st) :
    (∀ (name templateName : String) (enabled : Bool) (params : Option (GoMap String))
        (env : CreateEnv),
      (s.CreateInstance fs name templateName enabled params env).2.2 = none →
      (s.CreateInstance fs name templateName enabled params env).2.1.files.get st.Path
        = some (some (s.CreateInstance fs name templateName enabled params env).1.Instances)) ∧
    (∀ (name : String) (force deleteData : Bool) (env : DeleteEnv),
      (s.DeleteInstance fs name force deleteData env).2.2 = none →
      (deleteData = true → below (s.InstanceDir name) st.Path = false) →
      (s.DeleteInstance fs name force deleteData env).2.1.files.get st.Path
        = some (some (s.DeleteInstance fs name force deleteData env).1.Instances)) := by
  constructor
  · intro name templateName enabled params env hok
    unfold Service.CreateInstance at hok ⊢
    split_ifs at hok ⊢ with h1 h2 h3 h4
    simp only [hstore] at hok ⊢
    cases hs : st.Save fs (s.Instances.set name ⟨templateName, enabled, params.getD []⟩)
        env.save with
    | mk fs1 r =>
      rw [hs] at hok
      cases r with
      | some e => simp at hok
      | none =>
        simp only [EnsureDirs_files]
        have := Save_ok_files st fs (s.Instances.set name ⟨templateName, enabled, params.getD []⟩)
          env.save (by rw [hs])
        rw [hs] at this
        exact this
  · intro name force deleteData env hok hdir
    unfold Service.DeleteInstance at hok ⊢
    by_cases h1 : (!s.Instances.has name) = true
    · simp [h1] at hok
    by_cases h2 : ((s.Mgr.Status name).Running && !force) = true
    · simp [h1, h2] at hok
    simp only [h1, h2, if_false, hstore, Bool.false_eq_true] at hok ⊢
    have hsave := Save_ok_files st fs (s.Instances.delete name) env.save
    cases hs : st.Save fs (s.Instances.delete name) env.save with
    | mk fs1 r =>
      rw [hs] at hok hsave
      cases r with
      | some e => simp at hok
      | none =>
        simp only at hok hsave ⊢
        by_cases h3 : (deleteData && env.removeAll.isNone) = true
        · simp only [h3, if_true]
          simp only [Bool.and_eq_true] at h3
          have hb := hdir h3.1
          simp only [FS.removeAll]
          have hkey := GoMap.get_filter_key fs1.files
            (fun k => !below (Service.InstanceDir s name) k) st.Path (by simp [hb])
          simp only [Service.InstanceDir] at hkey ⊢
          rw [hkey]
          exact hsave trivial
        · simp only [h3, if_false, Bool.false_eq_true]
          exact hsave trivial

end instances

namespace agent

open time

theorem nextBackoff_min (x : Int) :
    nextBackoff (min x maxBackoff) = min (2 * x) maxBackoff := by
  unfold nextBackoff maxBackoff Second
  simp only [min_def]
  split_ifs <;> first | rfl | linarith

theorem sleeps_eq (outs : List ConnOutcome) (k : Nat) :
    runAgentLoop.sleeps (min ((2 : Int) ^ k * Second) maxBackoff) outs =
      (List.range outs.length).map (fun n => min ((2 : Int) ^ (k + n) * Second) maxBackoff) := by
  induction outs generalizing k with
  | nil => rfl
  | cons o rest ih =>
    simp only [runAgentLoop.sleeps, List.length_cons, List.range_succ_eq_map, List.map_cons,
      List.map_map, Nat.add_zero]
    rw [nextBackoff_min]
    have h2 : 2 * ((2 : Int) ^ k * Second) = 2 ^ (k + 1) * Second := by ring
    rw [h2, ih (k + 1)]
    congr 1
    apply List.map_congr_left
    intro n _
    simp only [Function.comp]
    have e : k + Nat.succ n = k + 1 + n := by omega
    rw [e]

/-- C8 (as amended): the sleep of iteration `n` of the reconnect loop is 1s doubled `n` times
and capped at 30s, whatever the iterations did, registered or not; so the first sleep is 1s and
every sleep is between 1s and 30s. -/
theorem runAgentLoop_backoff (outs : List ConnOutcome) :
    runAgentLoop outs =
      (List.range outs.length).map (fun n => min ((2 : Int) ^ n * Second) maxBackoff) ∧
    (∀ o rest, runAgentLoop (o :: rest) = 1 * Second :: runAgentLoop.sleeps (2 * Second) rest) ∧
    (∀ d, d ∈ runAgentLoop outs → 1 * Second ≤ d ∧ d ≤ 30 * Second) := by
  have hmain : runAgentLoop outs =
      (List.range outs.length).map (fun n => min ((2 : Int) ^ n * Second) maxBackoff) := by
    have h := sleeps_eq outs 0
    have h1 : min ((2 : Int) ^ 0 * Second) maxBackoff = 1 * Second := by
      unfold maxBackoff Second
      decide
    rw [h1] at h
    unfold runAgentLoop
    rw [h]
    simp
  refine ⟨hmain, fun o rest => ?_, fun d hd => ?_⟩
  · unfold runAgentLoop
    simp only [runAgentLoop.sleeps]
    congr 2
  · rw [hmain] at hd
    simp only [List.mem_map, List.mem_range] at hd
    obtain ⟨n, _, rfl⟩ := hd
    have hp : (1 : Int) ≤ 2 ^ n := one_le_pow₀ (by decide)
    have hs : (0 : Int) ≤ Second := by decide
    have hx : 1 * Second ≤ (2 : Int) ^ n * Second := mul_le_mul_of_nonneg_right hp hs
    generalize (2 : Int) ^ n * Second = x at hx
    unfold maxBackoff
    unfold Second at hx ⊢
    simp only [min_def]
    split_ifs <;> constructor <;> linarith

/-- C8, counterexample: the agent registers in the first iteration, and the loop then sleeps
2s, not 1s: the backoff is not reset. -/
theorem runAgentLoop_no_reset :
    (ConnOutcome.served "EOF").registered = true ∧
    runAgentLoop [ConnOutcome.served "EOF", ConnOutcome.dialFailed "connection refused"]
      = [1 * Second, 2 * Second] ∧
    (runAgentLoop [ConnOutcome.served "EOF", ConnOutcome.dialFailed "connection refused"])[1]?
      ≠ some (1 * Second) := by
  decide

end agent

namespace instances

/-- C3, witness: the write of the temporary file fails while `i1` is created; the call
returns the error of `Save` and the service is what it was. -/
theorem CreateInstance_rollback_witness :
    (Scenario.withStore.CreateInstance Scenario.emptyFS "i1" "sleeper" true none
      Scenario.diskFull).2.2 = some "write temp instances file: no space left on device" ∧
    (Scenario.withStore.CreateInstance Scenario.emptyFS "i1" "sleeper" true none
      Scenario.diskFull).1.Instances = Scenario.withStore.Instances ∧
    (Scenario.withStore.CreateInstance Scenario.emptyFS "i1" "sleeper" true none
      Scenario.diskFull).1 = Scenario.withStore :=
  CreateInstance_rollback Scenario.withStore Scenario.emptyFS "i1" "sleeper" true none
    Scenario.diskFull Scenario.store "write temp instances file: no space left on device"
    (by decide) (by decide) (by decide) (by decide) (by decide) (by decide)

/-- C4, witness: on the service with a store, `i1` is created; the file of the store then
holds the catalogue with `i1`. -/
theorem success_persists_witness :
    Scenario.withStore.Store = some Scenario.store ∧
    (Scenario.withStore.CreateInstance Scenario.emptyFS "i1" "sleeper" true none
      Scenario.healthy).2.2 = none ∧
    (Scenario.withStore.CreateInstance Scenario.emptyFS "i1" "sleeper" true none
      Scenario.healthy).2.1.files.get Scenario.store.Path
      = some (some (Scenario.withStore.CreateInstance Scenario.emptyFS "i1" "sleeper" true none
          Scenario.healthy).1.Instances) :=
  ⟨by decide, by decide,
    (success_persists Scenario.withStore Scenario.emptyFS Scenario.store (by decide)).1
      "i1" "sleeper" true none Scenario.healthy (by decide)⟩

/-- C4, counterexample: on a service built with a nil store, `CreateInstance` returns
success and the instance map holds `i1`, while no catalogue has been written: the file
system holds no file. -/
theorem success_without_store_persists_nothing :
    Scenario.withoutStore.Store = none ∧
    (Scenario.withoutStore.CreateInstance Scenario.emptyFS "i1" "sleeper" true none
      Scenario.healthy).2.2 = none ∧
    (Scenario.withoutStore.CreateInstance Scenario.emptyFS "i1" "sleeper" true none
      Scenario.healthy).1.Instances = [("i1", ⟨"sleeper", true, []⟩)] ∧
    (Scenario.withoutStore.CreateInstance Scenario.emptyFS "i1" "sleeper" true none
      Scenario.healthy).2.1.files = [] ∧
    ∀ path, (Scenario.withoutStore.CreateInstance Scenario.emptyFS "i1" "sleeper" true none
      Scenario.healthy).2.1.files.get path
      ≠ some (some (Scenario.withoutStore.CreateInstance Scenario.emptyFS "i1" "sleeper" true
          none Scenario.healthy).1.Instances) := by
  refine ⟨by decide, by decide, by decide, by decide, fun path => ?_⟩
  have h : (Scenario.withoutStore.CreateInstance Scenario.emptyFS "i1" "sleeper" true none
      Scenario.healthy).2.1.files = [] := by decide
  rw [h]
  simp [GoMap.get]

/-- A run that the amended C4 leaves out: an instance named `../../configs` has the directory
`configs` as its instance directory, and deleting it with `deleteData` removes the file of
the store with it, although the call returns success. -/
theorem deleteData_can_remove_the_catalogue :
    Scenario.withStore.InstanceDir "../../configs" = "configs" ∧
    (Scenario.withStore.CreateInstance Scenario.emptyFS "../../configs" "sleeper" true none
      Scenario.healthy).2.2 = none ∧
    ((Scenario.withStore.CreateInstance Scenario.emptyFS "../../configs" "sleeper" true none
      Scenario.healthy).1.DeleteInstance
        (Scenario.withStore.CreateInstance Scenario.emptyFS "../../configs" "sleeper" true none
          Scenario.healthy).2.1 "../../configs" false true Scenario.healthyDelete).2.2 = none ∧
    ((Scenario.withStore.CreateInstance Scenario.emptyFS "../../configs" "sleeper" true none
      Scenario.healthy).1.DeleteInstance
        (Scenario.withStore.CreateInstance Scenario.emptyFS "../../configs" "sleeper" true none
          Scenario.healthy).2.1 "../../configs" false true Scenario.healthyDelete).2.1.files.get
      Scenario.store.Path = none := by
  decide

end instances

namespace manager

/-- A state that `Start` and reap events reach and that holds two records of one name, of
which the second runs. -/
theorem restarted_Reachable :
    Reachable Scenario.restarted ∧
    Scenario.restarted.heap.map (fun p => (p.state.Name, p.state.Running))
      = [("mc", false), ("mc", true)] := by
  refine ⟨?_, by decide⟩
  unfold Scenario.restarted
  refine Reachable.step _ _ (Reachable.step _ _ (Reachable.step _ _ Reachable.init
    (Step.start _ Scenario.mc "logs/mc.log" (SpawnOutcome.started 10 ⟨1⟩)))
    (Step.reap _ 0 WaitResult.exited ⟨2⟩ (by decide)))
    (Step.start _ Scenario.mc "logs/mc.log" (SpawnOutcome.started 11 ⟨3⟩))

end manager

namespace GoMap

variable {V : Type}

theorem has_eq_false_iff (m : GoMap V) (k : String) : has m k = false ↔ get m k = none := by
  unfold has
  cases get m k <;> simp

theorem has_eq_true_iff (m : GoMap V) (k : String) : has m k = true ↔ ∃ v, get m k = some v := by
  unfold has
  cases get m k <;> simp

theorem set_of_get_none (m : GoMap V) (k : String) (v : V) (h : get m k = none) :
    set m k v = m ++ [(k, v)] := by
  induction m with
  | nil => rfl
  | cons p rest ih =>
    obtain ⟨k', v'⟩ := p
    by_cases hk : k' = k
    · simp [get, hk] at h
    · simp [get, hk] at h
      simp [set, hk, ih h]

end GoMap

namespace instances

/-- C15 (as amended): `CreateInstance` returns an error and leaves the service and the file
system as they were if the name is empty, the template name is empty or is not a key of the
template map, or the name is already a key of the instance map. Otherwise, when the persist
step does not fail, it returns success and the instance map is the previous map with the one
entry `name -> {template, enabled, params}` added at its end (nil params stored as the empty
map), every other entry unchanged. -/
theorem CreateInstance_spec (s : Service) (fs : FS) (name templateName : String)
    (enabled : Bool) (params : Option (GoMap String)) (env : CreateEnv) :
    ((name = "" ∨ templateName = "" ∨ s.Templates.has templateName = false ∨
        s.Instances.has name = true) →
      (∃ e, (s.CreateInstance fs name templateName enabled params env).2.2 = some e) ∧
      (s.CreateInstance fs name templateName enabled params env).1 = s ∧
      (s.CreateInstance fs name templateName enabled params env).2.1 = fs) ∧
    (name ≠ "" → templateName ≠ "" → s.Templates.has templateName = true →
      s.Instances.has name = false →
      (∀ st, s.Store = some st →
        (st.Save fs (s.Instances.set name ⟨templateName, enabled, params.getD []⟩) env.save).2
          = none) →
      (s.CreateInstance fs name templateName enabled params env).2.2 = none ∧
      (s.CreateInstance fs name templateName enabled params env).1.Instances
        = s.Instances ++ [(name, ⟨templateName, enabled, params.getD []⟩)] ∧
      (s.CreateInstance fs name templateName enabled params env).1.Instances.get name
        = some ⟨templateName, enabled, params.getD []⟩ ∧
      ∀ k, k ≠ name →
        (s.CreateInstance fs name templateName enabled params env).1.Instances.get k
          = s.Instances.get k) := by
  constructor
  · intro h
    unfold Service.CreateInstance
    by_cases h1 : name = ""
    · simp [h1]
    by_cases h2 : templateName = ""
    · simp [h1, h2]
    by_cases h3 : s.Templates.has templateName = false
    · simp [h1, h2, h3]
    by_cases h4 : s.Instances.has name = true
    · simp [h1, h2, h3, h4]
    · rcases h with h | h | h | h
      · exact absurd h h1
      · exact absurd h h2
      · exact absurd h h3
      · exact absurd h h4
  · intro h1 h2 h3 h4 hsave
    have hnone : s.Instances.get name = none := (GoMap.has_eq_false_iff _ _).mp h4
    have hrun : (s.CreateInstance fs name templateName enabled params env).2.2 = none ∧
        (s.CreateInstance fs name templateName enabled params env).1.Instances
          = s.Instances.set name ⟨templateName, enabled, params.getD []⟩ := by
      unfold Service.CreateInstance
      simp only [h1, h2, h3, h4, if_false, Bool.not_true, Bool.false_eq_true]
      cases hst : s.Store with
      | none => exact ⟨rfl, rfl⟩
      | some st =>
        have hs := hsave st hst
        simp only
        cases hsv : st.Save fs (s.Instances.set name ⟨templateName, enabled, params.getD []⟩)
            env.save with
        | mk fs1 r =>
          rw [hsv] at hs
          simp only at hs
          subst hs
          exact ⟨rfl, rfl⟩
    refine ⟨hrun.1, ?_, ?_, ?_⟩
    · rw [hrun.2, GoMap.set_of_get_none _ _ _ hnone]
    · rw [hrun.2]
      exact GoMap.get_set_same _ _ _
    · intro k hk
      rw [hrun.2]
      exact GoMap.get_set_other _ _ _ _ hk

/-- The result of the persist step of `DeleteInstance`. -/
theorem DeleteInstance_passed (s : Service) (fs : FS) (name : String) (force deleteData : Bool)
    (env : DeleteEnv) (hhas : s.Instances.has name = true)
    (hchk : ((s.Mgr.Status name).Running && !force) = false) :
    (s.DeleteInstance fs name force deleteData env).1 =
      { s with
        Mgr := if (s.Mgr.Status name).Running then (s.Mgr.Stop name env.stop).1 else s.Mgr
        Instances := s.Instances.delete name } ∧
    (s.DeleteInstance fs name force deleteData env).2.2 =
      (match s.Store with
        | some store => (store.Save fs (s.Instances.delete name) env.save).2
        | none => none) := by
  unfold Service.DeleteInstance
  simp only [hhas, hchk, Bool.not_true, Bool.false_eq_true, if_false]
  cases hst : s.Store with
  | none =>
    simp only
    split_ifs <;> exact ⟨rfl, rfl⟩
  | some store =>
    simp only
    cases hsv : store.Save fs (s.Instances.delete name) env.save with
    | mk fs1 r =>
      cases r with
      | some e => exact ⟨rfl, rfl⟩
      | none =>
        simp only
        split_ifs <;> exact ⟨rfl, rfl⟩

/-- C16: `DeleteInstance` fails and leaves the service and the file system as they were when
the name is not in the catalogue, and when the instance is running and `force` is false. When
the instance is running and `force` is true, the supervisor is the one that `Stop` leaves,
the instance is removed from the map, and what the call returns is the outcome of the persist
step alone, whatever `Stop` returned. -/
theorem DeleteInstance_checks (s : Service) (fs : FS) (name : String) (force deleteData : Bool)
    (env : DeleteEnv) :
    (s.Instances.has name = false →
      s.DeleteInstance fs name force deleteData env
        = (s, fs, some ("unknown instance: " ++ name))) ∧
    (s.Instances.has name = true → (s.Mgr.Status name).Running = true → force = false →
      s.DeleteInstance fs name force deleteData env
        = (s, fs, some ("instance " ++ strconv.Quote name ++
            " is running; use force to stop it before delete"))) ∧
    (s.Instances.has name = true → (s.Mgr.Status name).Running = true → force = true →
      (s.DeleteInstance fs name force deleteData env).1.Mgr = (s.Mgr.Stop name env.stop).1 ∧
      (s.DeleteInstance fs name force deleteData env).1.Instances = s.Instances.delete name ∧
      (s.DeleteInstance fs name force deleteData env).1.Instances.get name = none ∧
      (s.DeleteInstance fs name force deleteData env).2.2 =
        (match s.Store with
          | some store => (store.Save fs (s.Instances.delete name) env.save).2
          | none => none)) := by
  refine ⟨fun h => ?_, fun h hr hf => ?_, fun h hr hf => ?_⟩
  · unfold Service.DeleteInstance
    simp [h]
  · unfold Service.DeleteInstance
    simp [h, hr, hf]
  · have hp := DeleteInstance_passed s fs name force deleteData env h (by simp [hf])
    rw [hp.1, hp.2]
    simp only [hr, if_true]
    exact ⟨trivial, trivial, GoMap.get_delete_same _ _, trivial⟩

/-- C17: when `DeleteInstance` passes its checks and `Store.Save` fails, the call returns the
error of `Save`, and the instance is absent from the instance map afterwards while every
other entry is what it was. -/
theorem DeleteInstance_no_rollback (s : Service) (fs : FS) (name : String)
    (force deleteData : Bool) (env : DeleteEnv) (st : Store) (err : String)
    (hhas : s.Instances.has name = true)
    (hchk : (s.Mgr.Status name).Running = true → force = true)
    (hstore : s.Store = some st)
    (hfail : (st.Save fs (s.Instances.delete name) env.save).2 = some err) :
    (s.DeleteInstance fs name force deleteData env).2.2 = some err ∧
    (s.DeleteInstance fs name force deleteData env).1.Instances = s.Instances.delete name ∧
    (s.DeleteInstance fs name force deleteData env).1.Instances.get name = none ∧
    ∀ k, k ≠ name →
      (s.DeleteInstance fs name force deleteData env).1.Instances.get k = s.Instances.get k := by
  have hc : ((s.Mgr.Status name).Running && !force) = false := by
    cases hr : (s.Mgr.Status name).Running with
    | false => rfl
    | true => simp [hchk hr]
  have hp := DeleteInstance_passed s fs name force deleteData env hhas hc
  rw [hp.1, hp.2]
  simp only [hstore, hfail]
  exact ⟨trivial, trivial, GoMap.get_delete_same _ _,
    fun k hk => GoMap.get_delete_other _ _ _ hk⟩

end instances

namespace GoMap

variable {V : Type}

theorem get_eq_none_of_not_mem_keys (m : GoMap V) (k : String) (h : k ∉ keys m) :
    get m k = none := by
  induction m with
  | nil => rfl
  | cons p rest ih =>
    obtain ⟨k', v'⟩ := p
    simp only [keys, List.map_cons, List.mem_cons, not_or] at h
    have hne : ¬ k' = k := fun e => h.1 e.symm
    simp only [get, hne, if_false]
    exact ih h.2

theorem get_foldl_set (params acc : GoMap V) (k : String) (h : (keys params).Nodup) :
    get (params.foldl (fun ctx kv => set ctx kv.1 kv.2) acc) k =
      match get params k with
      | some v => some v
      | none => get acc k := by
  induction params generalizing acc with
  | nil => rfl
  | cons p rest ih =>
    obtain ⟨k', v'⟩ := p
    simp only [keys, List.map_cons, List.nodup_cons] at h
    simp only [List.foldl_cons]
    rw [ih (set acc k' v') h.2]
    by_cases hk : k' = k
    · subst hk
      have hn : get rest k' = none := get_eq_none_of_not_mem_keys rest k' h.1
      simp [get, hn, get_set_same]
    · have hne : k ≠ k' := fun e => hk e.symm
      simp only [get, hk, if_false, get_set_other _ _ _ _ hne]

end GoMap

namespace instances

theorem renderAll_ok (lib : String → GoMap String → Except String String) (ctx : GoMap String)
    (l rs : List String) (h : renderAll lib ctx l = .ok rs) :
    List.Forall₂ (fun a r => render lib a ctx = .ok r) l rs := by
  induction l generalizing rs with
  | nil =>
    simp only [renderAll, Except.ok.injEq] at h
    subst h
    exact List.Forall₂.nil
  | cons a rest ih =>
    simp only [renderAll] at h
    cases ha : render lib a ctx with
    | error e => simp [ha] at h
    | ok r =>
      simp only [ha] at h
      cases hr : renderAll lib ctx rest with
      | error e => simp [hr] at h
      | ok rs' =>
        simp only [hr, Except.ok.injEq] at h
        subst h
        exact List.Forall₂.cons ha (ih rs' hr)

/-- What a successful `ResolveConfig` went through. -/
theorem ResolveConfig_ok (s : Service) (fs : FS) (name : String) (env : ResolveEnv)
    (cfg : manager.ServerConfig) (logPath : String)
    (h : (s.ResolveConfig fs name env).2 = .ok (cfg, logPath)) :
    ∃ inst tpl,
      s.Instances.get name = some inst ∧ inst.Enabled = true ∧
      s.Templates.get inst.Template = some tpl ∧
      render env.lib tpl.Command (s.renderContext name inst) = .ok cfg.Command ∧
      renderAll env.lib (s.renderContext name inst) tpl.Args = .ok cfg.Args ∧
      render env.lib tpl.Cwd (s.renderContext name inst) = .ok cfg.Cwd ∧
      renderAll env.lib (s.renderContext name inst) tpl.Env = .ok cfg.Env ∧
      config.ConvertStopPublic name tpl.Stop = .ok cfg.Stop ∧
      cfg.Name = name ∧ logPath = s.LogPath name := by
  unfold Service.ResolveConfig at h
  cases hi : s.Instances.get name with
  | none => simp [hi] at h
  | some inst =>
    simp only [hi] at h
    cases he : inst.Enabled with
    | false => simp [he] at h
    | true =>
      simp only [he, Bool.not_true, Bool.false_eq_true, if_false] at h
      cases ht : s.Templates.get inst.Template with
      | none => simp [ht] at h
      | some tpl =>
        simp only [ht] at h
        cases hd : s.EnsureDirs fs name env.mkdirLog env.mkdirInstance with
        | mk fs1 r =>
          cases r with
          | some e => simp [hd] at h
          | none =>
            simp only [hd] at h
            cases hc : render env.lib tpl.Command (s.renderContext name inst) with
            | error e => simp [hc] at h
            | ok command =>
              simp only [hc] at h
              cases ha : renderAll env.lib (s.renderContext name inst) tpl.Args with
              | error e => simp [ha] at h
              | ok args =>
                simp only [ha] at h
                cases hw : render env.lib tpl.Cwd (s.renderContext name inst) with
                | error e => simp [hw] at h
                | ok cwd =>
                  simp only [hw] at h
                  cases hv : renderAll env.lib (s.renderContext name inst) tpl.Env with
                  | error e => simp [hv] at h
                  | ok envs =>
                    simp only [hv] at h
                    cases hs : config.ConvertStopPublic name tpl.Stop with
                    | error e => simp [hs] at h
                    | ok stopCfg =>
                      simp only [hs, Except.ok.injEq, Prod.mk.injEq] at h
                      obtain ⟨hcfg, hlog⟩ := h
                      subst hcfg
                      exact ⟨inst, tpl, rfl, he, ht, hc, ha, hw, hv, hs, rfl, hlog.symm⟩

/-- C18: `ResolveConfig` fails with the unknown-instance error when the name is not in the
catalogue; otherwise with the disabled error when the instance is not enabled, whatever its
template; otherwise with the unknown-template error when its template is not in the template
map; each time it returns no launch spec and leaves the file system as it was. A successful
result implies that the instance exists, is enabled and references a known template. -/
theorem ResolveConfig_checks (s : Service) (fs : FS) (name : String) (env : ResolveEnv) :
    (s.Instances.get name = none →
      s.ResolveConfig fs name env = (fs, .error ("unknown instance: " ++ name))) ∧
    (∀ inst, s.Instances.get name = some inst → inst.Enabled = false →
      s.ResolveConfig fs name env
        = (fs, .error ("instance " ++ strconv.Quote name ++ " is disabled"))) ∧
    (∀ inst, s.Instances.get name = some inst → inst.Enabled = true →
      s.Templates.get inst.Template = none →
      s.ResolveConfig fs name env
        = (fs, .error ("instance " ++ strconv.Quote name ++ " references unknown template " ++
            strconv.Quote inst.Template))) ∧
    (∀ cfg logPath, (s.ResolveConfig fs name env).2 = .ok (cfg, logPath) →
      ∃ inst tpl, s.Instances.get name = some inst ∧ inst.Enabled = true ∧
        s.Templates.get inst.Template = some tpl) := by
  refine ⟨fun h => ?_, fun inst h he => ?_, fun inst h he ht => ?_, fun cfg logPath h => ?_⟩
  · unfold Service.ResolveConfig
    simp [h]
  · unfold Service.ResolveConfig
    simp [h, he]
  · unfold Service.ResolveConfig
    simp [h, he, ht]
  · obtain ⟨inst, tpl, h1, h2, h3, _⟩ := ResolveConfig_ok s fs name env cfg logPath h
    exact ⟨inst, tpl, h1, h2, h3⟩

/-- C20: when `ResolveConfig` succeeds, the command, the arguments, the working directory and
the environment entries of the launch spec are the renderings of those of the template, in
the same number and order, on the context of the instance. That context gives
`instance_name`, `instance_dir` and `log_path` the injected values, whatever the params say,
and gives every other key what the params of the instance give it. The launch spec is named
after the instance and the log path is `LogPath` of the name. `ResolveConfig` returns no
service: the stored params cannot change. -/
theorem ResolveConfig_context (s : Service) (fs : FS) (name : String) (env : ResolveEnv)
    (cfg : manager.ServerConfig) (logPath : String)
    (h : (s.ResolveConfig fs name env).2 = .ok (cfg, logPath)) :
    ∃ inst tpl,
      s.Instances.get name = some inst ∧ s.Templates.get inst.Template = some tpl ∧
      (s.renderContext name inst).get "instance_name" = some name ∧
      (s.renderContext name inst).get "instance_dir" = some (s.InstanceDir name) ∧
      (s.renderContext name inst).get "log_path" = some (s.LogPath name) ∧
      ((GoMap.keys inst.Params).Nodup →
        ∀ k, k ≠ "instance_name" → k ≠ "instance_dir" → k ≠ "log_path" →
          (s.renderContext name inst).get k = inst.Params.get k) ∧
      cfg.Name = name ∧ logPath = s.LogPath name ∧
      render env.lib tpl.Command (s.renderContext name inst) = .ok cfg.Command ∧
      render env.lib tpl.Cwd (s.renderContext name inst) = .ok cfg.Cwd ∧
      List.Forall₂ (fun a r => render env.lib a (s.renderContext name inst) = .ok r)
        tpl.Args cfg.Args ∧
      List.Forall₂ (fun a r => render env.lib a (s.renderContext name inst) = .ok r)
        tpl.Env cfg.Env ∧
      cfg.Args.length = tpl.Args.length ∧ cfg.Env.length = tpl.Env.length := by
  obtain ⟨inst, tpl, h1, _, h3, hc, ha, hw, hv, _, hn, hl⟩ :=
    ResolveConfig_ok s fs name env cfg logPath h
  have hfa := renderAll_ok env.lib _ _ _ ha
  have hfv := renderAll_ok env.lib _ _ _ hv
  refine ⟨inst, tpl, h1, h3, ?_, ?_, ?_, ?_, hn, hl, hc, hw, hfa, hfv, hfa.length_eq.symm,
    hfv.length_eq.symm⟩
  · unfold Service.renderContext
    rw [GoMap.get_set_other _ _ _ _ (by decide), GoMap.get_set_other _ _ _ _ (by decide)]
    exact GoMap.get_set_same _ _ _
  · unfold Service.renderContext
    rw [GoMap.get_set_other _ _ _ _ (by decide)]
    exact GoMap.get_set_same _ _ _
  · unfold Service.renderContext
    exact GoMap.get_set_same _ _ _
  · intro hnd k k1 k2 k3
    unfold Service.renderContext
    rw [GoMap.get_set_other _ _ _ _ k3, GoMap.get_set_other _ _ _ _ k2,
      GoMap.get_set_other _ _ _ _ k1, GoMap.get_foldl_set _ _ _ hnd]
    cases inst.Params.get k <;> rfl

end instances

namespace instances

/-- C15, counterexample: the template map has the key `""`; a call with the empty template
name, a name that is not empty and not yet used, and a persist step that would succeed, is
rejected with "template name is required". -/
theorem CreateInstance_empty_template_name :
    Scenario.withEmptyTemplateName.Templates.has "" = true ∧
    Scenario.withEmptyTemplateName.Instances.has "i1" = false ∧
    (Scenario.store.Save Scenario.emptyFS
      (Scenario.withEmptyTemplateName.Instances.set "i1" ⟨"", true, []⟩)
      Scenario.healthy.save).2 = none ∧
    Scenario.withEmptyTemplateName.CreateInstance Scenario.emptyFS "i1" "" true none
      Scenario.healthy
      = (Scenario.withEmptyTemplateName, Scenario.emptyFS, some "template name is required") := by
  decide

/-- C17, witness: the write of the temporary file fails while `i1` is deleted; the call
returns the error of `Save` and `i1` is gone from the instance map. -/
theorem DeleteInstance_no_rollback_witness :
    (Scenario.withInstance.DeleteInstance Scenario.emptyFS "i1" false false
      Scenario.diskFullDelete).2.2 = some "write temp instances file: no space left on device" ∧
    (Scenario.withInstance.DeleteInstance Scenario.emptyFS "i1" false false
      Scenario.diskFullDelete).1.Instances = Scenario.withInstance.Instances.delete "i1" ∧
    (Scenario.withInstance.DeleteInstance Scenario.emptyFS "i1" false false
      Scenario.diskFullDelete).1.Instances.get "i1" = none ∧
    ∀ k, k ≠ "i1" →
      (Scenario.withInstance.DeleteInstance Scenario.emptyFS "i1" false false
        Scenario.diskFullDelete).1.Instances.get k = Scenario.withInstance.Instances.get k :=
  DeleteInstance_no_rollback Scenario.withInstance Scenario.emptyFS "i1" false false
    Scenario.diskFullDelete Scenario.store "write temp instances file: no space left on device"
    (by decide) (by decide) (by decide) (by decide)

/-- C20, witness: the instance `mc` resolves; its param `instance_name` does not reach the
launch spec, which is rendered with the injected values. -/
theorem ResolveConfig_context_witness :
    (Scenario.withGames.ResolveConfig Scenario.emptyFS "mc" Scenario.resolving).2
      = .ok (⟨"mc", "/opt/mc/run", ["--port", "25565"], "data/instances/mc",
          ["LOG=logs/mc.log"], ⟨"signal", 15, "", 2000000000⟩⟩, "logs/mc.log") ∧
    ∃ inst tpl,
      Scenario.withGames.Instances.get "mc" = some inst ∧
      Scenario.withGames.Templates.get inst.Template = some tpl ∧
      (Scenario.withGames.renderContext "mc" inst).get "instance_name" = some "mc" :=
  ⟨by decide,
    (ResolveConfig_context Scenario.withGames Scenario.emptyFS "mc" Scenario.resolving
      ⟨"mc", "/opt/mc/run", ["--port", "25565"], "data/instances/mc", ["LOG=logs/mc.log"],
        ⟨"signal", 15, "", 2000000000⟩⟩ "logs/mc.log" (by decide)).elim
      (fun inst hi => hi.elim (fun tpl ht => ⟨inst, tpl, ht.1, ht.2.1, ht.2.2.1⟩))⟩

theorem execute_field_absent (ctx : GoMap String) (nodes : List template.Node) (key : String)
    (hmem : template.Node.field key ∈ nodes) (habsent : ctx.get key = none) :
    ∃ e, template.execute ctx nodes = .error e := by
  induction nodes with
  | nil => cases hmem
  | cons n rest ih =>
    have hrest : template.Node.field key ∈ rest → ∃ e, template.execute ctx rest = .error e := ih
    cases n with
    | text t =>
      have hm : template.Node.field key ∈ rest := by
        simpa using hmem
      obtain ⟨e, he⟩ := hrest hm
      exact ⟨e, by simp [template.execute, he]⟩
    | index k =>
      have hm : template.Node.field key ∈ rest := by
        simpa using hmem
      obtain ⟨e, he⟩ := hrest hm
      exact ⟨e, by simp [template.execute, he]⟩
    | field k =>
      cases hk : ctx.get k with
      | none =>
        refine ⟨"template: x: executing \"x\" at <." ++ k ++ ">: map has no entry for key " ++
          strconv.Quote k, ?_⟩
        simp only [template.execute, hk]
      | some v =>
        have hm : template.Node.field key ∈ rest := by
          rcases List.mem_cons.mp hmem with h | h
          · cases h
            rw [habsent] at hk
            cases hk
          · exact h
        obtain ⟨e, he⟩ := hrest hm
        exact ⟨e, by simp [template.execute, hk, he]⟩

/-- C19, the run that fails: the context has no key `port`. The template string that reads
the key with the field syntax fails to render, but the one that reads it with the function
`index` renders to the empty string, and `ResolveConfig` returns a launch spec whose port
argument is empty. -/
theorem render_index_of_absent_key :
    (Scenario.withGames.renderContext "i1" ⟨"indexed", true, []⟩).get "port" = none ∧
    render Scenario.resolving.lib "\x7b\x7b.port\x7d\x7d"
        (Scenario.withGames.renderContext "i1" ⟨"indexed", true, []⟩)
      = .error "template: x: executing \"x\" at <.port>: map has no entry for key \"port\"" ∧
    render Scenario.resolving.lib "\x7b\x7bindex . \"port\"\x7d\x7d"
        (Scenario.withGames.renderContext "i1" ⟨"indexed", true, []⟩) = .ok "" ∧
    (Scenario.withGames.ResolveConfig Scenario.emptyFS "i1" Scenario.resolving).2
      = .ok (⟨"i1", "/bin/server", ["--port", ""], "", [], ⟨"signal", 15, "", 2000000000⟩⟩,
          "logs/i1.log") := by
  decide

end instances

namespace control

open protocol time

theorem respondError_eq (h : Handler) (msg : Message) (e : String) (env : HandleEnv) :
    respondError h msg e env = ⟨KindResponse, msg.ID, h.AgentID, "", "", e, env.now⟩ := rfl

theorem respond_ok (h : Handler) (msg : Message) (p : ResponsePayload) (respErr : Option String)
    (env : HandleEnv) (b : String) (hm : env.codec.marshal p = .ok b) :
    respond h msg p respErr env
      = (⟨KindResponse, msg.ID, h.AgentID, "", b, respErr.getD "", env.now⟩, none) := by
  simp [respond, NewResponse, hm]

theorem respond_error (h : Handler) (msg : Message) (p : ResponsePayload)
    (respErr : Option String) (env : HandleEnv) (e : String)
    (hm : env.codec.marshal p = .error e) :
    respond h msg p respErr env = (Message.zero, some e) := by
  simp [respond, NewResponse, hm]

theorem Answers_respond (h : Handler) (msg : Message) (p : ResponsePayload)
    (respErr : Option String) (env : HandleEnv) :
    Answers h msg (respond h msg p respErr env).1 (respond h msg p respErr env).2 := by
  cases hm : env.codec.marshal p with
  | ok b =>
    rw [respond_ok h msg p respErr env b hm]
    intro _
    exact ⟨rfl, rfl, rfl⟩
  | error e =>
    rw [respond_error h msg p respErr env e hm]
    intro hn
    cases hn

theorem Answers_respondError (h : Handler) (msg : Message) (e : String) (env : HandleEnv) :
    Answers h msg (respondError h msg e env) none := fun _ => ⟨rfl, rfl, rfl⟩

theorem Answers_Handle (h : Handler) (fs : instances.FS) (msg : Message) (env : HandleEnv) :
    Answers h msg (h.Handle fs msg env).resp (h.Handle fs msg env).err := by
  unfold Handler.Handle
  split
  · intro hn
    cases hn
  · split_ifs
    · intro hn
      cases hn
    · exact Answers_respond _ _ _ _ _
    · split
      · exact Answers_respondError _ _ _ _
      · split
        · exact Answers_respondError _ _ _ _
        · exact Answers_respond _ _ _ _ _
    · split
      · exact Answers_respondError _ _ _ _
      · split
        · exact Answers_respondError _ _ _ _
        · exact Answers_respond _ _ _ _ _
    · exact Answers_respond _ _ _ _ _
    · split
      · exact Answers_respondError _ _ _ _
      · exact Answers_respond _ _ _ _ _
    · split
      · exact Answers_respondError _ _ _ _
      · split
        · exact Answers_respondError _ _ _ _
        · exact Answers_respond _ _ _ _ _
    · split
      · exact Answers_respondError _ _ _ _
      · exact Answers_respond _ _ _ _ _
    · exact Answers_respondError _ _ _ _

end control

namespace control

open protocol time

/-- C14: every response that `Handle` returns without an error has the kind response, the id
of the request and the agent id of the handler, whatever the type of the request. -/
theorem Handle_response_correlates (h : Handler) (fs : instances.FS) (msg : Message)
    (env : HandleEnv) (hok : (h.Handle fs msg env).err = none) :
    (h.Handle fs msg env).resp.Kind = KindResponse ∧
    (h.Handle fs msg env).resp.ID = msg.ID ∧
    (h.Handle fs msg env).resp.AgentID = h.AgentID :=
  Answers_Handle h fs msg env hok

/-- C12: for a request that passes validation and whose type is none of the seven command
types, `Handle` returns no error and the response to the request whose error is "unknown
command type: " followed by the type and whose payload is empty; the handler, with its
catalogue and its supervisor, and the file system are what they were, and the callback is not
called. -/
theorem Handle_unknown_type (h : Handler) (fs : instances.FS) (msg : Message) (env : HandleEnv)
    (hv : msg.ValidateBasic = none) (hk : msg.Kind = KindRequest)
    (h1 : msg.Typ ≠ CmdList) (h2 : msg.Typ ≠ CmdStatus) (h3 : msg.Typ ≠ CmdStart)
    (h4 : msg.Typ ≠ CmdStop) (h5 : msg.Typ ≠ CmdInstancesList)
    (h6 : msg.Typ ≠ CmdInstancesCreate) (h7 : msg.Typ ≠ CmdInstancesDelete) :
    h.Handle fs msg env =
      ⟨h, fs, ⟨KindResponse, msg.ID, h.AgentID, "", "", "unknown command type: " ++ msg.Typ,
        env.now⟩, none, false⟩ := by
  unfold Handler.Handle
  simp only [hv, hk, h1, h2, h3, h4, h5, h6, h7, ne_eq, not_true_eq_false, if_false,
    respondError_eq]

end control

namespace control

open protocol time

theorem Handle_create (h : Handler) (fs : instances.FS) (msg : Message) (env : HandleEnv)
    (hv : msg.ValidateBasic = none) (hk : msg.Kind = KindRequest)
    (ht : msg.Typ = CmdInstancesCreate) :
    h.Handle fs msg env =
      match env.codec.unmarshalCreate msg.Payload with
      | .error e => ⟨h, fs, respondError h msg ("bad payload: " ++ e) env, none, false⟩
      | .ok req =>
        match h.Instances.CreateInstance fs req.Name req.Template req.Enabled req.Params
            env.create with
        | (svc, fs1, some e) =>
          ⟨{ h with Instances := svc }, fs1, respondError h msg e env, none, false⟩
        | (svc, fs1, none) =>
          ⟨{ h with Instances := svc }, fs1,
            (respond h msg (ResponsePayload.ok req.Name) none env).1,
            (respond h msg (ResponsePayload.ok req.Name) none env).2, h.OnInstanceListChanged⟩ := by
  unfold Handler.Handle
  simp +decide only [hv, hk, ht, ne_eq, not_true_eq_false, if_false, if_true]

theorem Handle_delete (h : Handler) (fs : instances.FS) (msg : Message) (env : HandleEnv)
    (hv : msg.ValidateBasic = none) (hk : msg.Kind = KindRequest)
    (ht : msg.Typ = CmdInstancesDelete) :
    h.Handle fs msg env =
      match env.codec.unmarshalDelete msg.Payload with
      | .error e => ⟨h, fs, respondError h msg ("bad payload: " ++ e) env, none, false⟩
      | .ok req =>
        match h.Instances.DeleteInstance fs req.Name req.Force req.DeleteData env.delete with
        | (svc, fs1, some e) =>
          ⟨{ h with Instances := svc }, fs1, respondError h msg e env, none, false⟩
        | (svc, fs1, none) =>
          ⟨{ h with Instances := svc }, fs1,
            (respond h msg (ResponsePayload.ok req.Name) none env).1,
            (respond h msg (ResponsePayload.ok req.Name) none env).2, h.OnInstanceListChanged⟩ := by
  unfold Handler.Handle
  simp +decide only [hv, hk, ht, ne_eq, not_true_eq_false, if_false, if_true]

theorem Handle_status (h : Handler) (fs : instances.FS) (msg : Message) (env : HandleEnv)
    (hv : msg.ValidateBasic = none) (hk : msg.Kind = KindRequest) (ht : msg.Typ = CmdStatus) :
    h.Handle fs msg env =
      match env.codec.unmarshalTarget msg.Payload with
      | .error e => ⟨h, fs, respondError h msg ("bad payload: " ++ e) env, none, false⟩
      | .ok tgt =>
        ⟨h, fs,
          (respond h msg (ResponsePayload.state (h.Instances.Mgr.Status tgt.Server)) none env).1,
          (respond h msg (ResponsePayload.state (h.Instances.Mgr.Status tgt.Server)) none env).2,
          false⟩ := by
  unfold Handler.Handle
  simp +decide only [hv, hk, ht, ne_eq, not_true_eq_false, if_false, if_true]

theorem Handle_start (h : Handler) (fs : instances.FS) (msg : Message) (env : HandleEnv)
    (hv : msg.ValidateBasic = none) (hk : msg.Kind = KindRequest) (ht : msg.Typ = CmdStart) :
    h.Handle fs msg env =
      match env.codec.unmarshalTarget msg.Payload with
      | .error e => ⟨h, fs, respondError h msg ("bad payload: " ++ e) env, none, false⟩
      | .ok tgt =>
        match h.Instances.ResolveConfig fs tgt.Server env.resolve with
        | (fs1, .error e) => ⟨h, fs1, respondError h msg e env, none, false⟩
        | (fs1, .ok (cfg, logPath)) =>
          ⟨{ h with Instances :=
              { h.Instances with Mgr := (h.Instances.Mgr.Start cfg logPath env.spawn).1 } },
            fs1,
            (respond h msg
              (ResponsePayload.state (h.Instances.Mgr.Start cfg logPath env.spawn).2.1)
              (h.Instances.Mgr.Start cfg logPath env.spawn).2.2 env).1,
            (respond h msg
              (ResponsePayload.state (h.Instances.Mgr.Start cfg logPath env.spawn).2.1)
              (h.Instances.Mgr.Start cfg logPath env.spawn).2.2 env).2,
            false⟩ := by
  unfold Handler.Handle
  simp +decide only [hv, hk, ht, ne_eq, not_true_eq_false, if_false, if_true]

theorem Handle_stop (h : Handler) (fs : instances.FS) (msg : Message) (env : HandleEnv)
    (hv : msg.ValidateBasic = none) (hk : msg.Kind = KindRequest) (ht : msg.Typ = CmdStop) :
    h.Handle fs msg env =
      match env.codec.unmarshalTarget msg.Payload with
      | .error e => ⟨h, fs, respondError h msg ("bad payload: " ++ e) env, none, false⟩
      | .ok tgt =>
        ⟨{ h with Instances :=
            { h.Instances with Mgr := (h.Instances.Mgr.Stop tgt.Server env.stop).1 } },
          fs,
          (respond h msg (ResponsePayload.state (h.Instances.Mgr.Stop tgt.Server env.stop).2.1)
            (h.Instances.Mgr.Stop tgt.Server env.stop).2.2 env).1,
          (respond h msg (ResponsePayload.state (h.Instances.Mgr.Stop tgt.Server env.stop).2.1)
            (h.Instances.Mgr.Stop tgt.Server env.stop).2.2 env).2,
          false⟩ := by
  unfold Handler.Handle
  simp +decide only [hv, hk, ht, ne_eq, not_true_eq_false, if_false, if_true]

end control

namespace control

open protocol time

theorem MarshalFailed_respond (h : Handler) (msg : Message) (p : ResponsePayload)
    (respErr : Option String) (env : HandleEnv) :
    MarshalFailed env (respond h msg p respErr env).2 := by
  intro e he
  cases hm : env.codec.marshal p with
  | ok b =>
    rw [respond_ok h msg p respErr env b hm] at he
    cases he
  | error e2 =>
    rw [respond_error h msg p respErr env e2 hm] at he
    simp only [Option.some.injEq] at he
    subst he
    exact ⟨p, hm⟩

theorem MarshalFailed_none (env : HandleEnv) : MarshalFailed env none := by
  intro e he
  cases he

theorem MarshalFailed_Handle (h : Handler) (fs : instances.FS) (msg : Message) (env : HandleEnv)
    (hk : msg.Kind = KindRequest) (hv : msg.ValidateBasic = none) :
    MarshalFailed env (h.Handle fs msg env).err := by
  unfold Handler.Handle
  simp only [hv, hk, ne_eq, not_true_eq_false, if_false]
  split_ifs
  · exact MarshalFailed_respond _ _ _ _ _
  · split
    · exact MarshalFailed_none _
    · split
      · exact MarshalFailed_none _
      · exact MarshalFailed_respond _ _ _ _ _
  · split
    · exact MarshalFailed_none _
    · split
      · exact MarshalFailed_none _
      · exact MarshalFailed_respond _ _ _ _ _
  · exact MarshalFailed_respond _ _ _ _ _
  · split
    · exact MarshalFailed_none _
    · exact MarshalFailed_respond _ _ _ _ _
  · split
    · exact MarshalFailed_none _
    · split
      · exact MarshalFailed_none _
      · exact MarshalFailed_respond _ _ _ _ _
  · split
    · exact MarshalFailed_none _
    · exact MarshalFailed_respond _ _ _ _ _
  · exact MarshalFailed_none _

/-- C13: for a valid request of type status, start, stop, instances.create or
instances.delete whose payload fails to decode, `Handle` returns no error and the response
whose error is "bad payload: " followed by the error of the decoder; the handler, with its
catalogue and its supervisor, and the file system are what they were, and the callback is not
called. -/
theorem Handle_bad_payload (h : Handler) (fs : instances.FS) (msg : Message) (env : HandleEnv)
    (hv : msg.ValidateBasic = none) (hk : msg.Kind = KindRequest) :
    (∀ e, (msg.Typ = CmdStatus ∨ msg.Typ = CmdStart ∨ msg.Typ = CmdStop) →
      env.codec.unmarshalTarget msg.Payload = .error e →
      h.Handle fs msg env =
        ⟨h, fs, ⟨KindResponse, msg.ID, h.AgentID, "", "", "bad payload: " ++ e, env.now⟩, none,
          false⟩) ∧
    (∀ e, msg.Typ = CmdInstancesCreate → env.codec.unmarshalCreate msg.Payload = .error e →
      h.Handle fs msg env =
        ⟨h, fs, ⟨KindResponse, msg.ID, h.AgentID, "", "", "bad payload: " ++ e, env.now⟩, none,
          false⟩) ∧
    (∀ e, msg.Typ = CmdInstancesDelete → env.codec.unmarshalDelete msg.Payload = .error e →
      h.Handle fs msg env =
        ⟨h, fs, ⟨KindResponse, msg.ID, h.AgentID, "", "", "bad payload: " ++ e, env.now⟩, none,
          false⟩) := by
  refine ⟨fun e ht hd => ?_, fun e ht hd => ?_, fun e ht hd => ?_⟩
  · rcases ht with ht | ht | ht
    · rw [Handle_status h fs msg env hv hk ht]
      simp only [hd, respondError_eq]
    · rw [Handle_start h fs msg env hv hk ht]
      simp only [hd, respondError_eq]
    · rw [Handle_stop h fs msg env hv hk ht]
      simp only [hd, respondError_eq]
  · rw [Handle_create h fs msg env hv hk ht]
    simp only [hd, respondError_eq]
  · rw [Handle_delete h fs msg env hv hk ht]
    simp only [hd, respondError_eq]

/-- C11 (as amended): for a message of kind request that passes `ValidateBasic`, an error
that `Handle` returns can only be the error of `json.Marshal` on the payload of the response,
and without it `Handle` returns a message of kind response. A payload that fails to decode,
a failure of `CreateInstance`, of `DeleteInstance` or of `ResolveConfig`, and a failure of
`Start` or of `Stop` whose state can be encoded, are each returned as the error field of the
response, with no error for the caller. -/
theorem Handle_request_reports_failures (h : Handler) (fs : instances.FS) (msg : Message)
    (env : HandleEnv) (hk : msg.Kind = KindRequest) (hv : msg.ValidateBasic = none) :
    (∀ e, (h.Handle fs msg env).err = some e → ∃ p, env.codec.marshal p = .error e) ∧
    ((h.Handle fs msg env).err = none → (h.Handle fs msg env).resp.Kind = KindResponse) ∧
    (∀ e, ((msg.Typ = CmdStatus ∨ msg.Typ = CmdStart ∨ msg.Typ = CmdStop) ∧
          env.codec.unmarshalTarget msg.Payload = .error e) ∨
        (msg.Typ = CmdInstancesCreate ∧ env.codec.unmarshalCreate msg.Payload = .error e) ∨
        (msg.Typ = CmdInstancesDelete ∧ env.codec.unmarshalDelete msg.Payload = .error e) →
      (h.Handle fs msg env).err = none ∧
      (h.Handle fs msg env).resp.Error = "bad payload: " ++ e) ∧
    (∀ req e, msg.Typ = CmdInstancesCreate → env.codec.unmarshalCreate msg.Payload = .ok req →
      (h.Instances.CreateInstance fs req.Name req.Template req.Enabled req.Params
        env.create).2.2 = some e →
      (h.Handle fs msg env).err = none ∧ (h.Handle fs msg env).resp.Error = e) ∧
    (∀ req e, msg.Typ = CmdInstancesDelete → env.codec.unmarshalDelete msg.Payload = .ok req →
      (h.Instances.DeleteInstance fs req.Name req.Force req.DeleteData env.delete).2.2
        = some e →
      (h.Handle fs msg env).err = none ∧ (h.Handle fs msg env).resp.Error = e) ∧
    (∀ tgt e, msg.Typ = CmdStart → env.codec.unmarshalTarget msg.Payload = .ok tgt →
      (h.Instances.ResolveConfig fs tgt.Server env.resolve).2 = .error e →
      (h.Handle fs msg env).err = none ∧ (h.Handle fs msg env).resp.Error = e) ∧
    (∀ tgt cfg logPath e b, msg.Typ = CmdStart →
      env.codec.unmarshalTarget msg.Payload = .ok tgt →
      (h.Instances.ResolveConfig fs tgt.Server env.resolve).2 = .ok (cfg, logPath) →
      (h.Instances.Mgr.Start cfg logPath env.spawn).2.2 = some e →
      env.codec.marshal (ResponsePayload.state (h.Instances.Mgr.Start cfg logPath env.spawn).2.1)
        = .ok b →
      (h.Handle fs msg env).err = none ∧ (h.Handle fs msg env).resp.Error = e) ∧
    (∀ tgt e b, msg.Typ = CmdStop → env.codec.unmarshalTarget msg.Payload = .ok tgt →
      (h.Instances.Mgr.Stop tgt.Server env.stop).2.2 = some e →
      env.codec.marshal (ResponsePayload.state (h.Instances.Mgr.Stop tgt.Server env.stop).2.1)
        = .ok b →
      (h.Handle fs msg env).err = none ∧ (h.Handle fs msg env).resp.Error = e) := by
  refine ⟨MarshalFailed_Handle h fs msg env hk hv,
    fun hn => (Answers_Handle h fs msg env hn).1, ?_, ?_, ?_, ?_, ?_, ?_⟩
  · intro e hcase
    rcases hcase with ⟨ht, hd⟩ | ⟨ht, hd⟩ | ⟨ht, hd⟩
    · rcases ht with ht | ht | ht
      · rw [Handle_status h fs msg env hv hk ht]
        simp only [hd, respondError_eq]
        exact ⟨trivial, trivial⟩
      · rw [Handle_start h fs msg env hv hk ht]
        simp only [hd, respondError_eq]
        exact ⟨trivial, trivial⟩
      · rw [Handle_stop h fs msg env hv hk ht]
        simp only [hd, respondError_eq]
        exact ⟨trivial, trivial⟩
    · rw [Handle_create h fs msg env hv hk ht]
      simp only [hd, respondError_eq]
      exact ⟨trivial, trivial⟩
    · rw [Handle_delete h fs msg env hv hk ht]
      simp only [hd, respondError_eq]
      exact ⟨trivial, trivial⟩
  · intro req e ht hd hc
    rw [Handle_create h fs msg env hv hk ht]
    simp only [hd]
    cases hr : h.Instances.CreateInstance fs req.Name req.Template req.Enabled req.Params
        env.create with
    | mk svc r =>
      obtain ⟨fs1, oe⟩ := r
      rw [hr] at hc
      simp only at hc
      subst hc
      exact ⟨rfl, rfl⟩
  · intro req e ht hd hc
    rw [Handle_delete h fs msg env hv hk ht]
    simp only [hd]
    cases hr : h.Instances.DeleteInstance fs req.Name req.Force req.DeleteData env.delete with
    | mk svc r =>
      obtain ⟨fs1, oe⟩ := r
      rw [hr] at hc
      simp only at hc
      subst hc
      exact ⟨rfl, rfl⟩
  · intro tgt e ht hd hc
    rw [Handle_start h fs msg env hv hk ht]
    simp only [hd]
    cases hr : h.Instances.ResolveConfig fs tgt.Server env.resolve with
    | mk fs1 r =>
      rw [hr] at hc
      simp only at hc
      subst hc
      exact ⟨rfl, rfl⟩
  · intro tgt cfg logPath e b ht hd hc hs hm
    rw [Handle_start h fs msg env hv hk ht]
    simp only [hd]
    cases hr : h.Instances.ResolveConfig fs tgt.Server env.resolve with
    | mk fs1 r =>
      rw [hr] at hc
      simp only at hc
      subst hc
      simp only [respond_ok h msg _ _ env b hm, hs]
      exact ⟨trivial, rfl⟩
  · intro tgt e b ht hd hs hm
    rw [Handle_stop h fs msg env hv hk ht]
    simp only [hd]
    simp only [respond_ok h msg _ _ env b hm, hs]
    exact ⟨trivial, rfl⟩

end control

namespace control

open protocol time

/-- C11, counterexample: a message of kind request without an id is given to `Handle`; the
call returns the validation error to its caller and the zero message, not a response. -/
theorem Handle_returns_validation_error :
    Scenario.requestWithoutID.Kind = KindRequest ∧
    Scenario.handler.Handle instances.Scenario.emptyFS Scenario.requestWithoutID Scenario.calm
      = ⟨Scenario.handler, instances.Scenario.emptyFS, Message.zero, some "request missing id",
          false⟩ := by
  decide

/-- C11, witness: a valid request creates an instance from a template that does not exist;
`Handle` returns no error and a response whose error field carries the failure of the
catalogue. -/
theorem Handle_request_reports_failures_witness :
    (Scenario.request CmdInstancesCreate Scenario.createI2).Kind = KindRequest ∧
    (Scenario.request CmdInstancesCreate Scenario.createI2).ValidateBasic = none ∧
    (Scenario.handler.Handle instances.Scenario.emptyFS
      (Scenario.request CmdInstancesCreate Scenario.createI2) Scenario.calm).err = none ∧
    (Scenario.handler.Handle instances.Scenario.emptyFS
      (Scenario.request CmdInstancesCreate Scenario.createI2) Scenario.calm).resp.Error
      = "unknown template: nope" :=
  ⟨by decide, by decide,
    (Handle_request_reports_failures Scenario.handler instances.Scenario.emptyFS
      (Scenario.request CmdInstancesCreate Scenario.createI2) Scenario.calm (by decide)
      (by decide)).2.2.2.1 ⟨"i2", "nope", true, none⟩ "unknown template: nope" (by decide)
      (by decide) (by decide)⟩

/-- C12, witness: a valid request of the type `restart`. -/
theorem Handle_unknown_type_witness :
    Scenario.handler.Handle instances.Scenario.emptyFS (Scenario.request "restart" "")
        Scenario.calm =
      ⟨Scenario.handler, instances.Scenario.emptyFS,
        ⟨KindResponse, "r1", "a", "", "", "unknown command type: restart", ⟨9⟩⟩, none, false⟩ :=
  Handle_unknown_type Scenario.handler instances.Scenario.emptyFS (Scenario.request "restart" "")
    Scenario.calm (by decide) (by decide) (by decide) (by decide) (by decide) (by decide)
    (by decide) (by decide) (by decide)

/-- C13, witness: a valid `status` request with an empty payload. -/
theorem Handle_bad_payload_witness :
    (Scenario.request CmdStatus "").ValidateBasic = none ∧
    Scenario.handler.Handle instances.Scenario.emptyFS (Scenario.request CmdStatus "")
        Scenario.calm =
      ⟨Scenario.handler, instances.Scenario.emptyFS,
        ⟨KindResponse, "r1", "a", "", "", "bad payload: unexpected end of JSON input", ⟨9⟩⟩,
        none, false⟩ :=
  ⟨by decide,
    (Handle_bad_payload Scenario.handler instances.Scenario.emptyFS
      (Scenario.request CmdStatus "") Scenario.calm (by decide) (by decide)).1
      "unexpected end of JSON input" (Or.inl rfl) (by decide)⟩

/-- C14, witness: a valid request creates `i1`; `Handle` returns no error, and the response
has the id of the request and the agent id of the handler. -/
theorem Handle_response_correlates_witness :
    (Scenario.handler.Handle instances.Scenario.emptyFS
      (Scenario.request CmdInstancesCreate Scenario.createI1) Scenario.calm).err = none ∧
    (Scenario.handler.Handle instances.Scenario.emptyFS
      (Scenario.request CmdInstancesCreate Scenario.createI1) Scenario.calm).resp.Kind
        = KindResponse ∧
    (Scenario.handler.Handle instances.Scenario.emptyFS
      (Scenario.request CmdInstancesCreate Scenario.createI1) Scenario.calm).resp.ID = "r1" ∧
    (Scenario.handler.Handle instances.Scenario.emptyFS
      (Scenario.request CmdInstancesCreate Scenario.createI1) Scenario.calm).resp.AgentID = "a" :=
  ⟨by decide,
    Handle_response_correlates Scenario.handler instances.Scenario.emptyFS
      (Scenario.request CmdInstancesCreate Scenario.createI1) Scenario.calm (by decide)⟩

end control

namespace instances

/-- A run of `DeleteInstance` on an instance that is running: without `force` the call fails
and changes nothing; with `force` it signals the process group, sees the child reaped at its
third poll, removes the instance and persists the empty catalogue. -/
theorem DeleteInstance_running_run :
    (Scenario.running.Mgr.Status "i1").Running = true ∧
    Scenario.running.DeleteInstance Scenario.emptyFS "i1" false false Scenario.stopping
      = (Scenario.running, Scenario.emptyFS,
          some "instance \"i1\" is running; use force to stop it before delete") ∧
    (Scenario.running.DeleteInstance Scenario.emptyFS "i1" true false Scenario.stopping).2.2
      = none ∧
    (Scenario.running.DeleteInstance Scenario.emptyFS "i1" true false Scenario.stopping).1.Instances
      = [] ∧
    (Scenario.running.DeleteInstance Scenario.emptyFS "i1" true false Scenario.stopping).1.Mgr.kills
      = [(-10, manager.SIGTERM)] ∧
    ((Scenario.running.DeleteInstance Scenario.emptyFS "i1" true false
      Scenario.stopping).1.Mgr.Status "i1").Running = false ∧
    (Scenario.running.DeleteInstance Scenario.emptyFS "i1" true false
      Scenario.stopping).2.1.files.get Scenario.store.Path = some (some []) := by
  decide

end instances

namespace manager

open time

/-- C25: `Stop` on a name without a record fails with the unknown-server error and the zero
state, and `Stop` on a record that is not running fails with the not-running error and the
state of the record; in both cases the manager, with its records and its log of signals, is
the one before the call. -/
theorem Stop_unknown_or_not_running (m : Manager) (name : String) (env : StopEnv) :
    (m.procs.get name = none →
      m.Stop name env = (m, ServerState.zero, some ("unknown server: " ++ name))) ∧
    (∀ p, m.lookup name = some p → p.state.Running = false →
      m.Stop name env = (m, p.state, some (name ++ " is not running"))) := by
  refine ⟨fun h => ?_, fun p hp hrun => ?_⟩
  · simp only [Manager.Stop, h]
  · unfold Manager.lookup at hp
    cases hget : m.procs.get name with
    | none => rw [hget] at hp; cases hp
    | some ptr =>
      rw [hget] at hp
      simp only at hp
      simp only [Manager.Stop, hget, hp, hrun]
      cases p.cmdProcess <;> simp

/-- C26: `Status` returns the state of the record that the map holds for the name, and
without a record the state with that name, not running, and zero otherwise; `Status` returns
a state only, so the manager after the call is the one before it. -/
theorem Status_spec (m : Manager) (name : String) :
    (∀ p, m.lookup name = some p → m.Status name = p.state) ∧
    (m.lookup name = none →
      m.Status name = ⟨name, false, 0, Time.zero, Time.zero, 0, ""⟩) := by
  refine ⟨fun p hp => ?_, fun h => ?_⟩
  · simp only [Manager.Status, hp]
  · simp only [Manager.Status, h, ServerState.zero]

end manager

namespace manager

open time

/-- C28: the terminal write of the reaper on the record at `ptr` sets `Running` to false,
`ExitedAt` to the time of the write, `ExitCode` to 0 when the wait returned no error, to the
exit status when it returned an exit error that carries one and to 1 for any other error, and
`LastError` to the text of the error of the wait, if there is one; it keeps `Name`, `PID` and
`StartedAt`, and it leaves every other record, the map of the records and the log of signals
as they were. -/
theorem reap_frame (m : Manager) (ptr : Nat) (w : WaitResult) (now : Time) :
    (∀ p, m.heap[ptr]? = some p →
      ∃ q, (m.reap ptr w now).heap[ptr]? = some q ∧
        q.state.Running = false ∧ q.state.ExitedAt = now ∧
        (w = WaitResult.exited → q.state.ExitCode = 0 ∧ q.state.LastError = p.state.LastError) ∧
        (∀ status text, w = WaitResult.exitError (some status) text →
          q.state.ExitCode = status ∧ q.state.LastError = text) ∧
        (∀ text, w = WaitResult.exitError none text →
          q.state.ExitCode = 1 ∧ q.state.LastError = text) ∧
        (∀ text, w = WaitResult.failed text →
          q.state.ExitCode = 1 ∧ q.state.LastError = text) ∧
        q.state.Name = p.state.Name ∧ q.state.PID = p.state.PID ∧
        q.state.StartedAt = p.state.StartedAt ∧
        q.cfg = p.cfg ∧ q.cmdProcess = p.cmdProcess ∧ q.stdin = p.stdin ∧
        q.logPath = p.logPath ∧ q.logOpen = false) ∧
    (∀ other, other ≠ ptr → (m.reap ptr w now).heap[other]? = m.heap[other]?) ∧
    (m.reap ptr w now).heap.length = m.heap.length ∧
    (m.reap ptr w now).procs = m.procs ∧
    (m.reap ptr w now).kills = m.kills := by
  refine ⟨fun p hp => ?_, fun other hne => ?_, ?_, rfl, rfl⟩
  · refine ⟨{ p with
        state := { p.state with
          Running := false
          ExitedAt := now
          ExitCode := w.exitCode
          LastError := (w.err).getD p.state.LastError }
        logOpen := false }, ?_, rfl, rfl, ?_, ?_, ?_, ?_, rfl, rfl, rfl, rfl, rfl, rfl, rfl, rfl⟩
    · simp only [Manager.reap, getElem?_modifyAt, if_true, hp, Option.map_some']
    · rintro rfl; exact ⟨rfl, rfl⟩
    · rintro status text rfl; exact ⟨rfl, rfl⟩
    · rintro text rfl; exact ⟨rfl, rfl⟩
    · rintro text rfl; exact ⟨rfl, rfl⟩
  · simp only [Manager.reap, getElem?_modifyAt, if_neg hne]
  · simp only [Manager.reap, length_modifyAt]

end manager

namespace config

/-- C29: the converter of `servers.yaml` and the converter of the templates return the same
result on every server name and every stop block: the same error, or the same `StopConfig`. -/
theorem convertStop_eq_ConvertStopPublic (serverName : String) (s : Stop) :
    convertStop serverName s = ConvertStopPublic serverName s := by
  unfold convertStop ConvertStopPublic
  by_cases ht : strings.TrimSpace s.Typ = ""
  · simp only [ht, ne_eq, not_true_eq_false, if_false]
    by_cases hg : strings.TrimSpace s.GracePeriod = ""
    · simp only [hg, ne_eq, not_true_eq_false, if_false]
    · simp only [hg, ne_eq, not_false_eq_true, if_true]
      cases time.ParseDuration (strings.TrimSpace s.GracePeriod) with
      | error e => rfl
      | ok d => simp +decide
  · simp only [ht, ne_eq, not_false_eq_true, if_true]
    by_cases h1 : strings.ToLower (strings.TrimSpace s.Typ) = "stdin"
    · simp only [h1, if_true]
      by_cases hg : strings.TrimSpace s.GracePeriod = ""
      · simp only [hg, ne_eq, not_true_eq_false, if_false]
        simp +decide
      · simp only [hg, ne_eq, not_false_eq_true, if_true]
        cases time.ParseDuration (strings.TrimSpace s.GracePeriod) with
        | error e => rfl
        | ok d => simp +decide
    · simp only [h1, if_false]
      by_cases h2 : strings.ToLower (strings.TrimSpace s.Typ) = "signal"
      · simp only [h2, if_true]
        by_cases hg : strings.TrimSpace s.GracePeriod = ""
        · simp only [hg, ne_eq, not_true_eq_false, if_false]
        · simp only [hg, ne_eq, not_false_eq_true, if_true]
          cases time.ParseDuration (strings.TrimSpace s.GracePeriod) with
          | error e => rfl
          | ok d => simp +decide
      · simp only [h2, if_false]

end config

namespace strings

theorem head_of_dropWhile_eq_self (p : Char → Bool) (x : Char) (t : List Char)
    (h : List.dropWhile p (x :: t) = x :: t) : p x = false := by
  cases hx : p x with
  | false => rfl
  | true =>
    rw [List.dropWhile_cons, if_pos hx] at h
    have hl := (List.dropWhile_suffix p (l := t)).length_le
    rw [h] at hl
    simp at hl

theorem dropWhile_reverse_dropWhile_head (p : Char → Bool) (l : List Char) :
    List.dropWhile p ((List.dropWhile p (List.dropWhile p l).reverse).reverse)
      = (List.dropWhile p (List.dropWhile p l).reverse).reverse := by
  have hpre : (List.dropWhile p (List.dropWhile p l).reverse).reverse <+: List.dropWhile p l := by
    have := List.dropWhile_suffix p (l := (List.dropWhile p l).reverse)
    rw [← List.reverse_prefix] at this
    simpa using this
  obtain ⟨c, hc⟩ := hpre
  cases hb : (List.dropWhile p (List.dropWhile p l).reverse).reverse with
  | nil => rfl
  | cons x r =>
    rw [hb] at hc
    have hid : List.dropWhile p (List.dropWhile p l) = List.dropWhile p l :=
      List.dropWhile_idempotent p l
    rw [← hc] at hid
    have hx := head_of_dropWhile_eq_self p x (r ++ c) hid
    rw [List.dropWhile_cons, hx]
    simp

/-- Trimming a trimmed string changes nothing. -/
theorem TrimSpace_idem (s : String) : TrimSpace (TrimSpace s) = TrimSpace s := by
  unfold TrimSpace
  simp only [dropWhile_reverse_dropWhile_head, List.reverse_reverse,
    List.dropWhile_idempotent unicode.IsSpace]

end strings

namespace config

open manager

theorem ConvertStopPublic_type_error (serverName : String) (s : Stop)
    (h0 : strings.TrimSpace s.Typ ≠ "")
    (h1 : strings.ToLower (strings.TrimSpace s.Typ) ≠ "stdin")
    (h2 : strings.ToLower (strings.TrimSpace s.Typ) ≠ "signal") :
    ConvertStopPublic serverName s = .error ("server " ++ strconv.Quote serverName ++
      " has invalid stop.type " ++ strconv.Quote s.Typ ++ " (expected stdin|signal)") := by
  unfold ConvertStopPublic
  simp only [h0, h1, h2, ne_eq, not_false_eq_true, if_true, if_false]

theorem ConvertStopPublic_grace_error (serverName : String) (s : Stop) (e : String)
    (h0 : strings.TrimSpace s.GracePeriod ≠ "")
    (h1 : time.ParseDuration (strings.TrimSpace s.GracePeriod) = .error e) :
    ∃ e', ConvertStopPublic serverName s = .error e' := by
  by_cases ht : strings.TrimSpace s.Typ = ""
  · unfold ConvertStopPublic
    simp only [ht, h0, h1, ne_eq, not_true_eq_false, not_false_eq_true, if_true, if_false]
    exact ⟨_, rfl⟩
  · by_cases hs : strings.ToLower (strings.TrimSpace s.Typ) = "stdin"
    · unfold ConvertStopPublic
      simp only [ht, hs, h0, h1, ne_eq, not_true_eq_false, not_false_eq_true, if_true, if_false]
      exact ⟨_, rfl⟩
    · by_cases hg : strings.ToLower (strings.TrimSpace s.Typ) = "signal"
      · unfold ConvertStopPublic
        simp only [ht, hs, hg, h0, h1, ne_eq, not_true_eq_false, not_false_eq_true, if_true,
          if_false]
        exact ⟨_, rfl⟩
      · exact ⟨_, ConvertStopPublic_type_error serverName s ht hs hg⟩

theorem ConvertStopPublic_stdin (serverName : String) (s : Stop) (g : time.Duration)
    (h0 : strings.TrimSpace s.Typ ≠ "")
    (h1 : strings.ToLower (strings.TrimSpace s.Typ) = "stdin")
    (hg : if strings.TrimSpace s.GracePeriod = "" then g = 10 * time.Second
      else time.ParseDuration (strings.TrimSpace s.GracePeriod) = .ok g) :
    ConvertStopPublic serverName s = .ok ⟨StopStdin, SIGTERM,
      if strings.TrimSpace s.Command = "" then "stop\n" else s.Command, g⟩ := by
  unfold ConvertStopPublic
  by_cases hb : strings.TrimSpace s.GracePeriod = ""
  · rw [if_pos hb] at hg
    simp only [h0, h1, hb, hg, ne_eq, not_true_eq_false, not_false_eq_true, if_true, if_false]
  · rw [if_neg hb] at hg
    simp only [h0, h1, hb, hg, ne_eq, not_true_eq_false, not_false_eq_true, if_true, if_false]

theorem ConvertStopPublic_signal (serverName : String) (s : Stop) (g : time.Duration)
    (h0 : strings.TrimSpace s.Typ = "" ∨ strings.ToLower (strings.TrimSpace s.Typ) = "signal")
    (hg : if strings.TrimSpace s.GracePeriod = "" then g = 10 * time.Second
      else time.ParseDuration (strings.TrimSpace s.GracePeriod) = .ok g) :
    ConvertStopPublic serverName s =
      if strings.TrimSpace s.Signal ≠ "" then
        match parseSignal (strings.TrimSpace s.Signal) with
        | .error e => .error ("server " ++ strconv.Quote serverName ++
            " has invalid stop.signal " ++ strconv.Quote s.Signal ++ ": " ++ e)
        | .ok sig => .ok ⟨StopSignal, sig, "", g⟩
      else .ok ⟨StopSignal, SIGTERM, "", g⟩ := by
  have hne : ¬ (StopSignal = StopStdin) := by decide
  have hgr : (if strings.TrimSpace s.GracePeriod ≠ "" then
        match time.ParseDuration (strings.TrimSpace s.GracePeriod) with
        | .error e => (Except.error ("server " ++ strconv.Quote serverName ++
            " has invalid stop.grace_period " ++ strconv.Quote s.GracePeriod ++ ": " ++ e) :
              Except String time.Duration)
        | .ok d => .ok d
      else .ok (10 * time.Second)) = .ok g := by
    by_cases hb : strings.TrimSpace s.GracePeriod = ""
    · rw [if_pos hb] at hg
      simp only [hb, hg, ne_eq, not_true_eq_false, if_false]
    · rw [if_neg hb] at hg
      simp only [hb, hg, ne_eq, not_false_eq_true, if_true]
  unfold ConvertStopPublic
  simp only [hgr]
  by_cases ht : strings.TrimSpace s.Typ = ""
  · simp only [ht, ne_eq, not_true_eq_false, if_false, hne, true_and]
  · have hsig := h0.resolve_left ht
    have hnot : ¬ (("signal" : String) = "stdin") := by decide
    simp only [ht, hsig, hnot, ne_eq, not_false_eq_true, if_true, if_false, hne, true_and]

end config

namespace config

open manager

theorem append_SIG_inj (a b : String) (h : "SIG" ++ a = "SIG" ++ b) : a = b := by
  have := congrArg String.data h
  simp only [String.data_append, List.append_cancel_left_eq] at this
  exact String.ext this

/-- The function `parseSignal` fails on every name that, trimmed and raised, is none of the
five names with or without `SIG`, and succeeds on every other name. -/
theorem parseSignal_error_iff (x : String) :
    (∃ e, parseSignal x = .error e) ↔
      strings.ToUpper (strings.TrimSpace x) ∉ signalNames := by
  constructor
  · rintro ⟨e, he⟩ hmem
    simp only [signalNames, List.mem_cons, List.mem_singleton, List.not_mem_nil, or_false] at hmem
    unfold parseSignal at he
    rcases hmem with h | h | h | h | h | h | h | h | h | h <;>
      · rw [h] at he
        simp +decide at he
  · intro h
    simp only [signalNames, List.mem_cons, List.mem_singleton, List.not_mem_nil, or_false,
      not_or] at h
    obtain ⟨h1, h2, h3, h4, h5, h6, h7, h8, h9, h10⟩ := h
    unfold parseSignal
    by_cases hp : strings.HasPrefix (strings.ToUpper (strings.TrimSpace x)) "SIG" = true
    · simp only [hp, if_true, h6, h7, h8, h9, h10, if_false]
      exact ⟨_, rfl⟩
    · have e1 : ¬ ("SIG" ++ strings.ToUpper (strings.TrimSpace x) = "SIGTERM") :=
        fun e => h1 (append_SIG_inj _ "TERM" e)
      have e2 : ¬ ("SIG" ++ strings.ToUpper (strings.TrimSpace x) = "SIGINT") :=
        fun e => h2 (append_SIG_inj _ "INT" e)
      have e3 : ¬ ("SIG" ++ strings.ToUpper (strings.TrimSpace x) = "SIGKILL") :=
        fun e => h3 (append_SIG_inj _ "KILL" e)
      have e4 : ¬ ("SIG" ++ strings.ToUpper (strings.TrimSpace x) = "SIGHUP") :=
        fun e => h4 (append_SIG_inj _ "HUP" e)
      have e5 : ¬ ("SIG" ++ strings.ToUpper (strings.TrimSpace x) = "SIGQUIT") :=
        fun e => h5 (append_SIG_inj _ "QUIT" e)
      simp only [hp, if_false, e1, e2, e3, e4, e5, Bool.false_eq_true]
      exact ⟨_, rfl⟩

end config

namespace config

open manager

/-- C22, counterexample: a stop block of type `stdin` with a signal name that no signal has;
`ConvertStopPublic` returns the policy of the type `stdin` and does not read the name. -/
theorem ConvertStopPublic_stdin_ignores_signal :
    strings.TrimSpace "BOGUS" ≠ "" ∧
    strings.ToUpper (strings.TrimSpace "BOGUS") ∉ signalNames ∧
    ConvertStopPublic "mc" ⟨"stdin", "", "BOGUS", ""⟩
      = .ok ⟨StopStdin, SIGTERM, "stop\n", 10 * time.Second⟩ := by
  decide

/-- C22, amended: `ConvertStopPublic` returns an error for every stop block whose type is not
blank and, trimmed and lowered, neither `stdin` nor `signal`; for every stop block whose
grace period is not blank and does not parse as a duration; and for every stop block whose
type is not `stdin` and whose signal is not blank and, trimmed and raised, none of `TERM`,
`INT`, `KILL`, `HUP`, `QUIT` with or without `SIG`. -/
theorem ConvertStopPublic_errors (serverName : String) (s : Stop) :
    (strings.TrimSpace s.Typ ≠ "" → strings.ToLower (strings.TrimSpace s.Typ) ≠ "stdin" →
      strings.ToLower (strings.TrimSpace s.Typ) ≠ "signal" →
      ∃ e, ConvertStopPublic serverName s = .error e) ∧
    (strings.TrimSpace s.GracePeriod ≠ "" →
      (∃ e, time.ParseDuration (strings.TrimSpace s.GracePeriod) = .error e) →
      ∃ e, ConvertStopPublic serverName s = .error e) ∧
    (¬ (strings.TrimSpace s.Typ ≠ "" ∧ strings.ToLower (strings.TrimSpace s.Typ) = "stdin") →
      strings.TrimSpace s.Signal ≠ "" →
      strings.ToUpper (strings.TrimSpace s.Signal) ∉ signalNames →
      ∃ e, ConvertStopPublic serverName s = .error e) := by
  refine ⟨fun h0 h1 h2 => ⟨_, ConvertStopPublic_type_error serverName s h0 h1 h2⟩,
    fun h0 ⟨e, he⟩ => ConvertStopPublic_grace_error serverName s e h0 he,
    fun hns hsig hname => ?_⟩
  by_cases hty : strings.TrimSpace s.Typ = "" ∨
      strings.ToLower (strings.TrimSpace s.Typ) = "signal"
  · by_cases hb : strings.TrimSpace s.GracePeriod = ""
    · rw [ConvertStopPublic_signal serverName s (10 * time.Second) hty (by rw [if_pos hb])]
      rw [← strings.TrimSpace_idem] at hname
      obtain ⟨e, he⟩ := (parseSignal_error_iff _).mpr hname
      simp only [hsig, ne_eq, not_false_eq_true, if_true, he]
      exact ⟨_, rfl⟩
    · cases hd : time.ParseDuration (strings.TrimSpace s.GracePeriod) with
      | error e => exact ConvertStopPublic_grace_error serverName s e hb hd
      | ok g =>
        rw [ConvertStopPublic_signal serverName s g hty (by rw [if_neg hb]; exact hd)]
        rw [← strings.TrimSpace_idem] at hname
        obtain ⟨e, he⟩ := (parseSignal_error_iff _).mpr hname
        simp only [hsig, ne_eq, not_false_eq_true, if_true, he]
        exact ⟨_, rfl⟩
  · rw [not_or] at hty
    have h1 : strings.ToLower (strings.TrimSpace s.Typ) ≠ "stdin" := fun h => hns ⟨hty.1, h⟩
    exact ⟨_, ConvertStopPublic_type_error serverName s hty.1 h1 hty.2⟩

/-- C23, counterexample: a stop block that gives only the grace period `5s` converts to a
policy of type `signal` whose stdin line is empty, not the line `stop` with its newline. -/
theorem ConvertStopPublic_signal_has_no_stdin_line :
    ConvertStopPublic "mc" ⟨"", "", "", "5s"⟩ = .ok ⟨StopSignal, SIGTERM, "", 5 * time.Second⟩ ∧
    (⟨StopSignal, SIGTERM, "", 5 * time.Second⟩ : StopConfig).StdinCommand ≠ "stop\n" := by
  decide

/-- C23, amended: a stop block whose type, signal and grace period are blank converts to the
policy of type `signal` with `SIGTERM` and 10s; and in every policy that `ConvertStopPublic`
returns, a blank type gives the type `signal`, a blank signal gives `SIGTERM`, a blank grace
period gives 10s, a blank command gives, under the type `stdin`, the line `stop` with its
newline, and the stdin line of a policy of type `signal` is empty. -/
theorem ConvertStopPublic_defaults (serverName : String) (s : Stop) :
    (strings.TrimSpace s.Typ = "" → strings.TrimSpace s.Signal = "" →
      strings.TrimSpace s.GracePeriod = "" →
      ConvertStopPublic serverName s = .ok ⟨StopSignal, SIGTERM, "", 10 * time.Second⟩) ∧
    (∀ cfg, ConvertStopPublic serverName s = .ok cfg →
      (strings.TrimSpace s.Typ = "" → cfg.Typ = StopSignal) ∧
      (strings.TrimSpace s.Signal = "" → cfg.Signal = SIGTERM) ∧
      (strings.TrimSpace s.GracePeriod = "" → cfg.GracePeriod = 10 * time.Second) ∧
      (cfg.Typ = StopStdin → strings.TrimSpace s.Command = "" → cfg.StdinCommand = "stop\n") ∧
      (cfg.Typ = StopSignal → cfg.StdinCommand = "")) := by
  have hne : ¬ (StopSignal = StopStdin) := by decide
  refine ⟨fun ht hsig hb => ?_, fun cfg hcfg => ?_⟩
  · rw [ConvertStopPublic_signal serverName s (10 * time.Second) (Or.inl ht) (by rw [if_pos hb])]
    simp only [hsig, ne_eq, not_true_eq_false, if_false]
  · have key : ∀ g : time.Duration,
        (if strings.TrimSpace s.GracePeriod = "" then g = 10 * time.Second
          else time.ParseDuration (strings.TrimSpace s.GracePeriod) = .ok g) →
        (strings.TrimSpace s.Typ = "" → cfg.Typ = StopSignal) ∧
        (strings.TrimSpace s.Signal = "" → cfg.Signal = SIGTERM) ∧
        (strings.TrimSpace s.GracePeriod = "" → cfg.GracePeriod = 10 * time.Second) ∧
        (cfg.Typ = StopStdin → strings.TrimSpace s.Command = "" →
          cfg.StdinCommand = "stop\n") ∧
        (cfg.Typ = StopSignal → cfg.StdinCommand = "") := by
      intro g hg
      have hgb : strings.TrimSpace s.GracePeriod = "" → g = 10 * time.Second := by
        intro hb; rw [if_pos hb] at hg; exact hg
      by_cases ht : strings.TrimSpace s.Typ = ""
      · rw [ConvertStopPublic_signal serverName s g (Or.inl ht) hg] at hcfg
        by_cases hsig : strings.TrimSpace s.Signal = ""
        · simp only [hsig, ne_eq, not_true_eq_false, if_false, Except.ok.injEq] at hcfg
          subst hcfg
          exact ⟨fun _ => rfl, fun _ => rfl, hgb, fun h => absurd h hne, fun _ => rfl⟩
        · simp only [hsig, ne_eq, not_false_eq_true, if_true] at hcfg
          cases hp : parseSignal (strings.TrimSpace s.Signal) with
          | error e => rw [hp] at hcfg; cases hcfg
          | ok sig =>
            rw [hp] at hcfg
            simp only [Except.ok.injEq] at hcfg
            subst hcfg
            exact ⟨fun _ => rfl, fun h => absurd h hsig, hgb, fun h => absurd h hne, fun _ => rfl⟩
      · by_cases h1 : strings.ToLower (strings.TrimSpace s.Typ) = "stdin"
        · rw [ConvertStopPublic_stdin serverName s g ht h1 hg] at hcfg
          simp only [Except.ok.injEq] at hcfg
          subst hcfg
          exact ⟨fun h => absurd h ht, fun _ => rfl, hgb, fun _ hc => by simp only [hc, if_true],
            fun h => absurd h.symm hne⟩
        · by_cases h2 : strings.ToLower (strings.TrimSpace s.Typ) = "signal"
          · rw [ConvertStopPublic_signal serverName s g (Or.inr h2) hg] at hcfg
            by_cases hsig : strings.TrimSpace s.Signal = ""
            · simp only [hsig, ne_eq, not_true_eq_false, if_false, Except.ok.injEq] at hcfg
              subst hcfg
              exact ⟨fun _ => rfl, fun _ => rfl, hgb, fun h => absurd h hne, fun _ => rfl⟩
            · simp only [hsig, ne_eq, not_false_eq_true, if_true] at hcfg
              cases hp : parseSignal (strings.TrimSpace s.Signal) with
              | error e => rw [hp] at hcfg; cases hcfg
              | ok sig =>
                rw [hp] at hcfg
                simp only [Except.ok.injEq] at hcfg
                subst hcfg
                exact ⟨fun _ => rfl, fun h => absurd h hsig, hgb, fun h => absurd h hne, fun _ => rfl⟩
          · rw [ConvertStopPublic_type_error serverName s ht h1 h2] at hcfg
            cases hcfg
    by_cases hb : strings.TrimSpace s.GracePeriod = ""
    · exact key (10 * time.Second) (by rw [if_pos hb])
    · cases hd : time.ParseDuration (strings.TrimSpace s.GracePeriod) with
      | error e =>
        obtain ⟨e', he'⟩ := ConvertStopPublic_grace_error serverName s e hb hd
        rw [he'] at hcfg
        cases hcfg
      | ok g => exact key g (by rw [if_neg hb]; exact hd)

end config

namespace manager

open time

theorem graceful_keeps_states (m : Manager) (ptr : Nat) (sc : StopConfig) (pid : Int) :
    (Manager.Stop.graceful m ptr sc pid).procs = m.procs ∧
    (∀ p, m.heap[ptr]? = some p →
      ∃ q, (Manager.Stop.graceful m ptr sc pid).heap[ptr]? = some q ∧ q.state = p.state) := by
  by_cases h1 : sc.Typ = StopStdin
  · have hg : Manager.Stop.graceful m ptr sc pid = ⟨m.procs, modifyAt m.heap ptr
        (fun p => { p with stdin := p.stdin ++
          [if sc.StdinCommand = "" then "stop\n" else sc.StdinCommand] }), m.kills⟩ := by
      simp only [Manager.Stop.graceful, h1, if_true]
    rw [hg]
    refine ⟨rfl, fun p hp => ?_⟩
    simp only [getElem?_modifyAt, if_true, hp, Option.map_some']
    exact ⟨_, rfl, rfl⟩
  · simp only [Manager.Stop.graceful, h1, if_false]
    split_ifs <;> exact ⟨rfl, fun p hp => ⟨p, hp, rfl⟩⟩

theorem kills_settle (m : Manager) (ptr : Nat) (env : StopEnv) (t : Duration) :
    (m.settle ptr env t).kills = m.kills := by
  unfold Manager.settle
  split
  · rfl
  · split_ifs <;> rfl

theorem maxPolls_step (g a b : Int) (n : Nat) (ha : a < g) (hb : a + 200000000 ≤ b)
    (hn : ((g - a + 199999999) / 200000000).toNat < n + 1) :
    ((g - b + 199999999) / 200000000).toNat < n := by
  omega

theorem maxPolls_lt (grace e e1 : Duration) (n : Nat) (he : e < grace)
    (he1 : e + 200 * Millisecond ≤ e1)
    (hn : Manager.Stop.maxPolls (grace - e) < n + 1) :
    Manager.Stop.maxPolls (grace - e1) < n := by
  have h := maxPolls_step grace e e1 n he he1
  exact h hn

theorem loop_kills (name : String) (ptr : Nat) (env : StopEnv) (grace : Duration) (fuel : Nat) :
    ∀ (m : Manager) (e : Duration) (lags : List Nat),
      (Manager.Stop.loop m name ptr env grace fuel e lags).1.kills = m.kills := by
  induction fuel with
  | zero => intro m e lags; rfl
  | succ n ih =>
    intro m e lags
    simp only [Manager.Stop.loop]
    split_ifs
    · exact kills_settle _ _ _ _
    · rw [ih]; exact kills_settle _ _ _ _
    · rfl

/-- The loop returns from its body only after `IsRunning` has answered false. -/
theorem loop_returned (name : String) (ptr : Nat) (env : StopEnv) (grace : Duration)
    (fuel : Nat) :
    ∀ (m : Manager) (e : Duration) (lags : List Nat),
      (Manager.Stop.loop m name ptr env grace fuel e lags).2.1 = true →
      (Manager.Stop.loop m name ptr env grace fuel e lags).1.IsRunning name = false := by
  induction fuel with
  | zero => intro m e lags h; simp [Manager.Stop.loop] at h
  | succ n ih =>
    intro m e lags
    simp only [Manager.Stop.loop]
    split_ifs with h1 h2
    · intro _
      simpa using h2
    · exact ih _ _ _
    · intro h; simp at h

/-- The loop ends by its test, not by the bound on its tests: when it has not returned from
its body, the clock was at or after the deadline at its last test. -/
theorem loop_expired (name : String) (ptr : Nat) (env : StopEnv) (grace : Duration)
    (fuel : Nat) :
    ∀ (m : Manager) (e : Duration) (lags : List Nat),
      Manager.Stop.maxPolls (grace - e) < fuel →
      (Manager.Stop.loop m name ptr env grace fuel e lags).2.1 = false →
      grace ≤ (Manager.Stop.loop m name ptr env grace fuel e lags).2.2.1 := by
  induction fuel with
  | zero => intro m e lags h; exact absurd h (Nat.not_lt_zero _)
  | succ n ih =>
    intro m e lags hfuel
    simp only [Manager.Stop.loop]
    split_ifs with h1 h2
    · intro h; simp at h
    · apply ih
      have hlag0 : (0 : Int) ≤ ((lags.headD 0 : Nat) : Int) := Int.ofNat_nonneg _
      have hlag1 : (0 : Int) ≤ ((lags.tail.headD 0 : Nat) : Int) := Int.ofNat_nonneg _
      have he : e < grace := lt_of_le_of_lt (by linarith) h1
      exact maxPolls_lt grace e _ n he (by linarith) hfuel
    · intro _
      exact not_lt.mp h1

theorem loop_never_reaped (name : String) (ptr : Nat) (env : StopEnv) (grace : Duration)
    (henv : env.reaped = none) (m : Manager) (hrun : m.IsRunning name = true) (fuel : Nat) :
    ∀ (e : Duration) (lags : List Nat),
      (Manager.Stop.loop m name ptr env grace fuel e lags).2.1 = false := by
  induction fuel with
  | zero => intro e lags; rfl
  | succ n ih =>
    intro e lags
    have hs : ∀ t, m.settle ptr env t = m := fun t => by simp only [Manager.settle, henv]
    simp only [Manager.Stop.loop, hs, hrun, Bool.not_true, Bool.false_eq_true, if_false]
    split_ifs
    · exact ih _ _
    · rfl

theorem loop_reaped_at_first_poll (name : String) (ptr : Nat) (env : StopEnv)
    (grace d : Duration) (w : WaitResult) (henv : env.reaped = some (d, w)) (m : Manager)
    (p : managedProc) (hget : m.procs.get name = some ptr) (hheap : m.heap[ptr]? = some p)
    (hrun : p.state.Running = true) (fuel : Nat) (lags : List Nat)
    (htest : ((lags.headD 0 : Nat) : Int) < grace)
    (hd : d ≤ ((lags.headD 0 : Nat) : Int) + ((lags.tail.headD 0 : Nat) : Int)) :
    (Manager.Stop.loop m name ptr env grace (fuel + 1) 0 lags).2.1 = true := by
  have hs : m.settle ptr env (0 + ((lags.headD 0 : Nat) : Int) + ((lags.tail.headD 0 : Nat) : Int))
      = m.reap ptr w (env.now.Add d) := by
    have hd' : d ≤ 0 + ((lags.headD 0 : Nat) : Int) + ((lags.tail.headD 0 : Nat) : Int) := by
      linarith
    simp only [Manager.settle, henv, hd', hheap, Option.map_some', hrun, and_self, if_true]
  have hr : (m.reap ptr w (env.now.Add d)).IsRunning name = false := by
    simp only [Manager.IsRunning, Manager.lookup, Manager.reap, hget, getElem?_modifyAt,
      if_true, hheap, Option.map_some']
  have ht : (0 : Duration) + ((lags.headD 0 : Nat) : Int) < grace := by linarith
  simp only [Manager.Stop.loop, ht, if_true, hs, hr, Bool.not_false]

/-- The run of `Stop` on a record that is running, by what its waiting loop returns. -/
theorem Stop_running (m : Manager) (name : String) (ptr : Nat) (p : managedProc) (pid : Int)
    (env : StopEnv) (hget : m.procs.get name = some ptr) (hheap : m.heap[ptr]? = some p)
    (hproc : p.cmdProcess = some pid) (hrun : p.state.Running = true) :
    ((Manager.Stop.loop (Manager.Stop.graceful m ptr p.cfg.Stop pid) name ptr env
        (Manager.Stop.grace p.cfg.Stop) (Manager.Stop.maxPolls (Manager.Stop.grace p.cfg.Stop) + 1)
        0 env.lags).2.1 = true →
      (m.Stop name env).1 = (Manager.Stop.loop (Manager.Stop.graceful m ptr p.cfg.Stop pid)
        name ptr env (Manager.Stop.grace p.cfg.Stop)
        (Manager.Stop.maxPolls (Manager.Stop.grace p.cfg.Stop) + 1) 0 env.lags).1 ∧
      (m.Stop name env).2.1 = (m.Stop name env).1.Status name) ∧
    ((Manager.Stop.loop (Manager.Stop.graceful m ptr p.cfg.Stop pid) name ptr env
        (Manager.Stop.grace p.cfg.Stop) (Manager.Stop.maxPolls (Manager.Stop.grace p.cfg.Stop) + 1)
        0 env.lags).2.1 = false →
      (m.Stop name env).1.kills = (Manager.Stop.loop (Manager.Stop.graceful m ptr p.cfg.Stop pid)
        name ptr env (Manager.Stop.grace p.cfg.Stop)
        (Manager.Stop.maxPolls (Manager.Stop.grace p.cfg.Stop) + 1) 0 env.lags).1.kills
          ++ [(-pid, SIGKILL)]) := by
  simp only [Manager.Stop, hget, hheap, hproc, hrun, Bool.not_true, Bool.false_eq_true, if_false]
  rcases Manager.Stop.loop (Manager.Stop.graceful m ptr p.cfg.Stop pid) name ptr env
      (Manager.Stop.grace p.cfg.Stop) (Manager.Stop.maxPolls (Manager.Stop.grace p.cfg.Stop) + 1)
      0 env.lags with ⟨m2, b, t, rest⟩
  cases b
  · refine ⟨fun h => by simp at h, fun _ => ?_⟩
    simp only [kills_settle, Manager.kill]
  · exact ⟨fun _ => ⟨rfl, rfl⟩, fun h => by simp at h⟩

/-- C24, counterexample: for a grace period of `0s`, `ConvertStopPublic` returns the grace 0,
`Stop` replaces it by 10s, and a child that is reaped 5s after `Stop` has computed its
deadline is not sent `SIGKILL`. -/
theorem Stop_zero_grace_waits_10s :
    config.ConvertStopPublic "mc" ⟨"signal", "", "TERM", "0s"⟩ = .ok Scenario.zeroGracePolicy ∧
    Scenario.zeroGracePolicy.GracePeriod = 0 ∧
    Manager.Stop.grace Scenario.zeroGracePolicy = 10 * Second ∧
    (Scenario.zeroGrace.Stop "mc" Scenario.reapedAfter5s).1.kills = [(-10, SIGTERM)] ∧
    ((Scenario.zeroGrace.Stop "mc" Scenario.reapedAfter5s).2.1).Running = false ∧
    ((Scenario.zeroGrace.Stop "mc" Scenario.reapedAfter5s).2.1).ExitedAt = ⟨5000000005⟩ := by
  decide

/-- C24, amended: `Stop` uses the grace period G of the policy when G is not 0, and 10s when
G is 0; its deadline is that grace after the reading of the clock that it takes once the
graceful attempt is made. On a record that is running, whatever time the steps of `Stop`
take: when the waiting loop returns because a poll saw the instance no longer running, `Stop`
sends no `SIGKILL` and returns a state that is not running; otherwise the loop has ended at a
test that read the clock at or after the deadline, and `Stop` sends `SIGKILL` to the process
group. The loop does not return when the child is never reaped, and it returns at its first
poll when that poll is before the deadline and the child is reaped by then. -/
theorem Stop_force_kill_deadline (sc : StopConfig) :
    (sc.GracePeriod ≠ 0 → Manager.Stop.grace sc = sc.GracePeriod) ∧
    (sc.GracePeriod = 0 → Manager.Stop.grace sc = 10 * Second) ∧
    (∀ (m : Manager) (name : String) (ptr : Nat) (p : managedProc) (pid : Int) (env : StopEnv),
      m.procs.get name = some ptr → m.heap[ptr]? = some p → p.cfg.Stop = sc →
      p.cmdProcess = some pid → p.state.Running = true →
      ((Manager.Stop.loop (Manager.Stop.graceful m ptr sc pid) name ptr env
          (Manager.Stop.grace sc) (Manager.Stop.maxPolls (Manager.Stop.grace sc) + 1)
          0 env.lags).2.1 = true →
        (m.Stop name env).1.kills = (Manager.Stop.graceful m ptr sc pid).kills ∧
        (m.Stop name env).2.1.Running = false) ∧
      ((Manager.Stop.loop (Manager.Stop.graceful m ptr sc pid) name ptr env
          (Manager.Stop.grace sc) (Manager.Stop.maxPolls (Manager.Stop.grace sc) + 1)
          0 env.lags).2.1 = false →
        (m.Stop name env).1.kills
          = (Manager.Stop.graceful m ptr sc pid).kills ++ [(-pid, SIGKILL)] ∧
        Manager.Stop.grace sc ≤
          (Manager.Stop.loop (Manager.Stop.graceful m ptr sc pid) name ptr env
            (Manager.Stop.grace sc) (Manager.Stop.maxPolls (Manager.Stop.grace sc) + 1)
            0 env.lags).2.2.1) ∧
      (env.reaped = none →
        (m.Stop name env).1.kills
          = (Manager.Stop.graceful m ptr sc pid).kills ++ [(-pid, SIGKILL)]) ∧
      (∀ d w, env.reaped = some (d, w) →
        ((env.lags.headD 0 : Nat) : Int) < Manager.Stop.grace sc →
        d ≤ ((env.lags.headD 0 : Nat) : Int) + ((env.lags.tail.headD 0 : Nat) : Int) →
        (m.Stop name env).1.kills = (Manager.Stop.graceful m ptr sc pid).kills ∧
        (m.Stop name env).2.1.Running = false)) := by
  refine ⟨fun h => by simp only [Manager.Stop.grace, h, if_false],
    fun h => by simp only [Manager.Stop.grace, h, if_true], ?_⟩
  intro m name ptr p pid env hget hheap hsc hproc hrun
  obtain ⟨hprocs, hq⟩ := graceful_keeps_states m ptr sc pid
  obtain ⟨q, hq1, hq2⟩ := hq p hheap
  have hget1 : (Manager.Stop.graceful m ptr sc pid).procs.get name = some ptr := by
    rw [hprocs]; exact hget
  have hrunq : q.state.Running = true := by rw [hq2]; exact hrun
  have hstop := Stop_running m name ptr p pid env hget hheap hproc hrun
  rw [hsc] at hstop
  have hret : (Manager.Stop.loop (Manager.Stop.graceful m ptr sc pid) name ptr env
      (Manager.Stop.grace sc) (Manager.Stop.maxPolls (Manager.Stop.grace sc) + 1)
      0 env.lags).2.1 = true →
      (m.Stop name env).1.kills = (Manager.Stop.graceful m ptr sc pid).kills ∧
      (m.Stop name env).2.1.Running = false := by
    intro h
    obtain ⟨h1, h2⟩ := hstop.1 h
    refine ⟨by rw [h1, loop_kills], ?_⟩
    have hnot := loop_returned name ptr env _ _ _ _ _ h
    rw [← h1] at hnot
    rw [h2]
    unfold Manager.IsRunning at hnot
    unfold Manager.Status
    cases hl : (m.Stop name env).1.lookup name with
    | none => rfl
    | some r => rw [hl] at hnot; exact hnot
  have hexp : (Manager.Stop.loop (Manager.Stop.graceful m ptr sc pid) name ptr env
      (Manager.Stop.grace sc) (Manager.Stop.maxPolls (Manager.Stop.grace sc) + 1)
      0 env.lags).2.1 = false →
      (m.Stop name env).1.kills
        = (Manager.Stop.graceful m ptr sc pid).kills ++ [(-pid, SIGKILL)] := by
    intro h
    rw [hstop.2 h, loop_kills]
  refine ⟨hret, fun h => ⟨hexp h, ?_⟩, fun henv => ?_, fun d w henv htest hd => ?_⟩
  · apply loop_expired _ _ _ _ _ _ _ _ _ h
    rw [sub_zero]
    exact Nat.lt_succ_self _
  · apply hexp
    apply loop_never_reaped name ptr env _ henv
    simp only [Manager.IsRunning, Manager.lookup, hget1, hq1, hrunq]
  · apply hret
    exact loop_reaped_at_first_poll name ptr env _ d w henv _ q hget1 hq1 hrunq _ _ htest hd

end manager

namespace server

open protocol time

/-- C27, counterexample: a response with a payload and an error, relayed by the endpoint
`start`; the reply has the status 400 and the body with `agent_id`, `server` and `error`, not
the payload. -/
theorem command_error_before_payload :
    Scenario.failedStart.Payload ≠ "" ∧ Scenario.failedStart.Error ≠ "" ∧
    (HTTPServer.handleStart Scenario.oneAgent "a" "mc" (.ok Scenario.target) "r1" ⟨2⟩
      Scenario.failedStartArrives).2
      = some ⟨400, "application/json",
          HTTPBody.agentError "a" "mc" "mc already running (pid=10)"⟩ ∧
    HTTPServer.command.relay "a" "mc" Scenario.failedStart
      ≠ ⟨200, "application/json", HTTPBody.raw Scenario.failedStart.Payload⟩ := by
  decide

/-- C27, amended: the endpoints `start`, `stop` and `status` relay a response of the agent as
follows. A response with an error gets the status 400 and the JSON body with `agent_id`,
`server` and `error`; a response without an error and with a payload gets the status 200 and
the bytes of the payload as its body; a response with neither gets the status 200 and the
JSON body with `agent_id`, `server` and `ok`. -/
theorem command_relays (agentID serverName : String) (resp : Message) :
    (resp.Error ≠ "" →
      HTTPServer.command.relay agentID serverName resp
        = ⟨400, "application/json", HTTPBody.agentError agentID serverName resp.Error⟩) ∧
    (resp.Error = "" → resp.Payload ≠ "" →
      HTTPServer.command.relay agentID serverName resp
        = ⟨200, "application/json", HTTPBody.raw resp.Payload⟩) ∧
    (resp.Error = "" → resp.Payload = "" →
      HTTPServer.command.relay agentID serverName resp
        = ⟨200, "application/json", HTTPBody.agentOk agentID serverName⟩) ∧
    (∀ (s s1 : State) (cmdType : String) (targetJSON : Except String String) (reqID : String)
        (now : Time) (sch : Schedule), agentID ≠ "" → serverName ≠ "" →
      Registry.SendCommand s agentID cmdType targetJSON reqID now sch = (s1, some (.ok resp)) →
      HTTPServer.command s agentID serverName cmdType targetJSON reqID now sch
        = (s1, some (HTTPServer.command.relay agentID serverName resp))) ∧
    (∀ (s : State) (targetJSON : Except String String) (reqID : String) (now : Time)
        (sch : Schedule),
      HTTPServer.handleStart s agentID serverName targetJSON reqID now sch
        = HTTPServer.command s agentID serverName CmdStart targetJSON reqID now sch ∧
      HTTPServer.handleStop s agentID serverName targetJSON reqID now sch
        = HTTPServer.command s agentID serverName CmdStop targetJSON reqID now sch ∧
      HTTPServer.handleStatus s agentID serverName targetJSON reqID now sch
        = HTTPServer.command s agentID serverName CmdStatus targetJSON reqID now sch) := by
  refine ⟨fun he => ?_, fun he hp => ?_, fun he hp => ?_, ?_, fun _ _ _ _ _ => ⟨rfl, rfl, rfl⟩⟩
  · simp only [HTTPServer.command.relay, he, ne_eq, not_false_eq_true, if_true, writeJSON,
      StatusBadRequest]
  · have hl : resp.Payload.length ≠ 0 := by
      intro h
      exact hp (String.ext (List.length_eq_zero.mp h))
    simp only [HTTPServer.command.relay, he, hl, ne_eq, not_true_eq_false, if_false, StatusOK]
  · simp only [HTTPServer.command.relay, he, hp, ne_eq, not_true_eq_false, if_false,
      String.length_empty, if_true, writeJSON, StatusOK]
  · intro s s1 cmdType targetJSON reqID now sch ha hn hsend
    simp only [HTTPServer.command, ha, hn, if_false, hsend]

end server

namespace instances

/-- C21, the run that fails: `CreateInstance` accepts the name `../../configs`; its instance
directory is `configs` and its log path is `../configs.log`, neither below the base instance
directory `data/instances` or the log directory `logs`; and `DeleteInstance` with
`deleteData` then removes the file of the store, `configs/instances.yaml`, which is not below
the base instance directory. -/
theorem instance_name_escapes_base_directory :
    (Scenario.withStore.CreateInstance Scenario.emptyFS "../../configs" "sleeper" true none
      Scenario.healthy).2.2 = none ∧
    Scenario.withStore.BaseInstanceDir = "data/instances" ∧
    Scenario.withStore.InstanceDir "../../configs" = "configs" ∧
    below Scenario.withStore.BaseInstanceDir (Scenario.withStore.InstanceDir "../../configs")
      = false ∧
    Scenario.withStore.LogDir = "logs" ∧
    Scenario.withStore.LogPath "../../configs" = "../configs.log" ∧
    below Scenario.withStore.LogDir (Scenario.withStore.LogPath "../../configs") = false ∧
    below Scenario.withStore.BaseInstanceDir Scenario.store.Path = false ∧
    (Scenario.withStore.CreateInstance Scenario.emptyFS "../../configs" "sleeper" true none
      Scenario.healthy).2.1.files.has Scenario.store.Path = true ∧
    ((Scenario.withStore.CreateInstance Scenario.emptyFS "../../configs" "sleeper" true none
      Scenario.healthy).1.DeleteInstance
        (Scenario.withStore.CreateInstance Scenario.emptyFS "../../configs" "sleeper" true none
          Scenario.healthy).2.1 "../../configs" false true Scenario.healthyDelete).2.2 = none ∧
    ((Scenario.withStore.CreateInstance Scenario.emptyFS "../../configs" "sleeper" true none
      Scenario.healthy).1.DeleteInstance
        (Scenario.withStore.CreateInstance Scenario.emptyFS "../../configs" "sleeper" true none
          Scenario.healthy).2.1 "../../configs" false true Scenario.healthyDelete).2.1.files.has
      Scenario.store.Path = false ∧
    Scenario.withStore.InstanceDir "i1" = "data/instances/i1" ∧
    below Scenario.withStore.BaseInstanceDir (Scenario.withStore.InstanceDir "i1") = true := by
  decide

end instances

namespace config

open manager

/-- C22, witness: the type `kill`, the grace period `10` without a unit, and the signal
`USR1` under the type `signal` are each refused. -/
theorem ConvertStopPublic_errors_witness :
    (∃ e, ConvertStopPublic "mc" ⟨"kill", "", "", ""⟩ = .error e) ∧
    (∃ e, ConvertStopPublic "mc" ⟨"", "", "", "10"⟩ = .error e) ∧
    (∃ e, ConvertStopPublic "mc" ⟨"signal", "", "USR1", "2s"⟩ = .error e) :=
  ⟨(ConvertStopPublic_errors "mc" ⟨"kill", "", "", ""⟩).1 (by decide) (by decide) (by decide),
    (ConvertStopPublic_errors "mc" ⟨"", "", "", "10"⟩).2.1 (by decide)
      ⟨"time: missing unit in duration \"10\"", by decide⟩,
    (ConvertStopPublic_errors "mc" ⟨"signal", "", "USR1", "2s"⟩).2.2 (by decide) (by decide)
      (by decide)⟩

/-- C23, witness: the empty stop block converts to the policy of type `signal` with
`SIGTERM` and 10s, and the stop block that only gives the type `stdin` and a grace period
gets `SIGTERM` and the line `stop` with its newline. -/
theorem ConvertStopPublic_defaults_witness :
    ConvertStopPublic "mc" ⟨"", "", "", ""⟩ = .ok ⟨StopSignal, SIGTERM, "", 10 * time.Second⟩ ∧
    ConvertStopPublic "mc" ⟨"stdin", "", "", "3s"⟩
      = .ok ⟨StopStdin, SIGTERM, "stop\n", 3 * time.Second⟩ ∧
    (⟨StopStdin, SIGTERM, "stop\n", 3 * time.Second⟩ : StopConfig).StdinCommand = "stop\n" :=
  ⟨(ConvertStopPublic_defaults "mc" ⟨"", "", "", ""⟩).1 (by decide) (by decide) (by decide),
    by decide,
    ((ConvertStopPublic_defaults "mc" ⟨"stdin", "", "", "3s"⟩).2
      ⟨StopStdin, SIGTERM, "stop\n", 3 * time.Second⟩ (by decide)).2.2.2.1 (by decide)
      (by decide)⟩

end config

namespace manager

open time

/-- C24, witness: under the policy with the grace 0, `Stop` uses 10s, and a child that is
never reaped is sent `SIGTERM` and then `SIGKILL`. -/
theorem Stop_force_kill_deadline_witness :
    Manager.Stop.grace Scenario.zeroGracePolicy = 10 * Second ∧
    (Scenario.zeroGrace.Stop "mc" ⟨⟨5⟩, none, [70000, 3000]⟩).1.kills
      = (Manager.Stop.graceful Scenario.zeroGrace 0 Scenario.zeroGracePolicy 10).kills
        ++ [(-10, SIGKILL)] :=
  ⟨(Stop_force_kill_deadline Scenario.zeroGracePolicy).2.1 (by decide),
    ((Stop_force_kill_deadline Scenario.zeroGracePolicy).2.2 Scenario.zeroGrace "mc" 0
      ⟨⟨"mc", "/bin/sleep", ["3600"], "", [], Scenario.zeroGracePolicy⟩, some 10,
        ⟨"mc", true, 10, ⟨1⟩, Time.zero, 0, ""⟩, [], "logs/mc.log", true⟩
      10 ⟨⟨5⟩, none, [70000, 3000]⟩ (by decide) (by decide) (by decide) (by decide)
      (by decide)).2.2.1 (by decide)⟩

/-- C25, witness: `Stop` on the empty supervisor, and on a supervisor whose instance `mc` has
exited. -/
theorem Stop_unknown_or_not_running_witness :
    NewManager.Stop "mc" ⟨⟨5⟩, none, []⟩
      = (NewManager, ServerState.zero, some "unknown server: mc") ∧
    ((NewManager.Start Scenario.mc "logs/mc.log" (SpawnOutcome.started 10 ⟨1⟩)).1.reap 0
        WaitResult.exited ⟨2⟩).Stop "mc" ⟨⟨5⟩, none, []⟩
      = ((NewManager.Start Scenario.mc "logs/mc.log" (SpawnOutcome.started 10 ⟨1⟩)).1.reap 0
          WaitResult.exited ⟨2⟩,
        ⟨"mc", false, 10, ⟨1⟩, ⟨2⟩, 0, ""⟩, some "mc is not running") :=
  ⟨(Stop_unknown_or_not_running NewManager "mc" ⟨⟨5⟩, none, []⟩).1 (by decide),
    (Stop_unknown_or_not_running
      ((NewManager.Start Scenario.mc "logs/mc.log" (SpawnOutcome.started 10 ⟨1⟩)).1.reap 0
        WaitResult.exited ⟨2⟩) "mc" ⟨⟨5⟩, none, []⟩).2
      ⟨Scenario.mc, some 10, ⟨"mc", false, 10, ⟨1⟩, ⟨2⟩, 0, ""⟩, [], "logs/mc.log", false⟩
      (by decide) (by decide)⟩

/-- C26, witness: `Status` of the instance `mc` that runs, and of a name without a record. -/
theorem Status_spec_witness :
    Scenario.zeroGrace.Status "mc" = ⟨"mc", true, 10, ⟨1⟩, Time.zero, 0, ""⟩ ∧
    Scenario.zeroGrace.Status "other" = ⟨"other", false, 0, Time.zero, Time.zero, 0, ""⟩ :=
  ⟨(Status_spec Scenario.zeroGrace "mc").1
      ⟨⟨"mc", "/bin/sleep", ["3600"], "", [], Scenario.zeroGracePolicy⟩, some 10,
        ⟨"mc", true, 10, ⟨1⟩, Time.zero, 0, ""⟩, [], "logs/mc.log", true⟩ (by decide),
    (Status_spec Scenario.zeroGrace "other").2 (by decide)⟩

/-- C28, witness: the child of the second record of `mc` is killed; the reaper writes the
exit status and the text of the error to that record and leaves the first record alone. -/
theorem reap_frame_witness :
    ((Scenario.restarted.reap 1 (WaitResult.exitError (some (-1)) "signal: killed")
        ⟨4⟩).heap.map (fun p => p.state))
      = [⟨"mc", false, 10, ⟨1⟩, ⟨2⟩, 0, ""⟩, ⟨"mc", false, 11, ⟨3⟩, ⟨4⟩, -1, "signal: killed"⟩] ∧
    (Scenario.restarted.reap 1 (WaitResult.exitError (some (-1)) "signal: killed") ⟨4⟩).heap[0]?
      = Scenario.restarted.heap[0]? :=
  ⟨by decide,
    (reap_frame Scenario.restarted 1 (WaitResult.exitError (some (-1)) "signal: killed")
      ⟨4⟩).2.1 0 (by decide)⟩

end manager

namespace server

open protocol time

/-- C27, witness: the response without payload and error gets the reply with `ok`, the
response with a payload alone is relayed as it is, and the response with an error gets the
reply with the status 400. -/
theorem command_relays_witness :
    HTTPServer.command.relay "a" "mc" Scenario.response
      = ⟨200, "application/json", HTTPBody.agentOk "a" "mc"⟩ ∧
    HTTPServer.command.relay "a" "mc" ⟨KindResponse, "r1", "a", "", "\x7b\"name\":\"mc\"\x7d", "", ⟨3⟩⟩
      = ⟨200, "application/json", HTTPBody.raw "\x7b\"name\":\"mc\"\x7d"⟩ ∧
    HTTPServer.command.relay "a" "mc" Scenario.failedStart
      = ⟨400, "application/json", HTTPBody.agentError "a" "mc" Scenario.failedStart.Error⟩ :=
  ⟨(command_relays "a" "mc" Scenario.response).2.2.1 (by decide) (by decide),
    (command_relays "a" "mc" ⟨KindResponse, "r1", "a", "", "\x7b\"name\":\"mc\"\x7d", "", ⟨3⟩⟩).2.1
      (by decide) (by decide),
    (command_relays "a" "mc" Scenario.failedStart).1 (by decide)⟩

end server
